import Mathlib

/-!
The mozquic stream engine.

A shallow embedding of `StreamState` (`Streams.cpp`): the stream table, the
`unwritten` / `unAcked` chunk queues, the stream-frame packer
`CreateStreamFrames`, and the inbound routing `HandleStreamFrame` / `FindStream`.

Conventions.
* Machine integers are `Nat`; every place where the code's fixed-width
  arithmetic can wrap carries an explicit `% 2 ^ w`.
* A byte buffer is a `List Nat`; a null data pointer is `none`.
* A loop that the source does not bound is given fuel and returns `none` when
  the fuel runs out; `none` is also the outcome of a failed `assert`.
* Classes and constants that live in headers outside `Streams.cpp`
  (`MozQuicStreamChunk`, `MozQuicStreamPair`, `MozQuic`, `STREAM_FIN_BIT`) are
  modelled from the specification and marked as such.
-/

namespace mozquic

/-! ## Data model -/

/-- Return codes (`MozQuic.h`): a small closed enumeration. -/
inductive Code where
  | MOZQUIC_OK
  | MOZQUIC_ERR_GENERAL
  | MOZQUIC_ERR_INVALID
  | MOZQUIC_ERR_ALREADY_FINISHED
  deriving DecidableEq, Repr

/-- Key-phase label stamped on a transmitted chunk. -/
inductive KeyPhase where
  | keyPhaseUnprotected
  | keyPhase1Rtt
  deriving DecidableEq, Repr

/-- Connection states that `Streams.cpp` tests for; every other state of the
connection state machine is `OTHER_STATE`. -/
inductive ConnectionState where
  | STATE_UNINITIALIZED
  | CLIENT_STATE_0RTT
  | CLIENT_STATE_CONNECTED
  | SERVER_STATE_CONNECTED
  | OTHER_STATE
  deriving DecidableEq, Repr

/-- The chunk record `MozQuicStreamChunk`: `mStreamID` and `mLen` are `uint32_t`,
`mOffset` is `uint64_t`, `mData` is the owned buffer (`none` once released). -/
structure MozQuicStreamChunk where
  mStreamID : Nat
  mOffset : Nat
  mData : Option (List Nat)
  mLen : Nat
  mFin : Bool
  mRst : Bool
  mPacketNumber : Nat
  mTransmitTime : Nat
  mTransmitCount : Nat
  mTransmitKeyPhase : KeyPhase
  mRetransmitted : Bool
  deriving DecidableEq, Repr

/-- Modelled from the spec: the five-argument constructor of `MozQuicStreamChunk`
(the class is declared outside `Streams.cpp`). It "takes
`(streamID, offset, dataPtr, len, fin)` and copies `len` bytes into owned
storage"; the result is a data chunk (not a reset marker) that has not been
retransmitted. `src` is the memory found at `dataPtr`. Neither the spec nor the
code under `src/` says what transmit count the constructor gives a new chunk:
that value is the last argument, `count0`. -/
def MozQuicStreamChunk.create (streamID offset : Nat) (src : List Nat) (len : Nat)
    (fin : Bool) (count0 : Nat) : MozQuicStreamChunk :=
  { mStreamID := streamID, mOffset := offset, mData := some (src.take len), mLen := len,
    mFin := fin, mRst := false, mPacketNumber := 0, mTransmitTime := 0,
    mTransmitCount := count0, mTransmitKeyPhase := KeyPhase.keyPhaseUnprotected,
    mRetransmitted := false }

/-- The memory behind `mData.get()`; nothing can be read through a null pointer. -/
def MozQuicStreamChunk.buffer (c : MozQuicStreamChunk) : List Nat :=
  c.mData.getD []

/-- The data bytes a chunk stands for: the first `mLen` bytes of its buffer. -/
def MozQuicStreamChunk.payload (c : MozQuicStreamChunk) : List Nat :=
  c.buffer.take c.mLen

/-- The fields of a chunk fit their C++ types. -/
def MozQuicStreamChunk.inRange (c : MozQuicStreamChunk) : Prop :=
  c.mStreamID < 2 ^ 32 ∧ c.mOffset < 2 ^ 64 ∧ c.mLen < 2 ^ 32

instance (c : MozQuicStreamChunk) : Decidable c.inRange := by
  unfold MozQuicStreamChunk.inRange; infer_instance

/-- The buffer of a chunk holds at least `mLen` bytes (true of every chunk the
constructor builds from `len` readable bytes, and kept by a split). -/
def MozQuicStreamChunk.owned (c : MozQuicStreamChunk) : Prop :=
  c.mLen ≤ c.buffer.length

instance (c : MozQuicStreamChunk) : Decidable c.owned := by
  unfold MozQuicStreamChunk.owned; infer_instance

/-- Modelled from the spec: `MozQuicStreamPair` (declared outside `Streams.cpp`).
Only what the stream table observes is kept: the stream ID and the inbound
chunks handed to `Supply`, oldest first. -/
structure MozQuicStreamPair where
  mStreamID : Nat
  supplied : List MozQuicStreamChunk
  deriving DecidableEq, Repr

/-- The constructor call `new MozQuicStreamPair(id, this, mMozQuic)`. -/
def MozQuicStreamPair.create (id : Nat) : MozQuicStreamPair :=
  { mStreamID := id, supplied := [] }

/-- Modelled from the spec: `Supply(chunk)` "delivers an inbound chunk to the
reassembly"; the model records the delivery. -/
def MozQuicStreamPair.Supply (p : MozQuicStreamPair) (d : MozQuicStreamChunk) :
    MozQuicStreamPair :=
  { p with supplied := p.supplied ++ [d] }

/-- Events passed to the connection event callback. -/
inductive Event where
  | MOZQUIC_EVENT_NEW_STREAM_DATA
  deriving DecidableEq, Repr

/-- The two messages `HandleStreamFrame` passes to `RaiseError`. -/
inductive ErrorText where
  | finNotAllowedOnStream0
  | cleartextNonZeroStreamID
  deriving DecidableEq, Repr

/-- A call made on a collaborator (the `MozQuic` connection object or a stream
pair), as recorded in `StreamState.trace`; `Flush` also records its own call of
`CreateStreamFrames`. -/
inductive Effect where
  | RaiseError (code : Code) (text : ErrorText)
  | ConnEventCB (event : Event) (streamID : Nat)
  | Write (streamID : Nat) (data : List Nat) (amount : Nat) (fin : Bool)
  | FlushStream0 (forceAck : Bool)
  | CreateShortPacketHeader (avail : Nat)
  | CreateStreamFrames (room : Nat) (justZero : Bool)
  | ProtectedTransmit (payload : List Nat)
  deriving DecidableEq, Repr

/-- `StreamState`. `mStreams` is the map from stream ID to stream pair (keys
unique), `mStream0` the pre-created stream 0. `trace` is not a field of the
class: it lists, oldest first, the collaborator calls made so far. -/
structure StreamState where
  mStreams : List (Nat × MozQuicStreamPair)
  mStream0 : MozQuicStreamPair
  mUnWrittenData : List MozQuicStreamChunk
  mUnAckedData : List MozQuicStreamChunk
  mNextStreamId : Nat
  mNextRecvStreamId : Nat
  trace : List Effect
  deriving DecidableEq, Repr

/-- What `Streams.cpp` reads from, or asks of, code outside it. -/
structure Env where
  /-- `MozQuicStreamPair::Write` (declared outside `Streams.cpp`). By the
  specification it "appends one or more chunks to the outbound unwritten queue":
  the function gives the status `Write` returns and the chunks it queues, in
  order. -/
  Write : MozQuicStreamPair → List Nat → Nat → Bool → Code × List MozQuicStreamChunk
  /-- `MozQuicStreamPair::Empty`. -/
  Empty : MozQuicStreamPair → Bool
  /-- Whether `mMozQuic->mConnEventCB` is set. -/
  mConnEventCB : Bool
  /-- `MozQuic::CreateStreamRst(framePtr, endpkt, chunk)`, given the room left:
  its status and the bytes it wrote while advancing `framePtr`. -/
  CreateStreamRst : Nat → MozQuicStreamChunk → Code × List Nat
  /-- `mMozQuic->GetConnectionState()`. -/
  connectionState : ConnectionState
  /-- `mMozQuic->mNextTransmitPacketNumber`. -/
  mNextTransmitPacketNumber : Nat
  /-- `MozQuic::Timestamp()`: the clock reading during the call (milliseconds,
  a `uint64_t`). -/
  Timestamp : Nat
  /-- `mMozQuic->DecodedOK()`: the handshake has delivered a decryption context. -/
  DecodedOK : Bool
  /-- `MozQuic::FlushStream0(forceAck)`, the stream-0-only flush of the
  connection object: what it makes of the stream state. -/
  FlushStream0 : Bool → StreamState → StreamState
  /-- `mMozQuic->mMTU`. -/
  mMTU : Nat
  /-- The constant `kMaxMTU` (size of the packet buffer of `Flush`). -/
  kMaxMTU : Nat
  /-- The constant `kTagLen` (room reserved for the AEAD tag). -/
  kTagLen : Nat
  /-- `MozQuic::CreateShortPacketHeader(pkt, avail, headerLen)`: the header length
  it reports. -/
  CreateShortPacketHeader : Nat → Nat
  /-- `MozQuic::ProtectedTransmit(...)`: its status, given the payload bytes. -/
  ProtectedTransmit : List Nat → Code
  /-- The constant `kRetransmitThresh` (milliseconds). -/
  kRetransmitThresh : Nat
  /-- The constant `kForgetUnAckedThresh` (milliseconds). -/
  kForgetUnAckedThresh : Nat
  /-- The transmit count the constructor of `MozQuicStreamChunk` (declared outside
  `Streams.cpp`) gives a new chunk. -/
  newChunkTransmitCount : Nat

/-! ## The stream table -/

/-- `mStreams.find(streamID)`. -/
def findStream (m : List (Nat × MozQuicStreamPair)) (streamID : Nat) :
    Option MozQuicStreamPair :=
  m.lookup streamID

/-- `mStreams.insert({id, stream})`: a map with unique keys keeps the element it
already has under `id`. -/
def insertStream (m : List (Nat × MozQuicStreamPair)) (id : Nat) (p : MozQuicStreamPair) :
    List (Nat × MozQuicStreamPair) :=
  match findStream m id with
  | some _ => m
  | none => m ++ [(id, p)]

/-- `mStreams.erase(streamID)`. -/
def eraseStream (m : List (Nat × MozQuicStreamPair)) (streamID : Nat) :
    List (Nat × MozQuicStreamPair) :=
  m.filter (fun e => e.1 != streamID)

/-- Replace the stream pair stored under `streamID` (the map holds pointers, so
a call on the found pair changes the pair the map refers to). -/
def updateStream (m : List (Nat × MozQuicStreamPair)) (streamID : Nat)
    (p : MozQuicStreamPair) : List (Nat × MozQuicStreamPair) :=
  m.map (fun e => if e.1 == streamID then (e.1, p) else e)

/-- The statement `mUnWrittenData.push_back(std::move(p))`. -/
def queueUnWritten (s : StreamState) (p : MozQuicStreamChunk) : StreamState :=
  { s with mUnWrittenData := s.mUnWrittenData ++ [p] }

/-- `StreamState::DoWriter`: queue a chunk on `unwritten`. `none` is the failed
assertion `GetConnectionState() != STATE_UNINITIALIZED`. -/
def DoWriter (env : Env) (s : StreamState) (p : MozQuicStreamChunk) :
    Option (Code × StreamState) :=
  if env.connectionState = ConnectionState.STATE_UNINITIALIZED then none
  else some (Code.MOZQUIC_OK, queueUnWritten s p)

/-- `StreamState::StartNewStream`: the status, `*outStream`, and the new state.
The chunks `Write` queues are put at the end of `unwritten`; what else `Write`
does on the way (its body is outside `Streams.cpp`) is not part of the result. -/
def StartNewStream (env : Env) (s : StreamState) (data : List Nat) (amount : Nat)
    (fin : Bool) : Code × MozQuicStreamPair × StreamState :=
  let outStream := MozQuicStreamPair.create s.mNextStreamId
  let s1 := { s with mStreams := insertStream s.mStreams s.mNextStreamId outStream }
  let s2 := { s1 with mNextStreamId := (s1.mNextStreamId + 2) % 2 ^ 32 }
  if amount ≠ 0 ∨ fin = true then
    let w := env.Write outStream data amount fin
    let s3 := { s2 with trace := s2.trace ++ [Effect.Write outStream.mStreamID data amount fin] }
    (w.1, outStream, w.2.foldl queueUnWritten s3)
  else
    (Code.MOZQUIC_OK, outStream, s2)

/-- The `while (streamID >= mNextRecvStreamId)` loop of `FindStream`; `none`
when the fuel is used up before the loop condition fails. -/
def openStreams (streamID : Nat) : Nat → StreamState → Option StreamState
  | 0, s => if streamID ≥ s.mNextRecvStreamId then none else some s
  | fuel + 1, s =>
    if streamID ≥ s.mNextRecvStreamId then
      let stream := MozQuicStreamPair.create s.mNextRecvStreamId
      let s1 := { s with mStreams := insertStream s.mStreams s.mNextRecvStreamId stream }
      openStreams streamID fuel { s1 with mNextRecvStreamId := (s1.mNextRecvStreamId + 2) % 2 ^ 32 }
    else some s

/-- `StreamState::FindStream`. -/
def FindStream (env : Env) (fuel : Nat) (s : StreamState) (streamID : Nat)
    (d : MozQuicStreamChunk) : Option (Code × StreamState) :=
  match openStreams streamID fuel s with
  | none => none
  | some s1 =>
    match findStream s1.mStreams streamID with
    | none => some (Code.MOZQUIC_ERR_ALREADY_FINISHED, s1)
    | some p =>
      let p1 := p.Supply d
      let s2 := { s1 with mStreams := updateStream s1.mStreams streamID p1 }
      if !env.Empty p1 && env.mConnEventCB then
        some (Code.MOZQUIC_OK,
          { s2 with trace := s2.trace ++ [Effect.ConnEventCB Event.MOZQUIC_EVENT_NEW_STREAM_DATA streamID] })
      else some (Code.MOZQUIC_OK, s2)

/-- `StreamState::DeleteStream`. -/
def DeleteStream (s : StreamState) (streamID : Nat) : StreamState :=
  { s with mStreams := eraseStream s.mStreams streamID }

/-- The stream part of `FrameHeaderData` (`result->u.mStream`). -/
structure StreamFrameHeader where
  mStreamID : Nat
  mDataLen : Nat
  mOffset : Nat
  mFinBit : Bool
  deriving DecidableEq, Repr

/-- `mMozQuic->RaiseError(code, text)`, as seen from the stream engine. -/
def RaiseError (s : StreamState) (code : Code) (text : ErrorText) : StreamState :=
  { s with trace := s.trace ++ [Effect.RaiseError code text] }

/-- `StreamState::HandleStreamFrame`. `pkt` is the memory from `pkt` to `endpkt`,
`ptr` the cursor `_ptr`; the result carries the status, the new state and the
cursor after the call. -/
def HandleStreamFrame (env : Env) (fuel : Nat) (s : StreamState) (result : StreamFrameHeader)
    (fromCleartext : Bool) (pkt : List Nat) (ptr : Nat) : Option (Code × StreamState × Nat) :=
  if result.mStreamID = 0 ∧ result.mFinBit = true then
    some (Code.MOZQUIC_ERR_GENERAL,
      RaiseError s Code.MOZQUIC_ERR_GENERAL ErrorText.finNotAllowedOnStream0, ptr)
  else if ¬ (ptr + result.mDataLen ≤ pkt.length) then none
  else
    let tmp := MozQuicStreamChunk.create result.mStreamID result.mOffset (pkt.drop ptr)
      result.mDataLen result.mFinBit env.newChunkTransmitCount
    if result.mStreamID = 0 then
      some (Code.MOZQUIC_OK, { s with mStream0 := s.mStream0.Supply tmp },
        (ptr + result.mDataLen) % 2 ^ 32)
    else if fromCleartext = true then
      some (Code.MOZQUIC_ERR_GENERAL,
        RaiseError s Code.MOZQUIC_ERR_GENERAL ErrorText.cleartextNonZeroStreamID, ptr)
    else
      match FindStream env fuel s result.mStreamID tmp with
      | none => none
      | some (rv, s1) =>
        if rv ≠ Code.MOZQUIC_OK then some (rv, s1, ptr)
        else some (Code.MOZQUIC_OK, s1, (ptr + result.mDataLen) % 2 ^ 32)

/-- One erase-while-iterating loop of `ScrubUnWritten` over a chunk list. -/
def scrubLoop (streamID : Nat) : List MozQuicStreamChunk → List MozQuicStreamChunk
  | [] => []
  | chunk :: rest =>
    if chunk.mStreamID = streamID ∧ chunk.mRst = false then scrubLoop streamID rest
    else chunk :: scrubLoop streamID rest

/-- `StreamState::ScrubUnWritten`. -/
def ScrubUnWritten (s : StreamState) (streamID : Nat) : Code × StreamState :=
  (Code.MOZQUIC_OK,
    { s with mUnWrittenData := scrubLoop streamID s.mUnWrittenData,
             mUnAckedData := scrubLoop streamID s.mUnAckedData })

/-! ## The stream-frame packer -/

/-- The `n` low-order bytes of `v`, most significant first: what `htons`,
`htonl` and `PR_htonll` leave in memory for `n = 2, 4, 8`. -/
def beBytes : Nat → Nat → List Nat
  | 0, _ => []
  | n + 1, v => (v / 256 ^ n % 256) :: beBytes n v

/-- Modelled from the spec: `STREAM_FIN_BIT` (defined in a header outside
`Streams.cpp`); the `F` bit of the type byte `1 1 F S S O O D`. -/
def STREAM_FIN_BIT : Nat := 0x20

/-- `varSize`: 0 to 3 depending on the magnitude of the input. -/
def varSize (input : Nat) : Nat :=
  if input < 0x100 then 0 else if input < 0x10000 then 1
  else if input < 0x100000000 then 2 else 3

/-- The stream-ID width: `idLen` starts at 4 and is decremented by the loop
`for (i = 0; i < 3 && bytes[i] == 0; i++)` over the bytes of `htonl(streamID)`. -/
def streamIdLen (streamID : Nat) : Nat :=
  4 - (((beBytes 4 streamID).take 3).takeWhile (fun b => b == 0)).length

/-- The pair `(offsetSizeType, offsetLen)` that `CreateStreamFrames` derives from
the chunk offset: widths 0, 16, 32, 64 bits instead of the usual 8, 16, 32, 64. -/
def offsetSize (offset : Nat) : Nat × Nat :=
  let offsetSizeType := varSize offset
  if offsetSizeType = 0 then
    if offset ≠ 0 then (1, 2) else (0, 0)
  else (offsetSizeType, 1 <<< offsetSizeType)

/-- The offset width in bytes. -/
def offsetLen (offset : Nat) : Nat := (offsetSize offset).2

/-- What packing one data chunk produces: the bytes written at `framePtr`, how
far `framePtr` moved, the chunk as it is moved to `unAcked` (truncated by a
split) and, after a split, the chunk inserted behind it in `unwritten`. -/
structure Packed where
  bytes : List Nat
  advance : Nat
  chunk : MozQuicStreamChunk
  tail : Option MozQuicStreamChunk
  deriving DecidableEq, Repr

/-- The split of an over-long chunk (`if (room < (*iter)->mLen)`), for the data
budget `room`: the chunk at the iterator, truncated and with its FIN cleared,
and the chunk built from its tail bytes that is inserted behind it. A chunk
that fits is left alone. `count0` is the transmit count the constructor gives
the new chunk. -/
def splitChunk (count0 room : Nat) (c : MozQuicStreamChunk) :
    MozQuicStreamChunk × Option MozQuicStreamChunk :=
  if room < c.mLen then
    ({ c with mLen := room, mFin := false },
      some (MozQuicStreamChunk.create c.mStreamID ((c.mOffset + room) % 2 ^ 64)
        (c.buffer.drop room) (c.mLen - room) c.mFin count0))
  else (c, none)

/-- The body of the packing loop for a data chunk (the `else` branch of
`if ((*iter)->mRst)`), given `endpkt - framePtr`. `none` is a `break`: nothing
is emitted and the chunk stays where it is. (On the second `break` the byte
`0xc1` has been stored at `framePtr[0]`, but `framePtr` has not moved, so the
byte is not part of the frames handed on.) -/
def packDataChunk (count0 avail : Nat) (c : MozQuicStreamChunk) : Option Packed :=
  let room := avail % 2 ^ 32
  if room < 1 then none
  else
    let idLen := streamIdLen c.mStreamID
    let offsetSizeType := (offsetSize c.mOffset).1
    let offsetLen := (offsetSize c.mOffset).2
    if room < 4 + idLen + offsetLen then none
    else
      let typeByte := (0xc1 ||| ((idLen - 1) <<< 3) ||| (offsetSizeType <<< 1)) % 256
      let idBytes := ((beBytes 4 c.mStreamID).drop (4 - idLen)).take idLen
      let offsetBytes :=
        if offsetLen ≠ 0 then ((beBytes 8 c.mOffset).drop (8 - offsetLen)).take offsetLen else []
      let room := room - (3 + idLen + offsetLen)
      let sp := splitChunk count0 room c
      let lenBytes := beBytes 2 (sp.1.mLen % 2 ^ 16)
      let typeByte := if sp.1.mFin = true then (typeByte ||| STREAM_FIN_BIT) % 256 else typeByte
      some { bytes := [typeByte] ++ idBytes ++ offsetBytes ++ lenBytes ++ sp.1.buffer.take sp.1.mLen,
             advance := 1 + idLen + offsetLen + 2 + sp.1.mLen,
             chunk := sp.1,
             tail := sp.2 }

/-- The stamping that ends each iteration of the packing loop, before the chunk
is moved to `unAcked`. -/
def stampChunk (env : Env) (c : MozQuicStreamChunk) : MozQuicStreamChunk :=
  { c with
    mPacketNumber := env.mNextTransmitPacketNumber,
    mTransmitTime := env.Timestamp,
    mTransmitKeyPhase :=
      if env.connectionState = ConnectionState.CLIENT_STATE_CONNECTED ∨
         env.connectionState = ConnectionState.SERVER_STATE_CONNECTED ∨
         env.connectionState = ConnectionState.CLIENT_STATE_0RTT
      then KeyPhase.keyPhase1Rtt else KeyPhase.keyPhaseUnprotected,
    mRetransmitted := false }

/-- The state of the packing loop: the part of `unwritten` before the iterator,
the `unAcked` queue, the bytes written so far and `endpkt - framePtr`. -/
structure PackState where
  kept : List MozQuicStreamChunk
  unAcked : List MozQuicStreamChunk
  out : List Nat
  room : Nat
  deriving DecidableEq, Repr

/-- The `while (iter != mUnWrittenData.end())` loop of `CreateStreamFrames`;
the list argument is `unwritten` from the iterator on. The result is the
final `unwritten`, `unAcked`, the bytes written and the room left. -/
def packLoop (env : Env) (justZero : Bool) :
    Nat → List MozQuicStreamChunk → PackState → Option PackState
  | 0, _, _ => none
  | _ + 1, [], st => some st
  | fuel + 1, c :: rest, st =>
    if justZero = true ∧ c.mStreamID ≠ 0 then
      packLoop env justZero fuel rest { st with kept := st.kept ++ [c] }
    else if c.mRst = true then
      let r := env.CreateStreamRst st.room c
      if r.1 ≠ Code.MOZQUIC_OK then
        some { st with kept := st.kept ++ c :: rest, out := st.out ++ r.2,
                       room := st.room - r.2.length }
      else
        packLoop env justZero fuel rest
          { st with unAcked := st.unAcked ++ [stampChunk env c], out := st.out ++ r.2,
                    room := st.room - r.2.length }
    else
      match packDataChunk env.newChunkTransmitCount st.room c with
      | none => some { st with kept := st.kept ++ c :: rest }
      | some p =>
        packLoop env justZero fuel (p.tail.toList ++ rest)
          { st with unAcked := st.unAcked ++ [stampChunk env p.chunk], out := st.out ++ p.bytes,
                    room := st.room - p.advance }

/-- `StreamState::CreateStreamFrames`, for a buffer with `room = endpkt - framePtr`
bytes left: the status, the bytes written from `framePtr` on, the room left
and the new state. The loop runs at most twice per queued chunk (a chunk is
split at most once per call), which bounds the fuel. -/
def CreateStreamFrames (env : Env) (s : StreamState) (room : Nat) (justZero : Bool) :
    Option (Code × List Nat × Nat × StreamState) :=
  match packLoop env justZero (2 * s.mUnWrittenData.length + 1) s.mUnWrittenData
      { kept := [], unAcked := s.mUnAckedData, out := [], room := room } with
  | none => none
  | some st =>
    some (Code.MOZQUIC_OK, st.out, st.room,
      { s with mUnWrittenData := st.kept, mUnAckedData := st.unAcked })

/-! ## Flushing -/

/-- `StreamState::Flush`. The recursion `return Flush(false)` is given fuel; `none`
also stands for the failed assertion `mtu <= kMaxMTU`. The packet buffer starts
with the short header; `endpkt - framePtr` is `mtu - kTagLen - headerLen`, which
`CreateStreamFrames` reads as a `uint32_t`. The value `FlushStream0` returns is
not looked at, as in the source. -/
def Flush (env : Env) : Nat → Bool → StreamState → Option (Code × StreamState)
  | 0, _, _ => none
  | fuel + 1, forceAck, s =>
    let s1 :=
      if env.DecodedOK = false then
        env.FlushStream0 forceAck { s with trace := s.trace ++ [Effect.FlushStream0 forceAck] }
      else s
    if s1.mUnWrittenData = [] ∧ forceAck = false then some (Code.MOZQUIC_OK, s1)
    else if ¬ (env.mMTU ≤ env.kMaxMTU) then none
    else
      let avail := (env.mMTU + 2 ^ 32 - env.kTagLen % 2 ^ 32) % 2 ^ 32
      let headerLen := env.CreateShortPacketHeader avail
      let room := Int.toNat (((env.mMTU : Int) - env.kTagLen - headerLen) % 2 ^ 32)
      let s2 := { s1 with trace := s1.trace ++
        [Effect.CreateShortPacketHeader avail, Effect.CreateStreamFrames room false] }
      match CreateStreamFrames env s2 room false with
      | none => none
      | some r =>
        let rv := env.ProtectedTransmit r.2.1
        let s3 := { r.2.2.2 with trace := r.2.2.2.trace ++ [Effect.ProtectedTransmit r.2.1] }
        if rv ≠ Code.MOZQUIC_OK then some (rv, s3)
        else if s3.mUnWrittenData ≠ [] then Flush env fuel false s3
        else some (Code.MOZQUIC_OK, s3)

/-! ## The retransmission timer -/

/-- The `uint64_t` difference `a - b`. -/
def sub64 (a b : Nat) : Nat :=
  (a % 2 ^ 64 + 2 ^ 64 - b % 2 ^ 64) % 2 ^ 64

/-- `retransEpoch = now - (kRetransmitThresh * mTransmitCount)`; the product is
taken to fit the type it is computed in. -/
def retransEpoch (env : Env) (now : Nat) (c : MozQuicStreamChunk) : Nat :=
  sub64 now (env.kRetransmitThresh * c.mTransmitCount)

/-- The test `(*i)->mTransmitTime > retransEpoch` that ends the scan. -/
def scanStops (env : Env) (now : Nat) (c : MozQuicStreamChunk) : Bool :=
  decide (c.mTransmitTime > retransEpoch env now c)

/-- `discardEpoch = now - kForgetUnAckedThresh`. -/
def discardEpoch (env : Env) (now : Nat) : Nat :=
  sub64 now env.kForgetUnAckedThresh

/-- The test `mTransmitTime <= discardEpoch && mRetransmitted` that drops a chunk
kept for its timestamp only. -/
def forgets (env : Env) (now : Nat) (c : MozQuicStreamChunk) : Bool :=
  decide (c.mTransmitTime ≤ discardEpoch env now) && c.mRetransmitted

/-- Modelled from the spec: the copy constructor of `MozQuicStreamChunk` (the
class is declared outside `Streams.cpp`), which "transfers ownership of the
data buffer from the source to the copy, leaving the source with `len` and
offset preserved for timing bookkeeping but no buffer"; the copy duplicates
the metadata of the source. The result is the copy and what is left of the
source. -/
def MozQuicStreamChunk.steal (orig : MozQuicStreamChunk) :
    MozQuicStreamChunk × MozQuicStreamChunk :=
  (orig, { orig with mData := none })

/-- The `for` loop of `RetransmitTimer` from the iterator on: the chunks it leaves
in `unAcked` from there, and the state after the `DoWriter` calls. `none` is a
failed assertion, on `mData` or in `DoWriter`. -/
def retransmitLoop (env : Env) (now : Nat) :
    List MozQuicStreamChunk → StreamState → Option (List MozQuicStreamChunk × StreamState)
  | [], s => some ([], s)
  | c :: rest, s =>
    if scanStops env now c = true then some (c :: rest, s)
    else if forgets env now c = true then
      if c.mData.isSome = true then none
      else retransmitLoop env now rest s
    else if c.mRetransmitted = false then
      if c.mData.isSome = false then none
      else
        let flagged := { c with mRetransmitted := true }
        let tmp := flagged.steal.1
        match DoWriter env s tmp with
        | none => none
        | some w =>
          match retransmitLoop env now rest w.2 with
          | none => none
          | some r => some (flagged.steal.2 :: r.1, r.2)
    else
      match retransmitLoop env now rest s with
      | none => none
      | some r => some (c :: r.1, r.2)

/-- `StreamState::RetransmitTimer`. -/
def RetransmitTimer (env : Env) (s : StreamState) : Option (Code × StreamState) :=
  if s.mUnAckedData = [] then some (Code.MOZQUIC_OK, s)
  else
    match retransmitLoop env env.Timestamp s.mUnAckedData s with
    | none => none
    | some r => some (Code.MOZQUIC_OK, { r.2 with mUnAckedData := r.1 })

/-- The retransmission deadline of the specification (linear backoff):
`transmitTime + kRetransmitThresh × transmitCount`, over the unbounded integers. -/
def retransDeadline (env : Env) (c : MozQuicStreamChunk) : Nat :=
  c.mTransmitTime + env.kRetransmitThresh * c.mTransmitCount

/-- The chunk the timer queues for a chunk it retransmits. -/
def requeued (c : MozQuicStreamChunk) : MozQuicStreamChunk :=
  ({ c with mRetransmitted := true } : MozQuicStreamChunk).steal.1

/-- What the timer leaves in `unAcked` of a chunk it retransmits. -/
def released (c : MozQuicStreamChunk) : MozQuicStreamChunk :=
  ({ c with mRetransmitted := true } : MozQuicStreamChunk).steal.2

/-- What the timer leaves in `unAcked` of a chunk it neither stops at nor drops. -/
def afterTimer (c : MozQuicStreamChunk) : MozQuicStreamChunk :=
  if c.mRetransmitted = false then released c else c

/-- The chunks of a queue the scan of the timer gets past: those before the first
chunk at which it stops. -/
def scanned (env : Env) (now : Nat) (q : List MozQuicStreamChunk) : List MozQuicStreamChunk :=
  q.takeWhile (fun c => !scanStops env now c)

/-- The chunks of a queue from the one at which the scan stops. -/
def unscanned (env : Env) (now : Nat) (q : List MozQuicStreamChunk) : List MozQuicStreamChunk :=
  q.dropWhile (fun c => !scanStops env now c)

/-- A chunk of `unAcked` has been retransmitted exactly if its buffer is gone. -/
def flagMatchesBuffer (c : MozQuicStreamChunk) : Prop :=
  c.mRetransmitted = true ↔ c.mData = none

instance (c : MozQuicStreamChunk) : Decidable (flagMatchesBuffer c) := by
  unfold flagMatchesBuffer; infer_instance

/-- The queues at clock reading `now`, for a property `Q` of transmit counts:
every chunk in `unAcked` was transmitted at or before `now` and its transmit
count has `Q`; the transmit count of every chunk waiting in `unwritten` has
`Q`. -/
def queuesTimed (Q : Nat → Prop) (now : Nat) (s : StreamState) : Prop :=
  (∀ c ∈ s.mUnAckedData, c.mTransmitTime ≤ now ∧ Q c.mTransmitCount) ∧
  (∀ c ∈ s.mUnWrittenData, Q c.mTransmitCount)

instance (Q : Nat → Prop) [DecidablePred Q] (now : Nat) (s : StreamState) :
    Decidable (queuesTimed Q now s) := by
  unfold queuesTimed; infer_instance

/-- The buffers of the queues: every chunk in `unAcked` has its retransmitted
flag set exactly if its buffer is released, and every chunk waiting in
`unwritten` has a buffer. -/
def buffersKept (s : StreamState) : Prop :=
  (∀ c ∈ s.mUnAckedData, flagMatchesBuffer c) ∧
  (∀ c ∈ s.mUnWrittenData, c.mData.isSome = true)

instance (s : StreamState) : Decidable (buffersKept s) := by
  unfold buffersKept; infer_instance

/-- `BufferedRun s`: the state `s` is reached from a state with both queues empty
(such as a freshly constructed one) by calls of `DoWriter` with chunks that
carry a buffer, of `CreateStreamFrames`, of `RetransmitTimer` and of
`ScrubUnWritten` that return, in any environments (`traced`: what is recorded
of calls on collaborators does not matter). -/
inductive BufferedRun : StreamState → Prop where
  | init (s : StreamState) (hw : s.mUnWrittenData = []) (ha : s.mUnAckedData = []) :
      BufferedRun s
  | write (env : Env) (s s' : StreamState) (p : MozQuicStreamChunk) (rv : Code) :
      BufferedRun s → p.mData.isSome = true → DoWriter env s p = some (rv, s') →
      BufferedRun s'
  | pack (env : Env) (s s' : StreamState) (room : Nat) (justZero : Bool) (rv : Code)
      (out : List Nat) (room' : Nat) :
      BufferedRun s → CreateStreamFrames env s room justZero = some (rv, out, room', s') →
      BufferedRun s'
  | timer (env : Env) (s s' : StreamState) (rv : Code) :
      BufferedRun s → RetransmitTimer env s = some (rv, s') → BufferedRun s'
  | scrub (s : StreamState) (streamID : Nat) :
      BufferedRun s → BufferedRun (ScrubUnWritten s streamID).2
  | traced (s : StreamState) (trace : List Effect) :
      BufferedRun s → BufferedRun { s with trace := trace }

/-! ## Stream-ID bookkeeping -/

/-- The stream IDs for which the loop of `FindStream` creates a stream pair, in
the order of creation (the values the counter runs through). -/
def openedIDs (streamID : Nat) : Nat → Nat → List Nat
  | 0, _ => []
  | fuel + 1, next =>
    if streamID ≥ next then next :: openedIDs streamID fuel ((next + 2) % 2 ^ 32) else []

/-- `Reachable env s0 s locals peers`: the state `s` is reached from `s0` by calls
of `StartNewStream`, `FindStream` and `DeleteStream`; `locals` are the IDs given
to locally initiated streams on the way, `peers` the IDs for which `FindStream`
materialised a stream of the peer. -/
inductive Reachable (env : Env) (s0 : StreamState) :
    StreamState → List Nat → List Nat → Prop where
  | init : Reachable env s0 s0 [] []
  | start (s : StreamState) (locals peers : List Nat) (data : List Nat) (amount : Nat)
      (fin : Bool) :
      Reachable env s0 s locals peers →
      Reachable env s0 (StartNewStream env s data amount fin).2.2
        (s.mNextStreamId :: locals) peers
  | find (s s' : StreamState) (locals peers : List Nat) (fuel streamID : Nat)
      (d : MozQuicStreamChunk) (rv : Code) :
      Reachable env s0 s locals peers →
      FindStream env fuel s streamID d = some (rv, s') →
      Reachable env s0 s' locals (openedIDs streamID fuel s.mNextRecvStreamId ++ peers)
  | delete (s : StreamState) (locals peers : List Nat) (streamID : Nat) :
      Reachable env s0 s locals peers →
      Reachable env s0 (DeleteStream s streamID) locals peers

/-! ## Crypto initialisation (`API.cpp`) -/

/-- The process-wide state of `API.cpp`: the flag `mozQuicInit`, the arguments of
the calls of `NSSHelper::Init` made so far (oldest first; `none` is a null
directory, the default profile), and the number of connections created. -/
structure ProcessState where
  mozQuicInit : Nat
  initCalls : List (Option (List Nat))
  connections : Nat
  deriving DecidableEq, Repr

/-- What `API.cpp` asks of code outside it. -/
structure ApiEnv where
  /-- `mozquic::NSSHelper::Init(dir)`: its status. -/
  NSSHelperInit : Option (List Nat) → Code
  /-- Whether `new mozquic::MozQuic(...)` yields an object. -/
  newMozQuic : Bool

/-- The part of `mozquic_config_t` that decides the outcome of
`mozquic_new_connection`. -/
structure mozquic_config_t where
  originName : Option (List Nat)
  deriving DecidableEq, Repr

/-- `mozquic_nss_config(dir)`. -/
def mozquic_nss_config (env : ApiEnv) (p : ProcessState) (dir : Option (List Nat)) :
    Code × ProcessState :=
  if p.mozQuicInit ≠ 0 then (Code.MOZQUIC_ERR_GENERAL, p)
  else
    let p1 := { p with mozQuicInit := 1 }
    match dir with
    | none => (Code.MOZQUIC_ERR_INVALID, p1)
    | some d => (env.NSSHelperInit (some d), { p1 with initCalls := p1.initCalls ++ [some d] })

/-- `mozquic_new_connection(outConnection, inConfig)`: `outConnection` says whether
the out-pointer is non-null, `inConfig` is `none` for a null pointer. The
lazy initialisation comes first; `p1` is the process state after it. Setting
up the new connection object concerns that object only. -/
def mozquic_new_connection (env : ApiEnv) (p : ProcessState) (outConnection : Bool)
    (inConfig : Option mozquic_config_t) : Code × ProcessState :=
  let p1 := if p.mozQuicInit = 0 then { p with initCalls := p.initCalls ++ [none] } else p
  if p.mozQuicInit = 0 ∧ env.NSSHelperInit none ≠ Code.MOZQUIC_OK then
    (env.NSSHelperInit none, p1)
  else
    match inConfig with
    | none => (Code.MOZQUIC_ERR_INVALID, p1)
    | some config =>
      if outConnection = false then (Code.MOZQUIC_ERR_INVALID, p1)
      else if config.originName = none then (Code.MOZQUIC_ERR_INVALID, p1)
      else if env.newMozQuic = false then (Code.MOZQUIC_ERR_GENERAL, p1)
      else (Code.MOZQUIC_OK, { p1 with connections := p1.connections + 1 })

/-! ## The stream-frame layout of the specification (section 4.4) -/

/-- The two-bit field `OO` for an offset width: `00` for 0 bytes, `01` for 2,
`10` for 4, `11` for 8. -/
def offsetWidthCode (width : Nat) : Nat :=
  if width = 0 then 0 else if width = 2 then 1 else if width = 4 then 2 else 3

/-- The type byte `1 1 F S S O O D` with `D = 1`, written as
`0xC0 | (F << 5) | ((idLen - 1) << 3) | (OO << 1) | 1`. -/
def typeByteLayout (fin : Bool) (idLen offsetWidth : Nat) : Nat :=
  0xC0 ||| ((if fin then 1 else 0) <<< 5) ||| ((idLen - 1) <<< 3) |||
    (offsetWidthCode offsetWidth <<< 1) ||| 1

/-- The frame that section 4.4 prescribes for a data chunk: type byte, stream ID,
offset, 16-bit length (all in network byte order), then the data bytes. The
field widths are the ones `CreateStreamFrames` chooses. As everywhere, `beBytes`
keeps the low-order bytes of its argument: the two length bytes are the 16-bit
value of `mLen`, which is `mLen` itself whenever `mLen < 2 ^ 16`. -/
def streamFrameLayout (c : MozQuicStreamChunk) : List Nat :=
  [typeByteLayout c.mFin (streamIdLen c.mStreamID) (offsetLen c.mOffset)] ++
    beBytes (streamIdLen c.mStreamID) c.mStreamID ++
    beBytes (offsetLen c.mOffset) c.mOffset ++
    beBytes 2 c.mLen ++
    c.payload

/-- The number denoted by bytes in network byte order. -/
def beValue (bytes : List Nat) : Nat :=
  bytes.foldl (fun acc b => acc * 256 + b) 0

/-- The tuple a stream frame stands for. -/
structure StreamFrameFields where
  streamID : Nat
  offset : Nat
  len : Nat
  fin : Bool
  data : List Nat
  deriving DecidableEq, Repr

/-- The tuple of a chunk. -/
def MozQuicStreamChunk.fields (c : MozQuicStreamChunk) : StreamFrameFields :=
  { streamID := c.mStreamID, offset := c.mOffset, len := c.mLen, fin := c.mFin,
    data := c.payload }

/-- A reader of the section 4.4 layout: the top two bits of the type byte must
be `1 1` and `D` must be 1; `SS + 1` bytes of stream ID follow, then an offset
of 0, 2, 4 or 8 bytes as `OO` says (implicitly 0 when absent), a 16-bit length
and that many data bytes. The result is the tuple read and the bytes left. -/
def parseStreamFrame (bytes : List Nat) : Option (StreamFrameFields × List Nat) :=
  match bytes with
  | [] => none
  | t :: rest =>
    if t / 64 ≠ 3 ∨ t % 2 ≠ 1 then none
    else
      let fin := decide (t / 32 % 2 = 1)
      let idLen := t / 8 % 4 + 1
      let oo := t / 2 % 4
      let offsetWidth := if oo = 0 then 0 else if oo = 1 then 2 else if oo = 2 then 4 else 8
      if rest.length < idLen + offsetWidth + 2 then none
      else
        let streamID := beValue (rest.take idLen)
        let rest := rest.drop idLen
        let offset := beValue (rest.take offsetWidth)
        let rest := rest.drop offsetWidth
        let len := beValue (rest.take 2)
        let rest := rest.drop 2
        if rest.length < len then none
        else
          some ({ streamID := streamID, offset := offset, len := len, fin := fin,
                  data := rest.take len }, rest.drop len)

/-! ## Repeated packing passes -/

/-- A buffer offers room for the frame header of `c` and at least one data byte
(`1 + idLen + offsetLen + 2 + 1`), and its size fits the `uint32_t room`. -/
def roomForOneByte (room : Nat) (c : MozQuicStreamChunk) : Bool :=
  decide (1 + streamIdLen c.mStreamID + offsetLen c.mOffset + 2 + 1 ≤ room ∧ room < 2 ^ 32)

/-- Successive packing passes: `CreateStreamFrames` with `justZero = false`, each
on a fresh buffer with the given room (and its own environment). -/
def packingPasses : List (Env × Nat) → StreamState → Option StreamState
  | [], s => some s
  | (env, room) :: more, s =>
    match CreateStreamFrames env s room false with
    | none => none
    | some r => packingPasses more r.2.2.2

/-- Every pass of the sequence starts with a chunk waiting in `unwritten` and
offers room for at least one data byte of the first one. -/
def passesHaveRoom : List (Env × Nat) → StreamState → Bool
  | [], _ => true
  | (env, room) :: more, s =>
    (match s.mUnWrittenData with
      | [] => false
      | c :: _ => roomForOneByte room c) &&
    (match CreateStreamFrames env s room false with
      | none => true
      | some r => passesHaveRoom more r.2.2.2)

/-- Chunk `b` continues the stream right after chunk `a`: its offset is the
offset behind the last byte of `a`, and lies beyond the offset of `a`. -/
def continues (a b : MozQuicStreamChunk) : Prop :=
  a.mOffset + a.mLen = b.mOffset ∧ a.mOffset < b.mOffset

/-- The progress measure of a queue: the data bytes its chunks stand for plus the
number of its chunks. -/
def queueMeasure (q : List MozQuicStreamChunk) : Nat :=
  (q.map (fun c => c.mLen)).sum + q.length

/-- The room `Flush` hands to `CreateStreamFrames`: `endpkt - framePtr` behind the
short header, as a `uint32_t`. -/
def flushRoom (env : Env) : Nat :=
  Int.toNat (((env.mMTU : Int) - env.kTagLen -
    env.CreateShortPacketHeader ((env.mMTU + 2 ^ 32 - env.kTagLen % 2 ^ 32) % 2 ^ 32)) % 2 ^ 32)

/-! ## Concrete instances -/

/-- A connected client whose event callback is set and whose collaborators
accept every request without queuing or writing anything. -/
def exampleEnv : Env where
  Write := fun _ _ _ _ => (Code.MOZQUIC_OK, [])
  Empty := fun _ => false
  mConnEventCB := true
  CreateStreamRst := fun _ _ => (Code.MOZQUIC_OK, [])
  connectionState := ConnectionState.CLIENT_STATE_CONNECTED
  mNextTransmitPacketNumber := 7
  Timestamp := 100
  DecodedOK := true
  FlushStream0 := fun _ s => s
  mMTU := 1236
  kMaxMTU := 1500
  kTagLen := 16
  CreateShortPacketHeader := fun _ => 16
  ProtectedTransmit := fun _ => Code.MOZQUIC_OK
  kRetransmitThresh := 500
  kForgetUnAckedThresh := 10000
  newChunkTransmitCount := 1

/-- A freshly constructed `StreamState`: both stream counters start at 1. -/
def freshState : StreamState where
  mStreams := []
  mStream0 := MozQuicStreamPair.create 0
  mUnWrittenData := []
  mUnAckedData := []
  mNextStreamId := 1
  mNextRecvStreamId := 1
  trace := []

/-- The three bytes `ABC` written with FIN on stream 1. -/
def chunkABC : MozQuicStreamChunk :=
  MozQuicStreamChunk.create 1 0 [0x41, 0x42, 0x43] 3 true 1

/-- The chunk of `chunkABC` as packed into a buffer with 6 bytes of room: two data
bytes fit, the third goes to the tail. -/
def packedABC : Packed where
  bytes := [0xC1, 1, 0, 2, 0x41, 0x42]
  advance := 6
  chunk := { chunkABC with mLen := 2, mFin := false }
  tail := some (MozQuicStreamChunk.create 1 2 [0x43] 1 true 1)

/-- A 1400-byte write with FIN on stream 1. -/
def chunk1400 : MozQuicStreamChunk :=
  MozQuicStreamChunk.create 1 0 (List.replicate 1400 0x42) 1400 true 1

/-- The 1400-byte write waiting alone in `unwritten`. -/
def state1400 : StreamState :=
  { freshState with mUnWrittenData := [chunk1400] }

/-- Two passes: the first with a data budget of 1200 bytes (4 header bytes for
stream 1 at offset 0), the second with room for the remaining 200. -/
def passes1400 : List (Env × Nat) :=
  [(exampleEnv, 1204), (exampleEnv, 206)]

/-- The state after both passes: the two fragments are in `unAcked`. -/
def state1400Done : StreamState :=
  { freshState with
    mUnAckedData :=
      [stampChunk exampleEnv { chunk1400 with mLen := 1200, mFin := false },
       stampChunk exampleEnv
         (MozQuicStreamChunk.create 1 1200 (List.replicate 200 0x42) 200 true 1)] }

/-- A three-byte inbound chunk for stream 3. -/
def chunkPeer3 : MozQuicStreamChunk :=
  MozQuicStreamChunk.create 3 0 [0x61, 0x62, 0x63] 3 false 1

/-- The state a fresh endpoint reaches when the peer's first frame names stream 3
(`FindStream` creates streams 1 and 3 and delivers the chunk to stream 3). -/
def peerOpened3 : StreamState :=
  { freshState with
    mStreams := [(1, MozQuicStreamPair.create 1),
                 (3, (MozQuicStreamPair.create 3).Supply chunkPeer3)],
    mNextRecvStreamId := 5,
    trace := [Effect.ConnEventCB Event.MOZQUIC_EVENT_NEW_STREAM_DATA 3] }

/-- A frame header naming stream 3, with no data. -/
def frameFor3 : StreamFrameHeader :=
  { mStreamID := 3, mDataLen := 0, mOffset := 3, mFinBit := false }

/-- A three-byte inbound chunk for stream 1. -/
def chunkPeer1 : MozQuicStreamChunk :=
  MozQuicStreamChunk.create 1 0 [0x61, 0x62, 0x63] 3 false 1

/-- The state a fresh endpoint reaches when the peer's first frame names stream 1:
both counters of a fresh `StreamState` start at 1, so the peer's stream takes
the ID the next locally initiated stream will be given. -/
def peerOpened1 : StreamState :=
  { freshState with
    mStreams := [(1, (MozQuicStreamPair.create 1).Supply chunkPeer1)],
    mNextRecvStreamId := 3,
    trace := [Effect.ConnEventCB Event.MOZQUIC_EVENT_NEW_STREAM_DATA 1] }

/-- A state whose peer counter is 3 (stream 1 of the peer is open). -/
def counterAt3 : StreamState :=
  { freshState with
    mStreams := [(1, MozQuicStreamPair.create 1)],
    mNextRecvStreamId := 3 }

/-- An inbound chunk for stream 7. -/
def chunkPeer7 : MozQuicStreamChunk :=
  MozQuicStreamChunk.create 7 0 [0x37] 1 false 1

/-- An inbound chunk for stream 5. -/
def chunkPeer5 : MozQuicStreamChunk :=
  MozQuicStreamChunk.create 5 0 [0x35] 1 false 1

/-- An endpoint in the handshake: `DecodedOK()` is false. Its stream-0-only flush
finds nothing of stream 0 to send in the states used with it, and leaves the
state as it is. -/
def handshakeEnv : Env :=
  { exampleEnv with DecodedOK := false }

/-- A state whose only queued chunk belongs to stream 1. -/
def stateABC : StreamState :=
  { freshState with mUnWrittenData := [chunkABC] }

/-- The chunk `chunkABC` as `CreateStreamFrames` leaves it in `unAcked` at clock
reading 100. -/
def sentABC : MozQuicStreamChunk :=
  stampChunk exampleEnv chunkABC

/-- A state with `sentABC` as the only unacknowledged chunk. -/
def stateSentABC : StreamState :=
  { freshState with mUnAckedData := [sentABC] }

/-- The endpoint of `exampleEnv` at clock reading 1700. -/
def envAt1700 : Env :=
  { exampleEnv with Timestamp := 1700 }

/-- A chunk in its second transmission, sent at 1000: its deadline is 2000. -/
def secondSendAt1000 : MozQuicStreamChunk :=
  { sentABC with mTransmitTime := 1000, mTransmitCount := 2 }

/-- A chunk in its first transmission, sent at 1100: its deadline is 1600. -/
def firstSendAt1100 : MozQuicStreamChunk :=
  { stampChunk exampleEnv chunkPeer5 with mTransmitTime := 1100 }

/-- A chunk in its first transmission, sent at 1200: its deadline is 1700. -/
def firstSendAt1200 : MozQuicStreamChunk :=
  { firstSendAt1100 with mTransmitTime := 1200 }

/-- A state whose `unAcked` holds the two chunks in transmit order. -/
def stateBackoff : StreamState :=
  { freshState with mUnAckedData := [secondSendAt1000, firstSendAt1100] }

/-- The endpoint of `exampleEnv` at clock reading 11000. -/
def envAt11000 : Env :=
  { exampleEnv with Timestamp := 11000 }

/-- A chunk sent at 1000 and retransmitted since: its buffer is gone. -/
def retransmittedAt1000 : MozQuicStreamChunk :=
  released { sentABC with mTransmitTime := 1000 }

/-- A state with `retransmittedAt1000` as the only unacknowledged chunk. -/
def stateRetransmitted : StreamState :=
  { freshState with mUnAckedData := [retransmittedAt1000] }

/-- A fresh state whose counter for locally initiated streams starts at 2. -/
def freshLocalEven : StreamState :=
  { freshState with mNextStreamId := 2 }

/-- The state `freshLocalEven` after the peer's first frame named stream 1. -/
def peerOpened1LocalEven : StreamState :=
  { peerOpened1 with mNextStreamId := 2 }

/-- A process in which nothing of `API.cpp` has run yet. -/
def freshProcess : ProcessState where
  mozQuicInit := 0
  initCalls := []
  connections := 0

/-- A crypto library whose initialisation succeeds, and an allocator that does. -/
def exampleApi : ApiEnv where
  NSSHelperInit := fun _ => Code.MOZQUIC_OK
  newMozQuic := true

/-- A configuration with an origin name. -/
def exampleConfig : mozquic_config_t where
  originName := some [0x68, 0x6F, 0x73, 0x74]

/-- The directory name `/db`. -/
def exampleDir : List Nat := [0x2F, 0x64, 0x62]

/-- A chunk of 65536 data bytes on stream 1 at offset 0. -/
def chunk64k : MozQuicStreamChunk :=
  MozQuicStreamChunk.create 1 0 (List.replicate 65536 0x61) 65536 false 1

/-- The chunk `chunk64k` waiting alone in `unwritten`. -/
def state64k : StreamState :=
  { freshState with mUnWrittenData := [chunk64k] }

/-- A chunk as built by a constructor that starts the transmit count at 0. -/
def chunkUnsent : MozQuicStreamChunk :=
  MozQuicStreamChunk.create 1 0 [0x41, 0x42, 0x43] 3 true 0

/-- A reset marker for stream 1: by the spec it carries "an error code instead of
bytes", with `len = 0` and `fin = false`; it has no data buffer. -/
def rstChunk1 : MozQuicStreamChunk where
  mStreamID := 1
  mOffset := 0
  mData := none
  mLen := 0
  mFin := false
  mRst := true
  mPacketNumber := 0
  mTransmitTime := 0
  mTransmitCount := 1
  mTransmitKeyPhase := KeyPhase.keyPhaseUnprotected
  mRetransmitted := false

/-- The reset marker waiting alone in `unwritten`. -/
def stateRst : StreamState :=
  { freshState with mUnWrittenData := [rstChunk1] }

/-- The state after `CreateStreamFrames` has put the reset marker in `unAcked`. -/
def stateRstSent : StreamState :=
  { freshState with mUnAckedData := [stampChunk exampleEnv rstChunk1] }

/-- An endpoint whose reset frames take 17 bytes: `CreateStreamRst` fails when
fewer are left. -/
def rstWriterEnv : Env :=
  { exampleEnv with
    CreateStreamRst := fun room _ =>
      if room < 17 then (Code.MOZQUIC_ERR_GENERAL, []) else (Code.MOZQUIC_OK, List.replicate 17 0) }

/-- The endpoint `rstWriterEnv` with an MTU of 48: behind the 16-byte header and
before the 16-byte tag a packet offers 16 bytes. -/
def tightEnv : Env :=
  { rstWriterEnv with mMTU := 48 }

/-- The chunk `chunkABC` and the reset marker waiting in `unwritten`. -/
def stateDataRst : StreamState :=
  { freshState with mUnWrittenData := [chunkABC, rstChunk1] }

/-! # Theorems -/

theorem beBytes_length (n v : Nat) : (beBytes n v).length = n := by
  induction n with
  | zero => rfl
  | succ n ih => simp [beBytes, ih]

theorem streamIdLen_eq (id : Nat) (h : id < 2 ^ 32) :
    streamIdLen id = if id < 256 then 1 else if id < 65536 then 2
      else if id < 16777216 then 3 else 4 := by
  unfold streamIdLen
  simp only [beBytes, List.take, List.takeWhile_cons, List.takeWhile_nil]
  norm_num
  split_ifs <;> simp <;> omega

theorem offsetSize_eq (offset : Nat) :
    offsetSize offset = if offset = 0 then (0, 0) else if offset < 65536 then (1, 2)
      else if offset < 4294967296 then (2, 4) else (3, 8) := by
  unfold offsetSize varSize
  split_ifs <;> simp_all <;> omega

theorem streamIdLen_pos (id : Nat) : 1 ≤ streamIdLen id := by
  unfold streamIdLen
  have h : (((beBytes 4 id).take 3).takeWhile (fun b => b == 0)).length ≤ 3 := by
    refine le_trans (List.takeWhile_sublist _).length_le ?_
    simp [beBytes_length]
  omega

theorem streamIdLen_le (id : Nat) : streamIdLen id ≤ 4 := by
  unfold streamIdLen; omega

theorem beBytes_drop (m k v : Nat) : (beBytes (m + k) v).drop m = beBytes k v := by
  induction m with
  | zero => simp
  | succ m ih =>
    have : m + 1 + k = (m + k) + 1 := by omega
    rw [this, beBytes, List.drop_succ_cons, ih]

theorem beBytes_drop_take (n k v : Nat) (h : k ≤ n) :
    ((beBytes n v).drop (n - k)).take k = beBytes k v := by
  have e : n = (n - k) + k := by omega
  conv_lhs => rw [e]
  have : (n - k + k) - k = n - k := by omega
  rw [this, beBytes_drop]
  rw [List.take_of_length_le]
  simp [beBytes_length]

theorem beBytes_two_mod (v : Nat) : beBytes 2 (v % 2 ^ 16) = beBytes 2 v := by
  simp only [beBytes]
  norm_num
  omega

theorem offsetWidthCode_offsetSize (offset : Nat) :
    offsetWidthCode (offsetSize offset).2 = (offsetSize offset).1 := by
  rw [offsetSize_eq]
  split_ifs <;> simp [offsetWidthCode]

theorem typeByte_eq :
    ∀ idLen, idLen < 5 → 1 ≤ idLen → ∀ oo, oo < 4 → ∀ fin : Bool,
      (if fin then ((0xc1 ||| ((idLen - 1) <<< 3) ||| (oo <<< 1)) % 256 ||| STREAM_FIN_BIT) % 256
        else (0xc1 ||| ((idLen - 1) <<< 3) ||| (oo <<< 1)) % 256)
      = 0xC0 ||| ((if fin then 1 else 0) <<< 5) ||| ((idLen - 1) <<< 3) ||| (oo <<< 1) ||| 1 := by
  decide

theorem offsetSize_fst_lt (offset : Nat) : (offsetSize offset).1 < 4 := by
  rw [offsetSize_eq]; split_ifs <;> simp

theorem packDataChunk_eq_some {count0 : Nat} (avail : Nat) (c : MozQuicStreamChunk) (p : Packed)
    (h : packDataChunk count0 avail c = some p) :
    4 + streamIdLen c.mStreamID + offsetLen c.mOffset ≤ avail % 2 ^ 32 ∧
    p.chunk = (splitChunk count0 (avail % 2 ^ 32 - (3 + streamIdLen c.mStreamID + offsetLen c.mOffset)) c).1 ∧
    p.tail = (splitChunk count0 (avail % 2 ^ 32 - (3 + streamIdLen c.mStreamID + offsetLen c.mOffset)) c).2 ∧
    p.advance = 1 + streamIdLen c.mStreamID + offsetLen c.mOffset + 2 + p.chunk.mLen ∧
    p.bytes = [if p.chunk.mFin = true then
        ((0xc1 ||| ((streamIdLen c.mStreamID - 1) <<< 3) ||| ((offsetSize c.mOffset).1 <<< 1)) % 256
          ||| STREAM_FIN_BIT) % 256
        else (0xc1 ||| ((streamIdLen c.mStreamID - 1) <<< 3) ||| ((offsetSize c.mOffset).1 <<< 1)) % 256] ++
      ((beBytes 4 c.mStreamID).drop (4 - streamIdLen c.mStreamID)).take (streamIdLen c.mStreamID) ++
      (if offsetLen c.mOffset ≠ 0 then
          ((beBytes 8 c.mOffset).drop (8 - offsetLen c.mOffset)).take (offsetLen c.mOffset) else []) ++
      beBytes 2 (p.chunk.mLen % 2 ^ 16) ++ p.chunk.buffer.take p.chunk.mLen := by
  unfold packDataChunk at h
  simp only at h
  by_cases h1 : avail % 2 ^ 32 < 1
  · rw [if_pos h1] at h; cases h
  by_cases h2 : avail % 2 ^ 32 < 4 + streamIdLen c.mStreamID + (offsetSize c.mOffset).2
  · rw [if_neg h1, if_pos h2] at h; cases h
  rw [if_neg h1, if_neg h2] at h
  simp only [Option.some.injEq] at h
  subst h
  refine ⟨by unfold offsetLen; omega, rfl, rfl, rfl, rfl⟩

theorem packDataChunk_some_of_room {count0 : Nat} (avail : Nat) (c : MozQuicStreamChunk)
    (h : 4 + streamIdLen c.mStreamID + offsetLen c.mOffset ≤ avail % 2 ^ 32) :
    ∃ p, packDataChunk count0 avail c = some p := by
  unfold packDataChunk
  simp only
  have h1 : ¬ avail % 2 ^ 32 < 1 := by omega
  have h2 : ¬ avail % 2 ^ 32 < 4 + streamIdLen c.mStreamID + (offsetSize c.mOffset).2 := by
    unfold offsetLen at h; omega
  rw [if_neg h1, if_neg h2]
  exact ⟨_, rfl⟩


theorem splitChunk_streamID {count0 : Nat} (room : Nat) (c : MozQuicStreamChunk) :
    (splitChunk count0 room c).1.mStreamID = c.mStreamID := by
  unfold splitChunk; split_ifs <;> rfl

theorem splitChunk_offset {count0 : Nat} (room : Nat) (c : MozQuicStreamChunk) :
    (splitChunk count0 room c).1.mOffset = c.mOffset := by
  unfold splitChunk; split_ifs <;> rfl

theorem splitChunk_rst {count0 : Nat} (room : Nat) (c : MozQuicStreamChunk) :
    (splitChunk count0 room c).1.mRst = c.mRst := by
  unfold splitChunk; split_ifs <;> rfl

theorem splitChunk_buffer {count0 : Nat} (room : Nat) (c : MozQuicStreamChunk) :
    (splitChunk count0 room c).1.buffer = c.buffer := by
  unfold splitChunk; split_ifs <;> rfl

theorem splitChunk_len_le {count0 : Nat} (room : Nat) (c : MozQuicStreamChunk) :
    (splitChunk count0 room c).1.mLen ≤ room ∧ (splitChunk count0 room c).1.mLen ≤ c.mLen := by
  unfold splitChunk; split_ifs <;> simp <;> omega

theorem streamFrameLayout_stampChunk (env : Env) (c : MozQuicStreamChunk) :
    streamFrameLayout (stampChunk env c) = streamFrameLayout c := rfl

theorem packDataChunk_bytes {count0 : Nat} (avail : Nat) (c : MozQuicStreamChunk) (p : Packed)
    (h : packDataChunk count0 avail c = some p) : p.bytes = streamFrameLayout p.chunk := by
  obtain ⟨_, hc, _, _, hb⟩ := packDataChunk_eq_some avail c p h
  have hid : p.chunk.mStreamID = c.mStreamID := by rw [hc, splitChunk_streamID]
  have hoff : p.chunk.mOffset = c.mOffset := by rw [hc, splitChunk_offset]
  rw [hb]
  unfold streamFrameLayout typeByteLayout MozQuicStreamChunk.payload
  rw [hid, hoff, beBytes_drop_take 4 _ _ (streamIdLen_le _), beBytes_two_mod]
  have ho : (if offsetLen c.mOffset ≠ 0 then
      ((beBytes 8 c.mOffset).drop (8 - offsetLen c.mOffset)).take (offsetLen c.mOffset) else [])
      = beBytes (offsetLen c.mOffset) c.mOffset := by
    have hle : offsetLen c.mOffset ≤ 8 := by
      unfold offsetLen; rw [offsetSize_eq]; split_ifs <;> simp
    by_cases h0 : offsetLen c.mOffset = 0
    · simp [h0, beBytes]
    · rw [if_pos h0, beBytes_drop_take 8 _ _ hle]
  rw [ho]
  have ht := typeByte_eq (streamIdLen c.mStreamID)
    (by have := streamIdLen_le c.mStreamID; omega) (streamIdLen_pos _)
    (offsetSize c.mOffset).1 (offsetSize_fst_lt _) p.chunk.mFin
  have hw : offsetWidthCode (offsetLen c.mOffset) = (offsetSize c.mOffset).1 :=
    offsetWidthCode_offsetSize _
  rw [hw, ← ht]


theorem packLoop_frames (env : Env) (justZero : Bool)
    (Q : MozQuicStreamChunk → Prop) (R : Nat → Prop) (P : MozQuicStreamChunk → List Nat → Prop)
    (hR : ∀ a b, b ≤ a → R a → R b)
    (hstep : ∀ avail c p, R avail → Q c → packDataChunk env.newChunkTransmitCount avail c = some p →
        P (stampChunk env p.chunk) p.bytes ∧ ∀ t, p.tail = some t → Q t) :
    ∀ fuel rem st st', packLoop env justZero fuel rem st = some st' →
      (∀ c ∈ rem, Q c) → R st.room →
      ∃ packed frames extra, st'.unAcked = st.unAcked ++ packed ∧
        st'.out = st.out ++ frames.flatten ++ extra ∧
        List.Forall₂ (fun c f => c.mRst = false → P c f) packed frames ∧
        (extra = [] ∨ ∃ room c, c.mRst = true ∧ (env.CreateStreamRst room c).1 ≠ Code.MOZQUIC_OK ∧
          extra = (env.CreateStreamRst room c).2) := by
  intro fuel
  induction fuel with
  | zero => intro rem st st' h; simp [packLoop] at h
  | succ fuel ih =>
    intro rem st st' h hQ hRoom
    cases rem with
    | nil =>
      simp only [packLoop, Option.some.injEq] at h
      subst h
      exact ⟨[], [], [], by simp, by simp, List.Forall₂.nil, Or.inl rfl⟩
    | cons c rest =>
      have hQrest : ∀ x ∈ rest, Q x := fun x hx => hQ x (List.mem_cons_of_mem _ hx)
      unfold packLoop at h
      by_cases hz : justZero = true ∧ c.mStreamID ≠ 0
      · rw [if_pos hz] at h
        exact ih rest { st with kept := st.kept ++ [c] } st' h hQrest hRoom
      rw [if_neg hz] at h
      by_cases hrst : c.mRst = true
      · rw [if_pos hrst] at h
        simp only at h
        by_cases hok : (env.CreateStreamRst st.room c).1 ≠ Code.MOZQUIC_OK
        · rw [if_pos hok] at h
          simp only [Option.some.injEq] at h
          subst h
          exact ⟨[], [], (env.CreateStreamRst st.room c).2, by simp, by simp, List.Forall₂.nil,
            Or.inr ⟨st.room, c, hrst, hok, rfl⟩⟩
        · rw [if_neg hok] at h
          obtain ⟨packed, frames, extra, h1, h2, h3, h4⟩ :=
            ih rest _ st' h hQrest (hR _ _ (Nat.sub_le _ _) hRoom)
          refine ⟨stampChunk env c :: packed, (env.CreateStreamRst st.room c).2 :: frames, extra,
            ?_, ?_, ?_, h4⟩
          · simpa using h1
          · simpa using h2
          · refine List.Forall₂.cons ?_ h3
            intro hc
            have : (stampChunk env c).mRst = c.mRst := rfl
            rw [this, hrst] at hc
            cases hc
      · rw [if_neg hrst] at h
        cases hp : packDataChunk env.newChunkTransmitCount st.room c with
        | none =>
          rw [hp] at h
          simp only [Option.some.injEq] at h
          subst h
          exact ⟨[], [], [], by simp, by simp, List.Forall₂.nil, Or.inl rfl⟩
        | some p =>
          rw [hp] at h
          simp only at h
          obtain ⟨hP, hT⟩ := hstep st.room c p hRoom (hQ c (List.mem_cons_self _ _)) hp
          have hQ' : ∀ x ∈ p.tail.toList ++ rest, Q x := by
            intro x hx
            rcases List.mem_append.mp hx with hx | hx
            · exact hT x (by simpa using hx)
            · exact hQrest x hx
          obtain ⟨packed, frames, extra, h1, h2, h3, h4⟩ :=
            ih _ _ st' h hQ' (hR _ _ (Nat.sub_le _ _) hRoom)
          refine ⟨stampChunk env p.chunk :: packed, p.bytes :: frames, extra, ?_, ?_, ?_, h4⟩
          · simpa using h1
          · simpa using h2
          · exact List.Forall₂.cons (fun _ => hP) h3


/-! ### Totality of the packing loop -/

theorem packDataChunk_none_of_room {count0 : Nat} (avail : Nat) (c : MozQuicStreamChunk)
    (h : avail % 2 ^ 32 = 0) : packDataChunk count0 avail c = none := by
  unfold packDataChunk
  simp only
  rw [if_pos (by omega)]

theorem packLoop_break (env : Env) (justZero : Bool) (fuel : Nat) (t : MozQuicStreamChunk)
    (rest : List MozQuicStreamChunk) (st : PackState)
    (hz : ¬ (justZero = true ∧ t.mStreamID ≠ 0)) (hrst : ¬ t.mRst = true)
    (hroom : st.room % 2 ^ 32 = 0) :
    packLoop env justZero (fuel + 1) (t :: rest) st
      = some { st with kept := st.kept ++ t :: rest } := by
  unfold packLoop
  rw [if_neg hz, if_neg hrst, packDataChunk_none_of_room _ _ hroom]

theorem splitChunk_tail {count0 : Nat} (room : Nat) (c t : MozQuicStreamChunk)
    (h : (splitChunk count0 room c).2 = some t) :
    room < c.mLen ∧ (splitChunk count0 room c).1 = { c with mLen := room, mFin := false } ∧
      t = MozQuicStreamChunk.create c.mStreamID ((c.mOffset + room) % 2 ^ 64)
        (c.buffer.drop room) (c.mLen - room) c.mFin count0 := by
  unfold splitChunk at h ⊢
  by_cases hlt : room < c.mLen
  · rw [if_pos hlt] at h ⊢
    simp only [Option.some.injEq] at h
    exact ⟨hlt, rfl, h.symm⟩
  · rw [if_neg hlt] at h
    cases h

theorem splitChunk_no_tail {count0 : Nat} (room : Nat) (c : MozQuicStreamChunk)
    (h : (splitChunk count0 room c).2 = none) : ¬ room < c.mLen ∧ (splitChunk count0 room c).1 = c := by
  unfold splitChunk at h ⊢
  by_cases hlt : room < c.mLen
  · rw [if_pos hlt] at h; cases h
  · rw [if_neg hlt]; exact ⟨hlt, rfl⟩

theorem packDataChunk_tail_room {count0 : Nat} (avail : Nat) (c t : MozQuicStreamChunk) (p : Packed)
    (h : packDataChunk count0 avail c = some p) (ht : p.tail = some t) :
    p.advance = avail % 2 ^ 32 ∧ t.mRst = false ∧ t.mStreamID = c.mStreamID := by
  obtain ⟨hroom, hc, htl, hadv, _⟩ := packDataChunk_eq_some avail c p h
  rw [htl] at ht
  obtain ⟨_, h1, h2⟩ := splitChunk_tail _ _ _ ht
  refine ⟨?_, by rw [h2]; rfl, by rw [h2]; rfl⟩
  rw [hadv, hc, h1]
  simp only
  omega

theorem packLoop_total (env : Env) (justZero : Bool) :
    ∀ fuel rem st, 2 * rem.length + 1 ≤ fuel → ∃ st', packLoop env justZero fuel rem st = some st' := by
  intro fuel
  induction fuel with
  | zero => intro rem st h; omega
  | succ fuel ih =>
    intro rem st hfuel
    cases rem with
    | nil => exact ⟨st, rfl⟩
    | cons c rest =>
      simp only [List.length_cons] at hfuel
      unfold packLoop
      by_cases hz : justZero = true ∧ c.mStreamID ≠ 0
      · rw [if_pos hz]; exact ih _ _ (by omega)
      rw [if_neg hz]
      by_cases hrst : c.mRst = true
      · rw [if_pos hrst]
        simp only
        by_cases hok : (env.CreateStreamRst st.room c).1 ≠ Code.MOZQUIC_OK
        · rw [if_pos hok]; exact ⟨_, rfl⟩
        · rw [if_neg hok]; exact ih _ _ (by omega)
      · rw [if_neg hrst]
        cases hp : packDataChunk env.newChunkTransmitCount st.room c with
        | none => exact ⟨_, rfl⟩
        | some p =>
          simp only
          cases ht : p.tail with
          | none => simp only [Option.toList, List.nil_append]; exact ih _ _ (by omega)
          | some t =>
            obtain ⟨hadv, htr, hid⟩ := packDataChunk_tail_room _ _ _ _ hp ht
            simp only [Option.toList, List.singleton_append]
            obtain ⟨k, hk⟩ : ∃ k, fuel = k + 1 := ⟨fuel - 1, by omega⟩
            subst hk
            rw [packLoop_break]
            · exact ⟨_, rfl⟩
            · rw [hid]; exact hz
            · rw [htr]; simp
            · simp only [hadv]
              exact Nat.sub_mod_eq_zero_of_mod_eq (by simp)

theorem CreateStreamFrames_total (env : Env) (s : StreamState) (room : Nat) (justZero : Bool) :
    ∃ out room' s', CreateStreamFrames env s room justZero = some (Code.MOZQUIC_OK, out, room', s') := by
  unfold CreateStreamFrames
  obtain ⟨st', h⟩ := packLoop_total env justZero _ s.mUnWrittenData
    { kept := [], unAcked := s.mUnAckedData, out := [], room := room } (le_refl _)
  rw [h]
  exact ⟨_, _, _, rfl⟩

/-! ### Reading a frame back -/

theorem beValue_foldl (n v acc : Nat) :
    (beBytes n v).foldl (fun a b => a * 256 + b) acc = acc * 256 ^ n + v % 256 ^ n := by
  induction n generalizing acc with
  | zero => simp [beBytes, Nat.mod_one]
  | succ n ih =>
    rw [beBytes, List.foldl_cons, ih, Nat.mod_pow_succ]
    ring

theorem beValue_beBytes (n v : Nat) (h : v < 256 ^ n) : beValue (beBytes n v) = v := by
  unfold beValue
  rw [beValue_foldl, Nat.mod_eq_of_lt h]
  simp

theorem typeByte_decode :
    ∀ idLen, idLen < 5 → 1 ≤ idLen → ∀ oo, oo < 4 → ∀ fin : Bool,
      (0xC0 ||| ((if fin then 1 else 0) <<< 5) ||| ((idLen - 1) <<< 3) ||| (oo <<< 1) ||| 1) / 64 = 3 ∧
      (0xC0 ||| ((if fin then 1 else 0) <<< 5) ||| ((idLen - 1) <<< 3) ||| (oo <<< 1) ||| 1) % 2 = 1 ∧
      decide ((0xC0 ||| ((if fin then 1 else 0) <<< 5) ||| ((idLen - 1) <<< 3) ||| (oo <<< 1) ||| 1) / 32 % 2 = 1) = fin ∧
      (0xC0 ||| ((if fin then 1 else 0) <<< 5) ||| ((idLen - 1) <<< 3) ||| (oo <<< 1) ||| 1) / 8 % 4 + 1 = idLen ∧
      (0xC0 ||| ((if fin then 1 else 0) <<< 5) ||| ((idLen - 1) <<< 3) ||| (oo <<< 1) ||| 1) / 2 % 4 = oo := by
  decide

theorem offsetLen_eq (offset : Nat) :
    offsetLen offset = if offset = 0 then 0 else if offset < 65536 then 2
      else if offset < 4294967296 then 4 else 8 := by
  unfold offsetLen; rw [offsetSize_eq]; split_ifs <;> rfl

theorem offset_lt_pow_offsetLen (offset : Nat) (h : offset < 2 ^ 64) :
    offset < 256 ^ offsetLen offset := by
  rw [offsetLen_eq]; split_ifs <;> norm_num <;> omega

theorem streamID_lt_pow_streamIdLen (id : Nat) (h : id < 2 ^ 32) :
    id < 256 ^ streamIdLen id := by
  rw [streamIdLen_eq id h]; split_ifs <;> norm_num <;> omega

theorem width_of_offsetWidthCode (offset : Nat) :
    (if offsetWidthCode (offsetLen offset) = 0 then 0
      else if offsetWidthCode (offsetLen offset) = 1 then 2
      else if offsetWidthCode (offsetLen offset) = 2 then 4 else 8) = offsetLen offset := by
  rw [offsetLen_eq]; split_ifs <;> simp_all [offsetWidthCode]

theorem offsetWidthCode_lt (w : Nat) : offsetWidthCode w < 4 := by
  unfold offsetWidthCode; split_ifs <;> simp

theorem parseStreamFrame_layout (c : MozQuicStreamChunk) (rest : List Nat)
    (hid : c.mStreamID < 2 ^ 32) (hoff : c.mOffset < 2 ^ 64) (hlen : c.mLen < 2 ^ 16)
    (hown : c.owned) :
    parseStreamFrame (streamFrameLayout c ++ rest) = some (c.fields, rest) := by
  obtain ⟨t1, t2, t3, t4, t5⟩ := typeByte_decode (streamIdLen c.mStreamID)
    (by have := streamIdLen_le c.mStreamID; omega) (streamIdLen_pos _)
    (offsetWidthCode (offsetLen c.mOffset)) (offsetWidthCode_lt _) c.mFin
  have hpl : c.payload.length = c.mLen := by
    unfold MozQuicStreamChunk.payload; unfold MozQuicStreamChunk.owned at hown
    simp [List.length_take]; omega
  unfold streamFrameLayout typeByteLayout parseStreamFrame
  simp only [List.singleton_append, List.cons_append, List.append_assoc, List.nil_append]
  rw [if_neg (by rw [t1, t2]; simp)]
  simp only [t3, t4, t5, width_of_offsetWidthCode]
  have hl1 : (beBytes (streamIdLen c.mStreamID) c.mStreamID).length = streamIdLen c.mStreamID :=
    beBytes_length _ _
  have hl2 : (beBytes (offsetLen c.mOffset) c.mOffset).length = offsetLen c.mOffset :=
    beBytes_length _ _
  have hl3 : (beBytes 2 c.mLen).length = 2 := beBytes_length _ _
  rw [if_neg (by simp [hl1, hl2, hl3]; omega)]
  rw [List.take_left' hl1, List.drop_left' hl1, List.take_left' hl2, List.drop_left' hl2,
    List.take_left' hl3, List.drop_left' hl3]
  rw [beValue_beBytes _ _ (streamID_lt_pow_streamIdLen _ hid),
    beValue_beBytes _ _ (offset_lt_pow_offsetLen _ hoff),
    beValue_beBytes 2 _ (by norm_num; omega)]
  rw [if_neg (by simp [hpl])]
  rw [List.take_left' hpl, List.drop_left' hpl]
  rfl

theorem CreateStreamFrames_frames (env : Env) (justZero : Bool)
    (Q : MozQuicStreamChunk → Prop) (R : Nat → Prop) (P : MozQuicStreamChunk → List Nat → Prop)
    (hR : ∀ a b, b ≤ a → R a → R b)
    (hstep : ∀ avail c p, R avail → Q c → packDataChunk env.newChunkTransmitCount avail c = some p →
        P (stampChunk env p.chunk) p.bytes ∧ ∀ t, p.tail = some t → Q t)
    (s : StreamState) (room : Nat) (hQ : ∀ c ∈ s.mUnWrittenData, Q c) (hRoom : R room) :
    ∃ out room' s' packed frames extra,
      CreateStreamFrames env s room justZero = some (Code.MOZQUIC_OK, out, room', s') ∧
      s'.mUnAckedData = s.mUnAckedData ++ packed ∧
      out = frames.flatten ++ extra ∧
      List.Forall₂ (fun c f => c.mRst = false → P c f) packed frames ∧
      (extra = [] ∨ ∃ room c, c.mRst = true ∧
        (env.CreateStreamRst room c).1 ≠ Code.MOZQUIC_OK ∧ extra = (env.CreateStreamRst room c).2) := by
  obtain ⟨st', h⟩ := packLoop_total env justZero _ s.mUnWrittenData
    { kept := [], unAcked := s.mUnAckedData, out := [], room := room } (le_refl _)
  obtain ⟨packed, frames, extra, h1, h2, h3, h4⟩ :=
    packLoop_frames env justZero Q R P hR hstep _ _ _ _ h hQ hRoom
  refine ⟨st'.out, st'.room, { s with mUnWrittenData := st'.kept, mUnAckedData := st'.unAcked },
    packed, frames, extra, ?_, h1, by simpa using h2, h3, h4⟩
  unfold CreateStreamFrames
  rw [h]

/-- C1 (amended). For every room below `2 ^ 16`, every data (non-reset) chunk that
`CreateStreamFrames` packs is written as: the type byte
`0xC0 | (F << 5) | ((idLen - 1) << 3) | (OO << 1) | 1` with `F` the FIN flag of the
(possibly truncated) chunk, the stream ID in `idLen` bytes, the offset in
`offsetLen` bytes, the chunk length in 2 bytes, all big-endian, then the first
`mLen` bytes of the chunk's buffer (which are `mLen` bytes when the buffer
holds that many). The chunk length is below `2 ^ 16` and is the value of the
two length bytes. The call returns `MOZQUIC_OK`; the bytes it wrote are the
frames of the chunks it appended to `unAcked`, in order (followed only by what
a failing `CreateStreamRst` may have written). -/
theorem C1_stream_frame_layout (env : Env) (s : StreamState) (room : Nat) (justZero : Bool)
    (hroom : room < 2 ^ 16) :
    ∃ out room' s' packed frames extra,
      CreateStreamFrames env s room justZero = some (Code.MOZQUIC_OK, out, room', s') ∧
      s'.mUnAckedData = s.mUnAckedData ++ packed ∧
      out = frames.flatten ++ extra ∧
      List.Forall₂ (fun c f => c.mRst = false →
        f = [typeByteLayout c.mFin (streamIdLen c.mStreamID) (offsetLen c.mOffset)] ++
              beBytes (streamIdLen c.mStreamID) c.mStreamID ++
              beBytes (offsetLen c.mOffset) c.mOffset ++
              beBytes 2 c.mLen ++ c.buffer.take c.mLen ∧
        c.mLen < 2 ^ 16 ∧ beValue (beBytes 2 c.mLen) = c.mLen ∧
        (c.owned → (c.buffer.take c.mLen).length = c.mLen)) packed frames ∧
      (extra = [] ∨ ∃ room c, c.mRst = true ∧
        (env.CreateStreamRst room c).1 ≠ Code.MOZQUIC_OK ∧ extra = (env.CreateStreamRst room c).2) := by
  obtain ⟨out, room', s', packed, frames, extra, h1, h2, h3, h4, h5⟩ :=
    CreateStreamFrames_frames env justZero (fun _ => True) (fun a => a < 2 ^ 16)
      (fun c f => f = streamFrameLayout c ∧ c.mLen < 2 ^ 16)
      (fun a b hba ha => lt_of_le_of_lt hba ha)
      (fun avail c p havail _ hp => ⟨⟨packDataChunk_bytes avail c p hp, by
        obtain ⟨_, hpc, _, _, _⟩ := packDataChunk_eq_some avail c p hp
        have hlen := (@splitChunk_len_le env.newChunkTransmitCount
          (avail % 2 ^ 32 - (3 + streamIdLen c.mStreamID + offsetLen c.mOffset)) c).1
        rw [← hpc] at hlen
        have hmod := Nat.mod_le avail (2 ^ 32)
        show p.chunk.mLen < 2 ^ 16
        omega⟩, fun _ _ => trivial⟩)
      s room (fun _ _ => trivial) hroom
  refine ⟨out, room', s', packed, frames, extra, h1, h2, h3, ?_, h5⟩
  refine List.Forall₂.imp ?_ h4
  intro c f hcf hr
  obtain ⟨hf, hlen⟩ := hcf hr
  refine ⟨hf, hlen, beValue_beBytes 2 c.mLen (by norm_num; omega), ?_⟩
  intro hown
  unfold MozQuicStreamChunk.owned at hown
  rw [List.length_take]
  omega

/-- C1 (witness): `chunkABC` with 6 bytes of room. -/
theorem C1_stream_frame_layout_witness :
    ∃ out room' s' packed frames extra,
      CreateStreamFrames exampleEnv stateABC 6 false = some (Code.MOZQUIC_OK, out, room', s') ∧
      s'.mUnAckedData = stateABC.mUnAckedData ++ packed ∧
      out = frames.flatten ++ extra ∧
      List.Forall₂ (fun c f => c.mRst = false →
        f = [typeByteLayout c.mFin (streamIdLen c.mStreamID) (offsetLen c.mOffset)] ++
              beBytes (streamIdLen c.mStreamID) c.mStreamID ++
              beBytes (offsetLen c.mOffset) c.mOffset ++
              beBytes 2 c.mLen ++ c.buffer.take c.mLen ∧
        c.mLen < 2 ^ 16 ∧ beValue (beBytes 2 c.mLen) = c.mLen ∧
        (c.owned → (c.buffer.take c.mLen).length = c.mLen)) packed frames ∧
      (extra = [] ∨ ∃ room c, c.mRst = true ∧
        (exampleEnv.CreateStreamRst room c).1 ≠ Code.MOZQUIC_OK ∧
        extra = (exampleEnv.CreateStreamRst room c).2) :=
  C1_stream_frame_layout exampleEnv stateABC 6 false (by decide)

/-- C2. The header field widths chosen by `CreateStreamFrames` are minimal. For a
32-bit stream ID, `streamIdLen` is the least `n` in 1..4 with
`streamID < 256 ^ n`. For a 64-bit offset, `offsetLen` is 0 exactly for offset 0,
and otherwise the least `w` among 2, 4, 8 with `offset < 256 ^ w`. These are the
widths every packed frame uses. -/
theorem C2_header_widths_minimal (streamID offset : Nat)
    (hid : streamID < 2 ^ 32) (hoff : offset < 2 ^ 64) :
    (1 ≤ streamIdLen streamID ∧ streamIdLen streamID ≤ 4 ∧
      streamID < 256 ^ streamIdLen streamID ∧
      ∀ n, 1 ≤ n → streamID < 256 ^ n → streamIdLen streamID ≤ n) ∧
    (offsetLen offset = 0 ↔ offset = 0) ∧
    (offset ≠ 0 →
      (offsetLen offset = 2 ∨ offsetLen offset = 4 ∨ offsetLen offset = 8) ∧
      offset < 256 ^ offsetLen offset ∧
      ∀ w, (w = 2 ∨ w = 4 ∨ w = 8) → offset < 256 ^ w → offsetLen offset ≤ w) ∧
    (∀ count0 avail c p, c.mStreamID = streamID → c.mOffset = offset →
      packDataChunk count0 avail c = some p →
      p.advance = 1 + streamIdLen streamID + offsetLen offset + 2 + p.chunk.mLen) := by
  refine ⟨⟨streamIdLen_pos _, streamIdLen_le _, streamID_lt_pow_streamIdLen _ hid, ?_⟩, ?_, ?_, ?_⟩
  · intro n hn hlt
    by_contra hcon
    push_neg at hcon
    have h4 := streamIdLen_le streamID
    have hn3 : n ≤ 3 := by omega
    rw [streamIdLen_eq _ hid] at hcon
    interval_cases n <;> norm_num at hlt <;> split_ifs at hcon <;> omega
  · rw [offsetLen_eq]; split_ifs <;> simp_all
  · intro h0
    refine ⟨?_, offset_lt_pow_offsetLen _ hoff, ?_⟩
    · rw [offsetLen_eq]; split_ifs <;> simp_all
    · intro w hw hlt
      rw [offsetLen_eq]
      rcases hw with rfl | rfl | rfl <;> norm_num at hlt <;> split_ifs <;> omega
  · intro count0 avail c p h1 h2 hp
    obtain ⟨_, _, _, hadv, _⟩ := packDataChunk_eq_some avail c p hp
    rw [← h1, ← h2]; exact hadv

/-- Witness for C2: stream ID 0 and offset 200. -/
theorem C2_header_widths_minimal_witness :
    ((0 : Nat) < 2 ^ 32 ∧ (200 : Nat) < 2 ^ 64) ∧
    (1 ≤ streamIdLen 0 ∧ streamIdLen 0 ≤ 4 ∧ 0 < 256 ^ streamIdLen 0 ∧
      ∀ n, 1 ≤ n → 0 < 256 ^ n → streamIdLen 0 ≤ n) ∧
    (offsetLen 200 = 0 ↔ 200 = 0) ∧
    (200 ≠ 0 →
      (offsetLen 200 = 2 ∨ offsetLen 200 = 4 ∨ offsetLen 200 = 8) ∧
      200 < 256 ^ offsetLen 200 ∧
      ∀ w, (w = 2 ∨ w = 4 ∨ w = 8) → 200 < 256 ^ w → offsetLen 200 ≤ w) ∧
    (∀ count0 avail c p, c.mStreamID = 0 → c.mOffset = 200 →
      packDataChunk count0 avail c = some p →
      p.advance = 1 + streamIdLen 0 + offsetLen 200 + 2 + p.chunk.mLen) :=
  ⟨⟨by decide, by decide⟩, C2_header_widths_minimal 0 200 (by decide) (by decide)⟩

theorem splitChunk_head_ok {count0 : Nat} (room : Nat) (c : MozQuicStreamChunk)
    (hr : c.inRange) (ho : c.owned) :
    (splitChunk count0 room c).1.inRange ∧ (splitChunk count0 room c).1.owned := by
  obtain ⟨h1, h2, h3⟩ := hr
  have hl := @splitChunk_len_le count0 room c
  unfold MozQuicStreamChunk.inRange MozQuicStreamChunk.owned at *
  rw [splitChunk_streamID, splitChunk_offset, splitChunk_buffer]
  exact ⟨⟨h1, h2, by omega⟩, by omega⟩

theorem splitChunk_tail_ok {count0 : Nat} (room : Nat) (c t : MozQuicStreamChunk)
    (hr : c.inRange) (ho : c.owned) (ht : (splitChunk count0 room c).2 = some t) :
    t.inRange ∧ t.owned := by
  obtain ⟨h1, h2, h3⟩ := hr
  obtain ⟨hlt, _, rfl⟩ := splitChunk_tail room c t ht
  unfold MozQuicStreamChunk.inRange MozQuicStreamChunk.owned MozQuicStreamChunk.create
    MozQuicStreamChunk.buffer at *
  simp only [Option.getD_some, List.length_take, List.length_drop]
  refine ⟨⟨h1, Nat.mod_lt _ (by norm_num), by omega⟩, ?_⟩
  omega

/-- C3. Round trip: when `CreateStreamFrames` packs into a buffer with less than
`2 ^ 16` bytes of room, reading any emitted data frame back by the section 4.4
layout gives exactly the stream ID, offset, length, FIN flag and data bytes
of the chunk that was moved to `unAcked`, and consumes exactly the bytes of
that frame (whatever follows it is left over). -/
theorem C3_frame_round_trip (env : Env) (s : StreamState) (room : Nat) (justZero : Bool)
    (hroom : room < 2 ^ 16)
    (hwf : ∀ c ∈ s.mUnWrittenData, c.inRange ∧ c.owned) :
    ∃ out room' s' packed frames extra,
      CreateStreamFrames env s room justZero = some (Code.MOZQUIC_OK, out, room', s') ∧
      s'.mUnAckedData = s.mUnAckedData ++ packed ∧
      out = frames.flatten ++ extra ∧
      List.Forall₂ (fun c f => c.mRst = false →
        ∀ rest, parseStreamFrame (f ++ rest) = some (c.fields, rest)) packed frames ∧
      (extra = [] ∨ ∃ room c, c.mRst = true ∧
        (env.CreateStreamRst room c).1 ≠ Code.MOZQUIC_OK ∧ extra = (env.CreateStreamRst room c).2) := by
  refine CreateStreamFrames_frames env justZero (fun c => c.inRange ∧ c.owned)
    (fun r => r < 2 ^ 16)
    (fun c f => ∀ rest, parseStreamFrame (f ++ rest) = some (c.fields, rest))
    (fun a b hba ha => lt_of_le_of_lt hba ha) ?_ s room hwf hroom
  intro avail c p hav hq hp
  obtain ⟨hfit, hc, htl, _, _⟩ := packDataChunk_eq_some avail c p hp
  refine ⟨?_, ?_⟩
  · intro rest
    rw [packDataChunk_bytes avail c p hp]
    have hok := @splitChunk_head_ok env.newChunkTransmitCount (avail % 2 ^ 32 - (3 + streamIdLen c.mStreamID + offsetLen c.mOffset))
      c hq.1 hq.2
    rw [← hc] at hok
    have hlen : p.chunk.mLen < 2 ^ 16 := by
      have h1 := (@splitChunk_len_le env.newChunkTransmitCount
        (avail % 2 ^ 32 - (3 + streamIdLen c.mStreamID + offsetLen c.mOffset)) c).1
      rw [← hc] at h1
      have h2 : avail % 2 ^ 32 ≤ avail := Nat.mod_le _ _
      omega
    exact parseStreamFrame_layout p.chunk rest hok.1.1 hok.1.2.1 hlen hok.2
  · intro t ht
    rw [htl] at ht
    exact splitChunk_tail_ok _ c t hq.1 hq.2 ht

/-- Witness for C3: `ABC` with FIN on stream 1, packed into 5 bytes of room. -/
theorem C3_frame_round_trip_witness :
    ((5 : Nat) < 2 ^ 16 ∧
      ∀ c ∈ ({ freshState with mUnWrittenData := [chunkABC] } : StreamState).mUnWrittenData,
        c.inRange ∧ c.owned) ∧
    ∃ out room' s' packed frames extra,
      CreateStreamFrames exampleEnv { freshState with mUnWrittenData := [chunkABC] } 5 false
        = some (Code.MOZQUIC_OK, out, room', s') ∧
      s'.mUnAckedData
        = ({ freshState with mUnWrittenData := [chunkABC] } : StreamState).mUnAckedData ++ packed ∧
      out = frames.flatten ++ extra ∧
      List.Forall₂ (fun c f => c.mRst = false →
        ∀ rest, parseStreamFrame (f ++ rest) = some (c.fields, rest)) packed frames ∧
      (extra = [] ∨ ∃ room c, c.mRst = true ∧
        (exampleEnv.CreateStreamRst room c).1 ≠ Code.MOZQUIC_OK ∧
        extra = (exampleEnv.CreateStreamRst room c).2) :=
  ⟨⟨by decide, by decide⟩,
    C3_frame_round_trip exampleEnv { freshState with mUnWrittenData := [chunkABC] } 5 false
      (by decide) (by decide)⟩

theorem create_payload {count0 : Nat} (id off : Nat) (src : List Nat) (len : Nat) (fin : Bool) :
    (MozQuicStreamChunk.create id off src len fin count0).payload = src.take len := by
  simp [MozQuicStreamChunk.payload, MozQuicStreamChunk.buffer, MozQuicStreamChunk.create,
    List.take_take]

/-- C4. Split law: when `CreateStreamFrames` packs chunk `c` with the data budget
`dataRoom = room - (1 + idLen + offsetLen + 2)`, it splits `c` exactly when
`dataRoom < c.len`; the truncated head `a` and the new tail `b` then satisfy
`a.streamID = b.streamID = c.streamID`, `a.offset = c.offset`, `a.len = dataRoom`,
`a.offset + a.len = b.offset` (in the 64-bit arithmetic of the offset field, and
exactly whenever the bytes of `c` end at or below offset `2 ^ 64`),
`a.len + b.len = c.len`, `b.fin = c.fin`, `a.fin = false`, and the data of `b` is
the data of `c` from index `dataRoom` to the end. -/
theorem C4_split_law (count0 : Nat) (avail : Nat) (c : MozQuicStreamChunk) (p : Packed)
    (hp : packDataChunk count0 avail c = some p) :
    (p.tail.isSome ↔
      avail % 2 ^ 32 - (1 + streamIdLen c.mStreamID + offsetLen c.mOffset + 2) < c.mLen) ∧
    ∀ b, p.tail = some b →
      p.chunk.mStreamID = c.mStreamID ∧ b.mStreamID = c.mStreamID ∧
      p.chunk.mOffset = c.mOffset ∧
      p.chunk.mLen = avail % 2 ^ 32 - (1 + streamIdLen c.mStreamID + offsetLen c.mOffset + 2) ∧
      b.mOffset = (p.chunk.mOffset + p.chunk.mLen) % 2 ^ 64 ∧
      (c.mOffset + c.mLen ≤ 2 ^ 64 → p.chunk.mOffset + p.chunk.mLen = b.mOffset) ∧
      p.chunk.mLen + b.mLen = c.mLen ∧
      b.mFin = c.mFin ∧ p.chunk.mFin = false ∧ b.mRst = false ∧
      b.payload = c.payload.drop
        (avail % 2 ^ 32 - (1 + streamIdLen c.mStreamID + offsetLen c.mOffset + 2)) := by
  obtain ⟨_, hc, htl, _, _⟩ := packDataChunk_eq_some avail c p hp
  have e : avail % 2 ^ 32 - (1 + streamIdLen c.mStreamID + offsetLen c.mOffset + 2)
      = avail % 2 ^ 32 - (3 + streamIdLen c.mStreamID + offsetLen c.mOffset) := by omega
  rw [e]
  constructor
  · rw [htl]
    unfold splitChunk
    by_cases h : avail % 2 ^ 32 - (3 + streamIdLen c.mStreamID + offsetLen c.mOffset) < c.mLen
    · rw [if_pos h]; exact ⟨fun _ => h, fun _ => rfl⟩
    · rw [if_neg h]; exact ⟨fun hh => (by cases hh), fun hh => absurd hh h⟩
  · intro b hb
    rw [htl] at hb
    obtain ⟨hlt, h1, h2⟩ := splitChunk_tail _ _ _ hb
    rw [hc, h1, h2]
    refine ⟨rfl, rfl, rfl, rfl, rfl, ?_, ?_, rfl, rfl, rfl, ?_⟩
    · intro hend
      simp only [MozQuicStreamChunk.create]
      exact (Nat.mod_eq_of_lt (by omega)).symm
    · simp only [MozQuicStreamChunk.create]; omega
    · rw [create_payload]
      unfold MozQuicStreamChunk.payload
      rw [List.drop_take]

/-- Witness for C4: `ABC` with FIN on stream 1 meets a buffer with 6 bytes of room;
the head keeps two bytes, the tail carries the third and the FIN. -/
theorem C4_split_law_witness :
    packDataChunk 1 6 chunkABC = some packedABC ∧
    ((packedABC.tail.isSome ↔
      6 % 2 ^ 32 - (1 + streamIdLen chunkABC.mStreamID + offsetLen chunkABC.mOffset + 2)
        < chunkABC.mLen) ∧
    ∀ b, packedABC.tail = some b →
      packedABC.chunk.mStreamID = chunkABC.mStreamID ∧ b.mStreamID = chunkABC.mStreamID ∧
      packedABC.chunk.mOffset = chunkABC.mOffset ∧
      packedABC.chunk.mLen
        = 6 % 2 ^ 32 - (1 + streamIdLen chunkABC.mStreamID + offsetLen chunkABC.mOffset + 2) ∧
      b.mOffset = (packedABC.chunk.mOffset + packedABC.chunk.mLen) % 2 ^ 64 ∧
      (chunkABC.mOffset + chunkABC.mLen ≤ 2 ^ 64 →
        packedABC.chunk.mOffset + packedABC.chunk.mLen = b.mOffset) ∧
      packedABC.chunk.mLen + b.mLen = chunkABC.mLen ∧
      b.mFin = chunkABC.mFin ∧ packedABC.chunk.mFin = false ∧ b.mRst = false ∧
      b.payload = chunkABC.payload.drop
        (6 % 2 ^ 32 - (1 + streamIdLen chunkABC.mStreamID + offsetLen chunkABC.mOffset + 2))) :=
  ⟨by decide, C4_split_law 1 6 chunkABC packedABC (by decide)⟩

/-- One pass over a queue holding a single data chunk, with room for at least
one data byte: the head goes to `unAcked`, the tail (if any) is what is left. -/
theorem CreateStreamFrames_single (env : Env) (s : StreamState) (t : MozQuicStreamChunk)
    (room : Nat) (hs : s.mUnWrittenData = [t]) (hrst : t.mRst = false)
    (hroom : roomForOneByte room t = true) :
    ∃ out room',
      CreateStreamFrames env s room false = some (Code.MOZQUIC_OK, out, room',
        { s with
          mUnWrittenData :=
            (splitChunk env.newChunkTransmitCount (room - (3 + streamIdLen t.mStreamID + offsetLen t.mOffset)) t).2.toList,
          mUnAckedData := s.mUnAckedData ++
            [stampChunk env
              (splitChunk env.newChunkTransmitCount (room - (3 + streamIdLen t.mStreamID + offsetLen t.mOffset)) t).1] }) := by
  unfold roomForOneByte at hroom
  simp only [decide_eq_true_eq] at hroom
  have hmod : room % 2 ^ 32 = room := Nat.mod_eq_of_lt hroom.2
  obtain ⟨p, hp⟩ := packDataChunk_some_of_room room t (by rw [hmod]; omega)
  obtain ⟨_, hc, htl, hadv, _⟩ := packDataChunk_eq_some room t p hp
  rw [hmod] at hc htl
  unfold CreateStreamFrames
  rw [hs]
  simp only [List.length_singleton]
  have hz : ¬ (false = true ∧ t.mStreamID ≠ 0) := by simp
  have hr : ¬ t.mRst = true := by rw [hrst]; simp
  rw [show 2 * 1 + 1 = 2 + 1 from rfl]
  unfold packLoop
  rw [if_neg hz, if_neg hr, hp]
  simp only [List.append_nil, List.nil_append]
  cases ht : p.tail with
  | none =>
    simp only [Option.toList, packLoop]
    rw [← htl, ht, ← hc]
    exact ⟨_, _, rfl⟩
  | some tl =>
    obtain ⟨hadv', htr, hid⟩ := packDataChunk_tail_room _ _ _ _ hp ht
    simp only [Option.toList]
    rw [packLoop_break]
    · simp only [List.nil_append]
      rw [← htl, ht, ← hc]
      exact ⟨_, _, rfl⟩
    · simp
    · rw [htr]; simp
    · simp only [hadv']
      exact Nat.sub_mod_eq_zero_of_mod_eq (by simp)

/-! ### Fragmentation over repeated passes -/

theorem chain_replace_last (l : List MozQuicStreamChunk) (t t' : MozQuicStreamChunk)
    (h : List.Chain' continues (l ++ [t])) (ho : t'.mOffset = t.mOffset) :
    List.Chain' continues (l ++ [t']) := by
  rw [List.chain'_append] at h ⊢
  refine ⟨h.1, List.chain'_singleton _, ?_⟩
  intro x hx y hy
  simp only [List.head?_cons, Option.mem_def, Option.some.injEq] at hy
  subst hy
  have := h.2.2 x hx t (by simp)
  unfold continues at this ⊢
  rw [ho]; exact this

theorem chain_extend (l : List MozQuicStreamChunk) (t u : MozQuicStreamChunk)
    (h : List.Chain' continues (l ++ [t])) (hu : continues t u) :
    List.Chain' continues ((l ++ [t]) ++ [u]) := by
  rw [List.chain'_append]
  refine ⟨h, List.chain'_singleton _, ?_⟩
  intro x hx y hy
  simp only [List.head?_cons, Option.mem_def, Option.some.injEq] at hy
  subst hy
  simp only [List.getLast?_append, List.getLast?_singleton, Option.mem_def] at hx
  simp at hx
  subst hx
  exact hu

theorem head_append_singleton (l : List MozQuicStreamChunk) (t t' u : MozQuicStreamChunk)
    (off : Nat) (h : ∀ x ∈ (l ++ [t]).head?, x.mOffset = off) (ho : t'.mOffset = t.mOffset) :
    ∀ x ∈ ((l ++ [t']) ++ [u]).head?, x.mOffset = off := by
  cases l with
  | nil =>
    intro x hx
    simp at hx
    subst hx
    rw [ho]; exact h t (by simp)
  | cons a l =>
    intro x hx
    simp at hx
    subst hx
    exact h _ (by simp)

theorem fragments_cover (c : MozQuicStreamChunk) (ua : List MozQuicStreamChunk)
    (hend : c.mOffset + c.mLen ≤ 2 ^ 64) :
    ∀ (passes : List (Env × Nat)) (s s' : StreamState) (t : MozQuicStreamChunk)
      (frags : List MozQuicStreamChunk),
      s.mUnWrittenData = [t] → s.mUnAckedData = ua ++ frags →
      t.mRst = false → t.mStreamID = c.mStreamID → t.mFin = c.mFin →
      t.mOffset = c.mOffset + (frags.map (fun f => f.mLen)).sum →
      t.mLen + (frags.map (fun f => f.mLen)).sum = c.mLen →
      t.payload = c.payload.drop (frags.map (fun f => f.mLen)).sum →
      (frags.map (fun f => f.payload)).flatten = c.payload.take (frags.map (fun f => f.mLen)).sum →
      (∀ f ∈ frags, f.mStreamID = c.mStreamID ∧ f.mRst = false ∧ f.mFin = false) →
      List.Chain' continues (frags ++ [t]) →
      (∀ x ∈ (frags ++ [t]).head?, x.mOffset = c.mOffset) →
      passesHaveRoom passes s = true → packingPasses passes s = some s' →
      s'.mUnWrittenData = [] →
      ∃ frags', s'.mUnAckedData = ua ++ frags' ∧
        (∀ f ∈ frags', f.mStreamID = c.mStreamID ∧ f.mRst = false) ∧
        frags'.head?.map (fun f => f.mOffset) = some c.mOffset ∧
        List.Chain' continues frags' ∧
        (frags'.map (fun f => f.mLen)).sum = c.mLen ∧
        (frags'.map (fun f => f.payload)).flatten = c.payload ∧
        (∀ f ∈ frags'.dropLast, f.mFin = false) ∧
        frags'.getLast?.map (fun f => f.mFin) = some c.mFin := by
  intro passes
  induction passes with
  | nil =>
    intro s s' t frags hs _ _ _ _ _ _ _ _ _ _ _ _ hrun hempty
    simp only [packingPasses, Option.some.injEq] at hrun
    subst hrun
    rw [hs] at hempty
    cases hempty
  | cons pr more ih =>
    obtain ⟨env, room⟩ := pr
    intro s s' t frags hs hua hrst hid hfin hoff hlen hpay hflat hall hchain hhead hroom hrun hempty
    simp only [passesHaveRoom, hs, Bool.and_eq_true] at hroom
    obtain ⟨hroom1, hroom2⟩ := hroom
    obtain ⟨out, room', hcsf⟩ := CreateStreamFrames_single env s t room hs hrst hroom1
    simp only [packingPasses, hcsf] at hrun
    simp only [hcsf] at hroom2
    unfold roomForOneByte at hroom1
    simp only [decide_eq_true_eq] at hroom1
    set dr := room - (3 + streamIdLen t.mStreamID + offsetLen t.mOffset) with hdr
    have hdrpos : 1 ≤ dr := by omega
    cases htl : (splitChunk env.newChunkTransmitCount dr t).2 with
    | none =>
      obtain ⟨hnlt, hcur⟩ := splitChunk_no_tail dr t htl
      rw [htl, hcur] at hrun hroom2
      simp only [Option.toList] at hrun hroom2
      cases more with
      | cons pr2 more2 =>
        obtain ⟨e2, r2⟩ := pr2
        simp [passesHaveRoom] at hroom2
      | nil =>
        simp only [packingPasses, Option.some.injEq] at hrun
        subst hrun
        refine ⟨frags ++ [stampChunk env t], ?_, ?_, ?_, ?_, ?_, ?_, ?_, ?_⟩
        · simp [hua]
        · intro f hf
          rcases List.mem_append.mp hf with hf | hf
          · exact ⟨(hall f hf).1, (hall f hf).2.1⟩
          · simp only [List.mem_singleton] at hf
            subst hf
            exact ⟨hid, hrst⟩
        · have := head_append_singleton frags t (stampChunk env t) t c.mOffset hhead rfl
          cases frags with
          | nil => simpa using hhead
          | cons a l => simpa using hhead
        · exact chain_replace_last frags t _ hchain rfl
        · simp only [List.map_append, List.sum_append, List.map_cons, List.map_nil, List.sum_cons,
            List.sum_nil]
          show (List.map (fun f => f.mLen) frags).sum + (t.mLen + 0) = c.mLen
          omega
        · simp only [List.map_append, List.flatten_append, List.map_cons, List.map_nil,
            List.flatten_cons, List.flatten_nil, List.append_nil]
          show (List.map (fun f => f.payload) frags).flatten ++ t.payload = c.payload
          rw [hflat, hpay, List.take_append_drop]
        · intro f hf
          rw [List.dropLast_concat] at hf
          exact (hall f hf).2.2
        · simp only [List.getLast?_append, List.getLast?_singleton]
          simpa using hfin
    | some tl =>
      obtain ⟨hlt, hcur, htleq⟩ := splitChunk_tail dr t tl htl
      rw [htl, hcur] at hrun hroom2
      simp only [Option.toList] at hrun hroom2
      set cur : MozQuicStreamChunk := { t with mLen := dr, mFin := false } with hcurdef
      have hsum : ((frags ++ [stampChunk env cur]).map (fun f => f.mLen)).sum
          = (frags.map (fun f => f.mLen)).sum + dr := by
        simp only [List.map_append, List.sum_append, List.map_cons, List.map_nil, List.sum_cons,
          List.sum_nil]
        rfl
      have hnowrap : t.mOffset + dr < 2 ^ 64 := by omega
      have htloff : tl.mOffset = t.mOffset + dr := by
        rw [htleq]; exact Nat.mod_eq_of_lt hnowrap
      refine ih _ s' tl (frags ++ [stampChunk env cur]) rfl (by simp [hua]) (by rw [htleq]; rfl)
        (by rw [htleq]; exact hid) (by rw [htleq]; exact hfin) ?_ ?_ ?_ ?_ ?_ ?_ ?_ hroom2 hrun hempty
      · rw [hsum, htloff, hoff]; omega
      · rw [hsum]
        have : tl.mLen = t.mLen - dr := by rw [htleq]; rfl
        omega
      · rw [hsum, htleq, create_payload, ← List.drop_take, ← List.drop_drop]
        have : List.take t.mLen t.buffer = t.payload := rfl
        rw [this, hpay]
      · rw [hsum]
        simp only [List.map_append, List.flatten_append, List.map_cons, List.map_nil,
          List.flatten_cons, List.flatten_nil, List.append_nil]
        have hcp : (stampChunk env cur).payload = (c.payload.drop (frags.map (fun f => f.mLen)).sum).take dr := by
          rw [← hpay]
          show List.take dr t.buffer = List.take dr (List.take t.mLen t.buffer)
          rw [List.take_take, Nat.min_eq_left (le_of_lt hlt)]
        rw [hcp, hflat, List.take_add]
      · intro f hf
        rcases List.mem_append.mp hf with hf | hf
        · exact hall f hf
        · simp only [List.mem_singleton] at hf
          subst hf
          exact ⟨hid, hrst, rfl⟩
      · have h1 : List.Chain' continues (frags ++ [stampChunk env cur]) :=
          chain_replace_last frags t _ hchain rfl
        refine chain_extend frags _ tl h1 ?_
        unfold continues
        rw [htloff]
        exact ⟨rfl, by show t.mOffset < t.mOffset + dr; omega⟩
      · exact head_append_singleton frags t (stampChunk env cur) tl c.mOffset hhead rfl

theorem packingPasses_single (env : Env) (room : Nat) (more : List (Env × Nat))
    (s : StreamState) (t : MozQuicStreamChunk)
    (hs : s.mUnWrittenData = [t]) (hrst : t.mRst = false)
    (hroom : roomForOneByte room t = true) :
    packingPasses ((env, room) :: more) s =
      packingPasses more { s with
        mUnWrittenData :=
          (splitChunk env.newChunkTransmitCount (room - (3 + streamIdLen t.mStreamID + offsetLen t.mOffset)) t).2.toList,
        mUnAckedData := s.mUnAckedData ++
          [stampChunk env
            (splitChunk env.newChunkTransmitCount (room - (3 + streamIdLen t.mStreamID + offsetLen t.mOffset)) t).1] } ∧
    passesHaveRoom ((env, room) :: more) s =
      passesHaveRoom more { s with
        mUnWrittenData :=
          (splitChunk env.newChunkTransmitCount (room - (3 + streamIdLen t.mStreamID + offsetLen t.mOffset)) t).2.toList,
        mUnAckedData := s.mUnAckedData ++
          [stampChunk env
            (splitChunk env.newChunkTransmitCount (room - (3 + streamIdLen t.mStreamID + offsetLen t.mOffset)) t).1] } := by
  obtain ⟨out, room', h⟩ := CreateStreamFrames_single env s t room hs hrst hroom
  constructor
  · simp only [packingPasses, h]
  · simp only [passesHaveRoom, h, hs, hroom, Bool.true_and]

/-- The two passes of the 1400-byte scenario, step by step. -/
theorem run1400 :
    packingPasses passes1400 state1400 = some state1400Done ∧
    passesHaveRoom passes1400 state1400 = true := by
  have e1 : (1204 : Nat) - (3 + streamIdLen chunk1400.mStreamID + offsetLen chunk1400.mOffset)
      = 1200 := by decide
  have s1 : splitChunk 1 1200 chunk1400
      = ({ chunk1400 with mLen := 1200, mFin := false },
          some (MozQuicStreamChunk.create 1 1200 (List.replicate 200 0x42) 200 true 1)) := by
    unfold splitChunk
    rw [if_pos (by decide)]
    simp only [chunk1400, MozQuicStreamChunk.create, MozQuicStreamChunk.buffer, Option.getD_some,
      List.take_replicate, List.drop_replicate, Nat.min_self, Nat.zero_add]
    rw [show (1200 : Nat) % 2 ^ 64 = 1200 from by decide,
      show (1400 : Nat) - 1200 = 200 from by decide]
  have h1 := packingPasses_single exampleEnv 1204 [(exampleEnv, 206)] state1400 chunk1400 rfl rfl
    (by decide)
  rw [show exampleEnv.newChunkTransmitCount = 1 from rfl, e1, s1] at h1
  have e2 : (206 : Nat) - (3 + streamIdLen
        (MozQuicStreamChunk.create 1 1200 (List.replicate 200 0x42) 200 true 1).mStreamID
      + offsetLen (MozQuicStreamChunk.create 1 1200 (List.replicate 200 0x42) 200 true 1).mOffset)
      = 200 := by decide
  have s2 : splitChunk 1 200 (MozQuicStreamChunk.create 1 1200 (List.replicate 200 0x42) 200 true 1)
      = (MozQuicStreamChunk.create 1 1200 (List.replicate 200 0x42) 200 true 1, none) := by
    unfold splitChunk
    rw [if_neg (by decide)]
  have h2 := packingPasses_single exampleEnv 206 []
    { state1400 with
      mUnWrittenData := [MozQuicStreamChunk.create 1 1200 (List.replicate 200 0x42) 200 true 1],
      mUnAckedData := state1400.mUnAckedData ++
        [stampChunk exampleEnv { chunk1400 with mLen := 1200, mFin := false }] }
    (MozQuicStreamChunk.create 1 1200 (List.replicate 200 0x42) 200 true 1) rfl rfl (by decide)
  rw [show exampleEnv.newChunkTransmitCount = 1 from rfl, e2, s2] at h2
  unfold passes1400
  constructor
  · rw [h1.1]
    simp only [Option.toList]
    rw [h2.1]
    rfl
  · rw [h1.2]
    simp only [Option.toList]
    rw [h2.2]
    rfl


/-- C5. Fragmentation covers the write exactly. Let `c` be a data chunk, alone in
`unwritten`, whose bytes end at or below stream offset `2 ^ 64`. After any
sequence of packing passes (`CreateStreamFrames` with `justZero = false` on fresh
buffers, each with room for at least one data byte) that leaves `unwritten`
empty, the chunks appended to `unAcked` all belong to the stream of `c`, start
at `c.offset`, have contiguous and strictly increasing offsets, lengths that sum
to `c.len` and data that concatenates to the data of `c`; no fragment but the
last has FIN set, and the last has the FIN flag of `c`. -/
theorem C5_fragmentation_covers_write (c : MozQuicStreamChunk) (s s' : StreamState)
    (passes : List (Env × Nat))
    (hdata : c.mRst = false) (hend : c.mOffset + c.mLen ≤ 2 ^ 64)
    (hs : s.mUnWrittenData = [c])
    (hroom : passesHaveRoom passes s = true)
    (hrun : packingPasses passes s = some s')
    (hempty : s'.mUnWrittenData = []) :
    ∃ frags, s'.mUnAckedData = s.mUnAckedData ++ frags ∧
      (∀ f ∈ frags, f.mStreamID = c.mStreamID ∧ f.mRst = false) ∧
      frags.head?.map (fun f => f.mOffset) = some c.mOffset ∧
      List.Chain' continues frags ∧
      (frags.map (fun f => f.mLen)).sum = c.mLen ∧
      (frags.map (fun f => f.payload)).flatten = c.payload ∧
      (∀ f ∈ frags.dropLast, f.mFin = false) ∧
      frags.getLast?.map (fun f => f.mFin) = some c.mFin :=
  fragments_cover c s.mUnAckedData hend passes s s' c [] hs (by simp) hdata rfl rfl
    (by simp) (by simp) (by simp) (by simp) (by simp) (List.chain'_singleton _) (by simp)
    hroom hrun hempty

/-- Witness for C5: 1400 bytes with FIN and a 1200-byte data budget give the
fragments offset 0, length 1200, no FIN and offset 1200, length 200, FIN. -/
theorem C5_fragmentation_covers_write_witness :
    (chunk1400.mRst = false ∧ chunk1400.mOffset + chunk1400.mLen ≤ 2 ^ 64 ∧
      state1400.mUnWrittenData = [chunk1400] ∧
      passesHaveRoom passes1400 state1400 = true ∧
      packingPasses passes1400 state1400 = some state1400Done ∧
      state1400Done.mUnWrittenData = []) ∧
    state1400Done.mUnAckedData.map (fun f => (f.mOffset, f.mLen, f.mFin))
      = [(0, 1200, false), (1200, 200, true)] ∧
    ∃ frags, state1400Done.mUnAckedData = state1400.mUnAckedData ++ frags ∧
      (∀ f ∈ frags, f.mStreamID = chunk1400.mStreamID ∧ f.mRst = false) ∧
      frags.head?.map (fun f => f.mOffset) = some chunk1400.mOffset ∧
      List.Chain' continues frags ∧
      (frags.map (fun f => f.mLen)).sum = chunk1400.mLen ∧
      (frags.map (fun f => f.payload)).flatten = chunk1400.payload ∧
      (∀ f ∈ frags.dropLast, f.mFin = false) ∧
      frags.getLast?.map (fun f => f.mFin) = some chunk1400.mFin :=
  ⟨⟨rfl, by decide, rfl, run1400.2, run1400.1, rfl⟩, by decide,
    C5_fragmentation_covers_write chunk1400 state1400 state1400Done passes1400
      rfl (by decide) rfl run1400.2 run1400.1 rfl⟩

/-! ### Scrubbing -/

theorem scrubLoop_eq_filter (streamID : Nat) (l : List MozQuicStreamChunk) :
    scrubLoop streamID l
      = l.filter (fun c => !(decide (c.mStreamID = streamID) && !c.mRst)) := by
  induction l with
  | nil => rfl
  | cons c rest ih =>
    unfold scrubLoop
    by_cases h : c.mStreamID = streamID ∧ c.mRst = false
    · rw [if_pos h, ih, List.filter_cons_of_neg]
      simp [h.1, h.2]
    · rw [if_neg h, ih, List.filter_cons_of_pos]
      rw [not_and_or] at h
      rcases h with h | h
      · simp [h]
      · simp at h; simp [h]

/-- C6. `ScrubUnWritten(id)` returns `MOZQUIC_OK` and leaves `unwritten` and
`unAcked` each equal to the original queue with exactly the chunks satisfying
`streamID = id` and not `rst` removed: no non-reset chunk of `id` remains in
either queue, while reset chunks of `id` and all chunks of other streams are
kept, in their original relative order. Nothing else in the state changes. -/
theorem C6_scrub_removes_exactly (s : StreamState) (id : Nat) :
    (ScrubUnWritten s id).1 = Code.MOZQUIC_OK ∧
    (ScrubUnWritten s id).2.mUnWrittenData
      = s.mUnWrittenData.filter (fun c => !(decide (c.mStreamID = id) && !c.mRst)) ∧
    (ScrubUnWritten s id).2.mUnAckedData
      = s.mUnAckedData.filter (fun c => !(decide (c.mStreamID = id) && !c.mRst)) ∧
    (∀ c, c ∈ (ScrubUnWritten s id).2.mUnWrittenData ∨ c ∈ (ScrubUnWritten s id).2.mUnAckedData →
      ¬ (c.mStreamID = id ∧ c.mRst = false)) ∧
    (∀ c, c.mStreamID ≠ id ∨ c.mRst = true →
      (c ∈ s.mUnWrittenData → c ∈ (ScrubUnWritten s id).2.mUnWrittenData) ∧
      (c ∈ s.mUnAckedData → c ∈ (ScrubUnWritten s id).2.mUnAckedData)) ∧
    List.Sublist (ScrubUnWritten s id).2.mUnWrittenData s.mUnWrittenData ∧
    List.Sublist (ScrubUnWritten s id).2.mUnAckedData s.mUnAckedData ∧
    (ScrubUnWritten s id).2
      = { s with mUnWrittenData := (ScrubUnWritten s id).2.mUnWrittenData,
                 mUnAckedData := (ScrubUnWritten s id).2.mUnAckedData } := by
  have hw : (ScrubUnWritten s id).2.mUnWrittenData
      = s.mUnWrittenData.filter (fun c => !(decide (c.mStreamID = id) && !c.mRst)) :=
    scrubLoop_eq_filter id _
  have ha : (ScrubUnWritten s id).2.mUnAckedData
      = s.mUnAckedData.filter (fun c => !(decide (c.mStreamID = id) && !c.mRst)) :=
    scrubLoop_eq_filter id _
  refine ⟨rfl, hw, ha, ?_, ?_, ?_, ?_, rfl⟩
  · intro c hc
    rw [hw, ha] at hc
    simp only [List.mem_filter] at hc
    rintro ⟨h1, h2⟩
    rcases hc with hc | hc <;> simp [h1, h2] at hc
  · intro c hc
    rw [hw, ha]
    simp only [List.mem_filter]
    have hk : (!(decide (c.mStreamID = id) && !c.mRst)) = true := by
      rcases hc with hc | hc
      · simp [hc]
      · simp [hc]
    exact ⟨fun h => ⟨h, hk⟩, fun h => ⟨h, hk⟩⟩
  · rw [hw]; exact List.filter_sublist _
  · rw [ha]; exact List.filter_sublist _

/-! ### The stream table -/

theorem findStream_eraseStream_self (m : List (Nat × MozQuicStreamPair)) (id : Nat) :
    findStream (eraseStream m id) id = none := by
  unfold findStream eraseStream
  rw [List.lookup_eq_none_iff]
  intro p hp
  simp only [List.mem_filter, bne_iff_ne, ne_eq] at hp
  simp only [bne_iff_ne, ne_eq]
  exact fun h => hp.2 h.symm

theorem findStream_eraseStream_ne (m : List (Nat × MozQuicStreamPair)) (id k : Nat)
    (h : k ≠ id) : findStream (eraseStream m id) k = findStream m k := by
  unfold findStream eraseStream
  induction m with
  | nil => rfl
  | cons e m ih =>
    obtain ⟨a, p⟩ := e
    by_cases ha : a = id
    · subst ha
      rw [List.filter_cons_of_neg (by simp), ih, List.lookup_cons]
      have : (k == a) = false := by simpa using h
      rw [this]
    · rw [List.filter_cons_of_pos (by simpa using ha), List.lookup_cons, List.lookup_cons, ih]

theorem findStream_insertStream (m : List (Nat × MozQuicStreamPair)) (k j : Nat)
    (p : MozQuicStreamPair) :
    findStream (insertStream m k p) j
      = (findStream m j).or (if j = k then some p else none) := by
  unfold insertStream
  cases hk : findStream m k with
  | some q0 =>
    simp only
    cases hj : findStream m j with
    | some q => rfl
    | none =>
      have : j ≠ k := by
        rintro rfl
        rw [hk] at hj; cases hj
      rw [if_neg this]; rfl
  | none =>
    simp only
    unfold findStream at *
    rw [List.lookup_append]
    cases hj : List.lookup j m with
    | some q => rfl
    | none =>
      simp only [Option.or, List.lookup_cons, List.lookup_nil]
      by_cases h : j = k
      · subst h; simp
      · have : (j == k) = false := by simpa using h
        rw [this, if_neg h]

theorem openStreams_of_lt (streamID fuel : Nat) (s : StreamState)
    (h : streamID < s.mNextRecvStreamId) : openStreams streamID fuel s = some s := by
  cases fuel with
  | zero => unfold openStreams; rw [if_neg (by omega)]
  | succ n => unfold openStreams; rw [if_neg (by omega)]

/-- The materialisation loop never ends for stream ID `2 ^ 32 - 1` when the
counter is odd: the counter steps from `2 ^ 32 - 1` back to 1. -/
theorem openStreams_top_never_ends (fuel : Nat) :
    ∀ s : StreamState, s.mNextRecvStreamId % 2 = 1 → s.mNextRecvStreamId < 2 ^ 32 →
      openStreams 4294967295 fuel s = none := by
  induction fuel with
  | zero =>
    intro s _ hlt
    unfold openStreams
    rw [if_pos (by omega)]
  | succ n ih =>
    intro s hodd hlt
    unfold openStreams
    rw [if_pos (by omega)]
    apply ih
    · simp only; omega
    · simp only; omega

/-- C7 (defect at the top of the ID range). For the freshly constructed state
(counter 1) and the stream ID `0xFFFFFFFF`, which is at least the counter and of
its parity, `FindStream` does not return for any amount of fuel: the loop
`while (streamID >= mNextRecvStreamId)` cannot end, because the 32-bit counter
wraps from `0xFFFFFFFF` to 1. -/
theorem C7_FindStream_top_of_range_diverges (env : Env) (fuel : Nat) (d : MozQuicStreamChunk) :
    freshState.mNextRecvStreamId ≤ 4294967295 ∧
    4294967295 % 2 = freshState.mNextRecvStreamId % 2 ∧
    FindStream env fuel freshState 4294967295 d = none := by
  refine ⟨by decide, by decide, ?_⟩
  unfold FindStream
  rw [openStreams_top_never_ends fuel freshState (by decide) (by decide)]

theorem findStream_updateStream (m : List (Nat × MozQuicStreamPair)) (id k : Nat)
    (p : MozQuicStreamPair) :
    findStream (updateStream m id p) k
      = if k = id then (findStream m id).map (fun _ => p) else findStream m k := by
  unfold findStream updateStream
  induction m with
  | nil => simp
  | cons e m ih =>
    obtain ⟨a, q⟩ := e
    rw [List.map_cons]
    by_cases ha : a = id
    · have h1 : (a == id) = true := by simpa using ha
      simp only [h1, if_true, List.lookup_cons]
      by_cases hk : k = id
      · have h2 : (k == a) = true := by simp [hk, ha]
        have h3 : (id == a) = true := by simp [ha]
        simp only [h2, h3, if_pos hk, Option.map_some']
      · have h2 : (k == a) = false := by simpa [ha] using hk
        simp only [h2]
        rw [if_neg hk] at ih ⊢
        exact ih
    · have h1 : (a == id) = false := by simpa using ha
      simp only [h1, Bool.false_eq_true, if_false, List.lookup_cons]
      by_cases hk : k = id
      · have h2 : (k == a) = false := by simpa [hk] using fun h => ha h.symm
        have h3 : (id == a) = false := by simpa using fun h => ha h.symm
        simp only [h2, h3]
        exact ih
      · rw [if_neg hk] at ih ⊢
        by_cases hka : k = a
        · have h2 : (k == a) = true := by simpa using hka
          subst hka
          simp only [h2]
        · have h2 : (k == a) = false := by simpa using hka
          simp only [h2]
          exact ih

/-- The materialisation loop for a stream ID below the top of the range: it
ends, the counter is two past the ID, every stream already present is kept,
and exactly the missing IDs `next, next + 2, ..., id` are created. -/
theorem openStreams_materialises (id : Nat) (hid : id + 2 < 2 ^ 32) :
    ∀ (fuel : Nat) (s : StreamState), s.mNextRecvStreamId ≤ id + 2 →
      id % 2 = s.mNextRecvStreamId % 2 → (id + 2 - s.mNextRecvStreamId) / 2 ≤ fuel →
      ∃ s', openStreams id fuel s = some s' ∧
        s' = { s with mStreams := s'.mStreams, mNextRecvStreamId := id + 2 } ∧
        ∀ k, findStream s'.mStreams k
          = (findStream s.mStreams k).or
              (if s.mNextRecvStreamId ≤ k ∧ k ≤ id ∧ k % 2 = id % 2
               then some (MozQuicStreamPair.create k) else none) := by
  intro fuel
  induction fuel with
  | zero =>
    intro s hle hpar hfuel
    have : s.mNextRecvStreamId = id + 2 := by omega
    refine ⟨s, openStreams_of_lt _ _ _ (by omega), ?_, ?_⟩
    · cases s; simp_all
    · intro k
      rw [if_neg (by omega)]
      cases findStream s.mStreams k <;> rfl
  | succ n ih =>
    intro s hle hpar hfuel
    by_cases hdone : id < s.mNextRecvStreamId
    · have : s.mNextRecvStreamId = id + 2 := by omega
      refine ⟨s, openStreams_of_lt _ _ _ hdone, ?_, ?_⟩
      · cases s; simp_all
      · intro k
        rw [if_neg (by omega)]
        cases findStream s.mStreams k <;> rfl
    · unfold openStreams
      rw [if_pos (by omega)]
      simp only
      have hmod : (s.mNextRecvStreamId + 2) % 2 ^ 32 = s.mNextRecvStreamId + 2 :=
        Nat.mod_eq_of_lt (by omega)
      rw [hmod]
      obtain ⟨s', h1, h2, h3⟩ := ih
        { s with
          mStreams := insertStream s.mStreams s.mNextRecvStreamId
            (MozQuicStreamPair.create s.mNextRecvStreamId),
          mNextRecvStreamId := s.mNextRecvStreamId + 2 }
        (by simp only; omega) (by simp only; omega) (by simp only; omega)
      refine ⟨s', h1, ?_, ?_⟩
      · rw [h2]
      · intro k
        rw [h3 k]
        simp only
        rw [findStream_insertStream]
        cases findStream s.mStreams k with
        | some q => rfl
        | none =>
          by_cases hk : k = s.mNextRecvStreamId
          · subst hk
            rw [if_pos rfl, if_neg (by omega), if_pos ⟨le_refl _, by omega, by omega⟩]
            rfl
          · rw [if_neg hk]
            by_cases hr : s.mNextRecvStreamId + 2 ≤ k ∧ k ≤ id ∧ k % 2 = id % 2
            · rw [if_pos hr, if_pos (by omega)]; rfl
            · rw [if_neg hr, if_neg (by omega)]; rfl

theorem FindStream_gone (env : Env) (fuel : Nat) (s : StreamState) (id : Nat)
    (d : MozQuicStreamChunk) (hlt : id < s.mNextRecvStreamId)
    (hgone : findStream s.mStreams id = none) :
    FindStream env fuel s id d = some (Code.MOZQUIC_ERR_ALREADY_FINISHED, s) := by
  unfold FindStream
  rw [openStreams_of_lt _ _ _ hlt]
  simp only [hgone]

theorem FindStream_existing (env : Env) (fuel : Nat) (s : StreamState) (id : Nat)
    (d : MozQuicStreamChunk) (q : MozQuicStreamPair) (hlt : id < s.mNextRecvStreamId)
    (hq : findStream s.mStreams id = some q) :
    FindStream env fuel s id d = some (Code.MOZQUIC_OK,
      { s with
        mStreams := updateStream s.mStreams id (q.Supply d),
        trace := s.trace ++
          (if (!env.Empty (q.Supply d) && env.mConnEventCB) = true
           then [Effect.ConnEventCB Event.MOZQUIC_EVENT_NEW_STREAM_DATA id] else []) }) := by
  unfold FindStream
  rw [openStreams_of_lt _ _ _ hlt]
  simp only [hq]
  by_cases h : (!env.Empty (q.Supply d) && env.mConnEventCB) = true
  · rw [if_pos h, if_pos h]
  · rw [if_neg h, if_neg h]
    simp

/-- Lazy materialisation below the top of the ID range: for a stream ID at least
the counter, of the counter's parity and with `id + 2 < 2 ^ 32`, `FindStream`
returns `MOZQUIC_OK` (given fuel for its `(id + 2 - counter) / 2` iterations),
keeps every stream already in the table, adds the missing ones among
`counter, counter + 2, ..., id`, and delivers the chunk to stream `id`. -/
theorem FindStream_materialises (env : Env) (fuel : Nat) (s : StreamState) (id : Nat)
    (d : MozQuicStreamChunk) (hle : s.mNextRecvStreamId ≤ id)
    (hpar : id % 2 = s.mNextRecvStreamId % 2) (hid : id + 2 < 2 ^ 32)
    (hfuel : (id + 2 - s.mNextRecvStreamId) / 2 ≤ fuel) :
    ∃ s', FindStream env fuel s id d = some (Code.MOZQUIC_OK, s') ∧
      s'.mNextRecvStreamId = id + 2 ∧
      findStream s'.mStreams id
        = some (((findStream s.mStreams id).getD (MozQuicStreamPair.create id)).Supply d) ∧
      ∀ k, k ≠ id → findStream s'.mStreams k
        = (findStream s.mStreams k).or
            (if s.mNextRecvStreamId ≤ k ∧ k ≤ id ∧ k % 2 = id % 2
             then some (MozQuicStreamPair.create k) else none) := by
  obtain ⟨s1, h1, h2, h3⟩ := openStreams_materialises id hid fuel s (by omega) hpar hfuel
  have hfound : findStream s1.mStreams id
      = some ((findStream s.mStreams id).getD (MozQuicStreamPair.create id)) := by
    rw [h3 id, if_pos ⟨hle, le_refl _, rfl⟩]
    cases findStream s.mStreams id <;> rfl
  unfold FindStream
  rw [h1]
  simp only [hfound]
  have hnext : s1.mNextRecvStreamId = id + 2 := by rw [h2]
  by_cases h : (!env.Empty (((findStream s.mStreams id).getD
      (MozQuicStreamPair.create id)).Supply d) && env.mConnEventCB) = true
  · rw [if_pos h]
    refine ⟨_, rfl, hnext, ?_, ?_⟩
    · show findStream (updateStream s1.mStreams id _) id = _
      rw [findStream_updateStream, if_pos rfl, hfound]; rfl
    · intro k hk
      show findStream (updateStream s1.mStreams id _) k = _
      rw [findStream_updateStream, if_neg hk, h3 k]
  · rw [if_neg h]
    refine ⟨_, rfl, hnext, ?_, ?_⟩
    · show findStream (updateStream s1.mStreams id _) id = _
      rw [findStream_updateStream, if_pos rfl, hfound]; rfl
    · intro k hk
      show findStream (updateStream s1.mStreams id _) k = _
      rw [findStream_updateStream, if_neg hk, h3 k]

/-- The scenario of the specification: with the counter at 3, a frame for stream 7
creates streams 3, 5 and 7 (stream 1 stays) and moves the counter to 9; a
later frame for stream 5 is delivered to the existing stream 5. -/
theorem FindStream_scenario_3_7_5 :
    ∃ s7 s5,
      FindStream exampleEnv 3 counterAt3 7 chunkPeer7 = some (Code.MOZQUIC_OK, s7) ∧
      s7.mStreams.map (fun e => e.1) = [1, 3, 5, 7] ∧ s7.mNextRecvStreamId = 9 ∧
      findStream s7.mStreams 5 = some (MozQuicStreamPair.create 5) ∧
      FindStream exampleEnv 0 s7 5 chunkPeer5 = some (Code.MOZQUIC_OK, s5) ∧
      s5.mStreams.map (fun e => e.1) = [1, 3, 5, 7] ∧ s5.mNextRecvStreamId = 9 ∧
      findStream s5.mStreams 5 = some ((MozQuicStreamPair.create 5).Supply chunkPeer5) :=
  ⟨_, _, rfl, by decide, by decide, by decide, rfl, by decide, by decide, by decide⟩

theorem openStreams_trace (streamID : Nat) :
    ∀ (fuel : Nat) (s s' : StreamState), openStreams streamID fuel s = some s' →
      s'.trace = s.trace ∧ s'.mStream0 = s.mStream0 := by
  intro fuel
  induction fuel with
  | zero =>
    intro s s' h
    unfold openStreams at h
    split_ifs at h
    simp only [Option.some.injEq] at h
    subst h; exact ⟨rfl, rfl⟩
  | succ n ih =>
    intro s s' h
    unfold openStreams at h
    split_ifs at h
    · have hh := ih _ _ h
      exact hh
    · simp only [Option.some.injEq] at h
      subst h; exact ⟨rfl, rfl⟩

/-- `FindStream` never returns `MOZQUIC_ERR_GENERAL` and never raises an error:
all it adds to the trace is the new-stream-data callback. -/
theorem FindStream_result (env : Env) (fuel : Nat) (s s' : StreamState) (id : Nat)
    (d : MozQuicStreamChunk) (rv : Code) (h : FindStream env fuel s id d = some (rv, s')) :
    rv ≠ Code.MOZQUIC_ERR_GENERAL ∧
    ∃ extra, s'.trace = s.trace ++ extra ∧
      ∀ e ∈ extra, e = Effect.ConnEventCB Event.MOZQUIC_EVENT_NEW_STREAM_DATA id := by
  unfold FindStream at h
  cases h1 : openStreams id fuel s with
  | none => rw [h1] at h; cases h
  | some s1 =>
    obtain ⟨ht, _⟩ := openStreams_trace id fuel s s1 h1
    rw [h1] at h
    simp only at h
    cases h2 : findStream s1.mStreams id with
    | none =>
      rw [h2] at h
      simp only [Option.some.injEq, Prod.mk.injEq] at h
      obtain ⟨rfl, rfl⟩ := h
      exact ⟨by decide, [], by simp [ht], by simp⟩
    | some p =>
      rw [h2] at h
      simp only at h
      split_ifs at h
      · simp only [Option.some.injEq, Prod.mk.injEq] at h
        obtain ⟨rfl, rfl⟩ := h
        exact ⟨by decide, [Effect.ConnEventCB Event.MOZQUIC_EVENT_NEW_STREAM_DATA id],
          by simp only [ht], by simp⟩
      · simp only [Option.some.injEq, Prod.mk.injEq] at h
        obtain ⟨rfl, rfl⟩ := h
        exact ⟨by decide, [], by simp [ht], by simp⟩

/-- C9. Protocol violations are rejected atomically. Given the bound the parser
guarantees (`_ptr + mDataLen` lies within the packet, the in-code assertion):
if the frame is a FIN on stream 0, or names a non-zero stream and came from
cleartext, `HandleStreamFrame` returns `MOZQUIC_ERR_GENERAL` after one
`RaiseError`, and nothing else changes: no stream receives a chunk, the table,
stream 0, the counters and the queues are as before, and the cursor is not
advanced. Conversely, whenever the call returns, it returned
`MOZQUIC_ERR_GENERAL`, or raised an error, only in those two cases. Stream-0
data without FIN is accepted whether or not it came from cleartext. -/
theorem C9_protocol_violations_rejected (env : Env) (fuel : Nat) (s : StreamState)
    (result : StreamFrameHeader) (fromCleartext : Bool) (pkt : List Nat) (ptr : Nat)
    (hassert : ptr + result.mDataLen ≤ pkt.length) :
    ((result.mStreamID = 0 ∧ result.mFinBit = true) ∨
        (result.mStreamID ≠ 0 ∧ fromCleartext = true) →
      ∃ text s', HandleStreamFrame env fuel s result fromCleartext pkt ptr
          = some (Code.MOZQUIC_ERR_GENERAL, s', ptr) ∧
        s' = { s with trace := s.trace ++ [Effect.RaiseError Code.MOZQUIC_ERR_GENERAL text] } ∧
        s'.mStreams = s.mStreams ∧ s'.mStream0 = s.mStream0 ∧
        s'.mNextRecvStreamId = s.mNextRecvStreamId) ∧
    (∀ rv s' ptr', HandleStreamFrame env fuel s result fromCleartext pkt ptr = some (rv, s', ptr') →
      (rv = Code.MOZQUIC_ERR_GENERAL ↔
        ((result.mStreamID = 0 ∧ result.mFinBit = true) ∨
          (result.mStreamID ≠ 0 ∧ fromCleartext = true))) ∧
      ((∃ code text, Effect.RaiseError code text ∈ s'.trace.drop s.trace.length) ↔
        ((result.mStreamID = 0 ∧ result.mFinBit = true) ∨
          (result.mStreamID ≠ 0 ∧ fromCleartext = true)))) ∧
    (result.mStreamID = 0 → result.mFinBit = false →
      HandleStreamFrame env fuel s result fromCleartext pkt ptr
        = some (Code.MOZQUIC_OK,
            { s with mStream0 := (s.mStream0.Supply
                (MozQuicStreamChunk.create 0 result.mOffset (pkt.drop ptr) result.mDataLen false env.newChunkTransmitCount)) },
            (ptr + result.mDataLen) % 2 ^ 32)) := by
  have hna : ¬ ¬ (ptr + result.mDataLen ≤ pkt.length) := not_not.mpr hassert
  by_cases h0 : result.mStreamID = 0
  · by_cases hf : result.mFinBit = true
    · -- FIN on stream 0
      have heval : HandleStreamFrame env fuel s result fromCleartext pkt ptr
          = some (Code.MOZQUIC_ERR_GENERAL,
              RaiseError s Code.MOZQUIC_ERR_GENERAL ErrorText.finNotAllowedOnStream0, ptr) := by
        unfold HandleStreamFrame
        rw [if_pos ⟨h0, hf⟩]
      refine ⟨fun _ => ⟨_, _, heval, rfl, rfl, rfl, rfl⟩, ?_, ?_⟩
      · intro rv s' ptr' h
        rw [heval] at h
        simp only [Option.some.injEq, Prod.mk.injEq] at h
        obtain ⟨rfl, rfl, rfl⟩ := h
        refine ⟨⟨fun _ => Or.inl ⟨h0, hf⟩, fun _ => rfl⟩, ⟨fun _ => Or.inl ⟨h0, hf⟩, fun _ => ?_⟩⟩
        exact ⟨Code.MOZQUIC_ERR_GENERAL, ErrorText.finNotAllowedOnStream0, by simp [RaiseError]⟩
      · intro _ hnf
        rw [hf] at hnf; cases hnf
    · -- data on stream 0
      have hf' : result.mFinBit = false := by simpa using hf
      have heval : HandleStreamFrame env fuel s result fromCleartext pkt ptr
          = some (Code.MOZQUIC_OK,
            { s with mStream0 := (s.mStream0.Supply
                (MozQuicStreamChunk.create 0 result.mOffset (pkt.drop ptr) result.mDataLen false env.newChunkTransmitCount)) },
            (ptr + result.mDataLen) % 2 ^ 32) := by
        unfold HandleStreamFrame
        rw [if_neg (fun h => hf h.2), if_neg hna]
        simp only
        rw [if_pos h0, h0, hf']
      have hnv : ¬ ((result.mStreamID = 0 ∧ result.mFinBit = true) ∨
          (result.mStreamID ≠ 0 ∧ fromCleartext = true)) := by
        rintro (h | h)
        · exact hf h.2
        · exact h.1 h0
      refine ⟨fun h => absurd h hnv, ?_, fun _ _ => heval⟩
      intro rv s' ptr' h
      rw [heval] at h
      simp only [Option.some.injEq, Prod.mk.injEq] at h
      obtain ⟨rfl, rfl, rfl⟩ := h
      refine ⟨⟨fun h => (by cases h), fun h => absurd h hnv⟩, ⟨?_, fun h => absurd h hnv⟩⟩
      rintro ⟨code, text, hmem⟩
      simp at hmem
  · by_cases hc : fromCleartext = true
    · -- non-zero stream from cleartext
      have heval : HandleStreamFrame env fuel s result fromCleartext pkt ptr
          = some (Code.MOZQUIC_ERR_GENERAL,
              RaiseError s Code.MOZQUIC_ERR_GENERAL ErrorText.cleartextNonZeroStreamID, ptr) := by
        unfold HandleStreamFrame
        rw [if_neg (fun h => h0 h.1), if_neg hna]
        simp only
        rw [if_neg h0, if_pos hc]
      refine ⟨fun _ => ⟨_, _, heval, rfl, rfl, rfl, rfl⟩, ?_, fun h => absurd h h0⟩
      intro rv s' ptr' h
      rw [heval] at h
      simp only [Option.some.injEq, Prod.mk.injEq] at h
      obtain ⟨rfl, rfl, rfl⟩ := h
      refine ⟨⟨fun _ => Or.inr ⟨h0, hc⟩, fun _ => rfl⟩, ⟨fun _ => Or.inr ⟨h0, hc⟩, fun _ => ?_⟩⟩
      exact ⟨Code.MOZQUIC_ERR_GENERAL, ErrorText.cleartextNonZeroStreamID, by simp [RaiseError]⟩
    · -- non-zero stream, protected
      have hnv : ¬ ((result.mStreamID = 0 ∧ result.mFinBit = true) ∨
          (result.mStreamID ≠ 0 ∧ fromCleartext = true)) := by
        rintro (h | h)
        · exact h0 h.1
        · exact hc h.2
      refine ⟨fun h => absurd h hnv, ?_, fun h => absurd h h0⟩
      intro rv s' ptr' h
      unfold HandleStreamFrame at h
      rw [if_neg (fun h => h0 h.1), if_neg hna] at h
      simp only at h
      rw [if_neg h0, if_neg hc] at h
      cases hfs : FindStream env fuel s result.mStreamID
          (MozQuicStreamChunk.create result.mStreamID result.mOffset (pkt.drop ptr)
            result.mDataLen result.mFinBit env.newChunkTransmitCount) with
      | none => rw [hfs] at h; cases h
      | some r =>
        obtain ⟨rv1, s1⟩ := r
        obtain ⟨hrv, extra, htr, hex⟩ := FindStream_result env fuel s s1 _ _ rv1 hfs
        rw [hfs] at h
        simp only at h
        have hs' : s' = s1 ∧ rv = rv1 := by
          split_ifs at h <;> simp only [Option.some.injEq, Prod.mk.injEq] at h
          · exact ⟨h.2.1.symm, h.1.symm⟩
          · rename_i hok
            simp only [ne_eq, not_not] at hok
            exact ⟨h.2.1.symm, by rw [hok]; exact h.1.symm⟩
        obtain ⟨rfl, rfl⟩ := hs'
        refine ⟨⟨fun h => absurd h hrv, fun h => absurd h hnv⟩, ⟨?_, fun h => absurd h hnv⟩⟩
        rintro ⟨code, text, hmem⟩
        rw [htr, List.drop_left] at hmem
        have := hex _ hmem
        cases this


/-- Witness for C9: a cleartext frame for stream 3 on a fresh endpoint. -/
theorem C9_protocol_violations_rejected_witness :
    (0 + frameFor3.mDataLen ≤ ([] : List Nat).length) ∧
    (((frameFor3.mStreamID = 0 ∧ frameFor3.mFinBit = true) ∨
        (frameFor3.mStreamID ≠ 0 ∧ true = true) →
      ∃ text s', HandleStreamFrame exampleEnv 0 freshState frameFor3 true [] 0
          = some (Code.MOZQUIC_ERR_GENERAL, s', 0) ∧
        s' = { freshState with
               trace := freshState.trace ++ [Effect.RaiseError Code.MOZQUIC_ERR_GENERAL text] } ∧
        s'.mStreams = freshState.mStreams ∧ s'.mStream0 = freshState.mStream0 ∧
        s'.mNextRecvStreamId = freshState.mNextRecvStreamId) ∧
    (∀ rv s' ptr', HandleStreamFrame exampleEnv 0 freshState frameFor3 true [] 0 = some (rv, s', ptr') →
      (rv = Code.MOZQUIC_ERR_GENERAL ↔
        ((frameFor3.mStreamID = 0 ∧ frameFor3.mFinBit = true) ∨
          (frameFor3.mStreamID ≠ 0 ∧ true = true))) ∧
      ((∃ code text, Effect.RaiseError code text ∈ s'.trace.drop freshState.trace.length) ↔
        ((frameFor3.mStreamID = 0 ∧ frameFor3.mFinBit = true) ∨
          (frameFor3.mStreamID ≠ 0 ∧ true = true)))) ∧
    (frameFor3.mStreamID = 0 → frameFor3.mFinBit = false →
      HandleStreamFrame exampleEnv 0 freshState frameFor3 true [] 0
        = some (Code.MOZQUIC_OK,
            { freshState with mStream0 := (freshState.mStream0.Supply
                (MozQuicStreamChunk.create 0 frameFor3.mOffset (([] : List Nat).drop 0)
                  frameFor3.mDataLen false 1)) },
            (0 + frameFor3.mDataLen) % 2 ^ 32))) :=
  ⟨by decide, C9_protocol_violations_rejected exampleEnv 0 freshState frameFor3 true [] 0
    (by decide)⟩

/-! ### Opening a local stream -/

theorem foldl_queueUnWritten (chunks : List MozQuicStreamChunk) :
    ∀ s : StreamState, chunks.foldl queueUnWritten s
      = { s with mUnWrittenData := s.mUnWrittenData ++ chunks } := by
  induction chunks with
  | nil => intro s; simp
  | cons c rest ih =>
    intro s
    rw [List.foldl_cons, ih]
    simp [queueUnWritten]

/-- C10 (counterexample). After the peer has opened stream 1 on a fresh endpoint,
the next locally initiated stream is also given ID 1, but the table keeps the
peer's stream under that ID: the new stream is not stored. -/
theorem C10_counterexample_id_already_present :
    FindStream exampleEnv 1 freshState 1 chunkPeer1 = some (Code.MOZQUIC_OK, peerOpened1) ∧
    (StartNewStream exampleEnv peerOpened1 [] 0 false).2.1 = MozQuicStreamPair.create 1 ∧
    findStream (StartNewStream exampleEnv peerOpened1 [] 0 false).2.2.mStreams 1
      = some ((MozQuicStreamPair.create 1).Supply chunkPeer1) ∧
    findStream (StartNewStream exampleEnv peerOpened1 [] 0 false).2.2.mStreams 1
      ≠ some (StartNewStream exampleEnv peerOpened1 [] 0 false).2.1 := by
  decide

/-- C10 (as amended). `StartNewStream(data, amount, fin)` gives the new stream the
ID that `nextLocallyInitiatedStreamID` had before the call; stores it in the
stream table under that ID when the table has no stream with that ID (a table
that already has one is left unchanged); touches no other entry; advances the
counter by 2 in 32-bit arithmetic (by exactly 2 unless it wraps); invokes the
new stream's `Write(data, amount, fin)` if and only if `amount > 0` or `fin`;
and returns the status of `Write` when it is invoked and `MOZQUIC_OK` otherwise.
The chunks `Write` hands over are queued at the end of `unwritten`. -/
theorem C10_StartNewStream (env : Env) (s : StreamState) (data : List Nat) (amount : Nat)
    (fin : Bool) :
    (StartNewStream env s data amount fin).2.1 = MozQuicStreamPair.create s.mNextStreamId ∧
    (StartNewStream env s data amount fin).2.1.mStreamID = s.mNextStreamId ∧
    (findStream s.mStreams s.mNextStreamId = none →
      findStream (StartNewStream env s data amount fin).2.2.mStreams s.mNextStreamId
        = some (StartNewStream env s data amount fin).2.1) ∧
    ((findStream s.mStreams s.mNextStreamId).isSome = true →
      (StartNewStream env s data amount fin).2.2.mStreams = s.mStreams) ∧
    (∀ k, k ≠ s.mNextStreamId →
      findStream (StartNewStream env s data amount fin).2.2.mStreams k = findStream s.mStreams k) ∧
    (StartNewStream env s data amount fin).2.2.mNextStreamId = (s.mNextStreamId + 2) % 2 ^ 32 ∧
    (s.mNextStreamId + 2 < 2 ^ 32 →
      (StartNewStream env s data amount fin).2.2.mNextStreamId = s.mNextStreamId + 2) ∧
    (StartNewStream env s data amount fin).2.2.trace
      = s.trace ++ (if amount ≠ 0 ∨ fin = true
          then [Effect.Write s.mNextStreamId data amount fin] else []) ∧
    (StartNewStream env s data amount fin).1
      = (if amount ≠ 0 ∨ fin = true
          then (env.Write (MozQuicStreamPair.create s.mNextStreamId) data amount fin).1
          else Code.MOZQUIC_OK) ∧
    (StartNewStream env s data amount fin).2.2.mUnWrittenData
      = s.mUnWrittenData ++ (if amount ≠ 0 ∨ fin = true
          then (env.Write (MozQuicStreamPair.create s.mNextStreamId) data amount fin).2
          else []) := by
  have hstreams : (StartNewStream env s data amount fin).2.2.mStreams
      = insertStream s.mStreams s.mNextStreamId (MozQuicStreamPair.create s.mNextStreamId) := by
    unfold StartNewStream
    simp only
    split_ifs
    · rw [foldl_queueUnWritten]
    · rfl
  have hnext : (StartNewStream env s data amount fin).2.2.mNextStreamId
      = (s.mNextStreamId + 2) % 2 ^ 32 := by
    unfold StartNewStream
    simp only
    split_ifs
    · rw [foldl_queueUnWritten]
    · rfl
  have hout : (StartNewStream env s data amount fin).2.1
      = MozQuicStreamPair.create s.mNextStreamId := by
    unfold StartNewStream
    simp only
    split_ifs <;> rfl
  refine ⟨hout, by rw [hout]; rfl, ?_, ?_, ?_, hnext, ?_, ?_, ?_, ?_⟩
  · intro hnone
    rw [hstreams, hout, findStream_insertStream, hnone, if_pos rfl]; rfl
  · intro hsome
    rw [hstreams]
    unfold insertStream
    cases h : findStream s.mStreams s.mNextStreamId with
    | none => rw [h] at hsome; cases hsome
    | some q => rfl
  · intro k hk
    rw [hstreams, findStream_insertStream, if_neg hk]
    cases findStream s.mStreams k <;> rfl
  · intro hlt
    rw [hnext, Nat.mod_eq_of_lt hlt]
  · unfold StartNewStream
    simp only
    split_ifs
    · rw [foldl_queueUnWritten]; rfl
    · simp
  · unfold StartNewStream
    simp only
    split_ifs <;> rfl
  · unfold StartNewStream
    simp only
    split_ifs
    · rw [foldl_queueUnWritten]
    · simp

theorem streamFrameLayout_length_split {count0 : Nat} (c : MozQuicStreamChunk) (room : Nat)
    (hlt : room < c.mLen) (hown : c.owned) :
    ((splitChunk count0 room c).1.buffer.take (splitChunk count0 room c).1.mLen).length = room := by
  unfold splitChunk
  rw [if_pos hlt]
  unfold MozQuicStreamChunk.owned at hown
  simp only [MozQuicStreamChunk.buffer] at hown ⊢
  rw [List.length_take]
  omega

/-- C20. A split ends the datagram. Take the packing loop of `CreateStreamFrames`
at any iteration: the iterator stands at a data chunk `c` that is not skipped,
`st.room` bytes are left in the buffer, and the body splits `c` (it packs the
head `p.chunk` and inserts the tail `t` behind it). Then the loop ends with
this frame: the head's frame is the last thing written and the write pointer
has advanced by exactly `st.room`, so no room is left; the head is the last
chunk appended to `unAcked`; and `unwritten` keeps the tail in the place of the
split chunk, directly before the chunks that followed it, none of which is
looked at in this call. When the chunk owns `mLen` bytes the frame is `st.room`
bytes long. -/
theorem C20_split_ends_datagram (env : Env) (justZero : Bool) (fuel : Nat)
    (c t : MozQuicStreamChunk) (rest : List MozQuicStreamChunk) (st : PackState) (p : Packed)
    (hroom : st.room < 2 ^ 32)
    (hz : ¬ (justZero = true ∧ c.mStreamID ≠ 0)) (hrst : c.mRst = false)
    (hp : packDataChunk env.newChunkTransmitCount st.room c = some p) (ht : p.tail = some t) :
    packLoop env justZero (fuel + 2) (c :: rest) st
      = some { kept := st.kept ++ t :: rest,
               unAcked := st.unAcked ++ [stampChunk env p.chunk],
               out := st.out ++ streamFrameLayout p.chunk,
               room := 0 } ∧
    p.advance = st.room ∧
    (c.owned → (streamFrameLayout p.chunk).length = st.room) := by
  obtain ⟨hadv, htr, htid⟩ := packDataChunk_tail_room st.room c t p hp ht
  rw [Nat.mod_eq_of_lt hroom] at hadv
  have hbytes := packDataChunk_bytes st.room c p hp
  have hr : ¬ c.mRst = true := by rw [hrst]; simp
  refine ⟨?_, hadv, ?_⟩
  · rw [packLoop]
    rw [if_neg hz, if_neg hr, hp]
    simp only [ht, Option.toList, List.cons_append, List.nil_append]
    have hz2 : ¬ (justZero = true ∧ t.mStreamID ≠ 0) := by rw [htid]; exact hz
    have hr2 : ¬ t.mRst = true := by rw [htr]; simp
    rw [packLoop_break env justZero fuel t rest _ hz2 hr2 (by simp [hadv])]
    simp [hadv, hbytes]
  · intro hown
    obtain ⟨h4, hc, htl, hadv2, hb⟩ := packDataChunk_eq_some st.room c p hp
    rw [Nat.mod_eq_of_lt hroom] at h4 hc htl
    rw [htl] at ht
    obtain ⟨hlt, _, _⟩ := splitChunk_tail _ _ _ ht
    have hlen := @streamFrameLayout_length_split env.newChunkTransmitCount c _ hlt hown
    rw [← hc] at hlen
    rw [← hbytes, hb]
    have ho : (if offsetLen c.mOffset ≠ 0 then
        ((beBytes 8 c.mOffset).drop (8 - offsetLen c.mOffset)).take (offsetLen c.mOffset) else []).length
        = offsetLen c.mOffset := by
      have h8 : offsetLen c.mOffset ≤ 8 := by
        rw [offsetLen_eq]; split_ifs <;> omega
      split_ifs with h0
      · rw [List.length_take, List.length_drop, beBytes_length]; omega
      · simp at h0; simp [h0]
    have hid := streamIdLen_le c.mStreamID
    simp only [List.length_append, List.length_singleton, List.length_take, List.length_drop,
      beBytes_length, ho]
    rw [List.length_take] at hlen
    omega

/-- C20 (witness): `chunkABC` meets 6 bytes of room in front of another chunk. -/
theorem C20_split_ends_datagram_witness :
    packLoop exampleEnv false 2 [chunkABC, chunkPeer5]
        { kept := [], unAcked := [], out := [], room := 6 }
      = some { kept := [MozQuicStreamChunk.create 1 2 [0x43] 1 true 1, chunkPeer5],
               unAcked := [stampChunk exampleEnv packedABC.chunk],
               out := [0xC1, 1, 0, 2, 0x41, 0x42],
               room := 0 } :=
  (C20_split_ends_datagram exampleEnv false 0 chunkABC (MozQuicStreamChunk.create 1 2 [0x43] 1 true 1)
    [chunkPeer5] { kept := [], unAcked := [], out := [], room := 6 } packedABC
    (by decide) (by decide) (by decide) (by decide) (by decide)).1

/-- C12 (counterexample). During the handshake (`DecodedOK()` false) `Flush` on a
fresh state, whose `unwritten` is empty, with `forceAck = false` calls the
stream-0 flush of the connection object before it looks at the queue. -/
theorem C12_counterexample_handshake_flush :
    freshState.mUnWrittenData = [] ∧
    Flush handshakeEnv 1 false freshState
      = some (Code.MOZQUIC_OK, { freshState with trace := [Effect.FlushStream0 false] }) := by
  decide

/-- C12 (amended). `Flush` on an empty `unwritten` with `forceAck = false`: once
`DecodedOK()` holds it returns OK and leaves the state, trace of collaborator
calls included, exactly as it was. While `DecodedOK()` is false it first calls
`FlushStream0(false)`; if `unwritten` is still empty after that call it
returns OK with the state that call left, and nothing else is called. -/
theorem C12_Flush_empty_no_op (env : Env) (fuel : Nat) (s : StreamState)
    (h : s.mUnWrittenData = []) :
    (env.DecodedOK = true → Flush env (fuel + 1) false s = some (Code.MOZQUIC_OK, s)) ∧
    (env.DecodedOK = false →
      (env.FlushStream0 false
        { s with trace := s.trace ++ [Effect.FlushStream0 false] }).mUnWrittenData = [] →
      Flush env (fuel + 1) false s = some (Code.MOZQUIC_OK,
        env.FlushStream0 false { s with trace := s.trace ++ [Effect.FlushStream0 false] })) := by
  constructor
  · intro hd
    simp [Flush, hd, h]
  · intro hd h1
    simp [Flush, hd, h1]

/-- C12 (witness): a fresh state, in an endpoint past the handshake. -/
theorem C12_Flush_empty_no_op_witness :
    Flush exampleEnv 1 false freshState = some (Code.MOZQUIC_OK, freshState) :=
  (C12_Flush_empty_no_op exampleEnv 0 freshState rfl).1 rfl

/-- C19 (counterexample). During the handshake (`DecodedOK()` false), with the
chunk `chunkABC` of stream 1 queued: after the call of `FlushStream0`, `Flush`
builds a short header for 1220 bytes, runs `CreateStreamFrames` over all
streams with 1204 bytes of room, hands the frame of stream 1 to
`ProtectedTransmit` and moves the chunk from `unwritten` to `unAcked`. -/
theorem C19_counterexample_flush_goes_on :
    handshakeEnv.DecodedOK = false ∧
    Flush handshakeEnv 1 false stateABC
      = some (Code.MOZQUIC_OK,
          { freshState with
            mUnAckedData := [stampChunk handshakeEnv chunkABC],
            trace := [Effect.FlushStream0 false, Effect.CreateShortPacketHeader 1220,
              Effect.CreateStreamFrames 1204 false,
              Effect.ProtectedTransmit [0xE1, 1, 0, 3, 0x41, 0x42, 0x43]] }) := by
  decide

/-- C19 (amended). While `DecodedOK()` is false `Flush` first calls
`FlushStream0(forceAck)` and then carries on from the state `s1` that call
leaves, as it does otherwise. If `unwritten` is then empty and `forceAck` is
false it returns OK. If not (and the MTU fits the packet buffer), it builds a
short header and runs `CreateStreamFrames` over all streams (`justZero` false),
which returns frames `out` and a state `s2`, and hands `out` to
`ProtectedTransmit`; it returns the status of a failed transmit, flushes again
with `forceAck = false` while chunks are left in `unwritten`, and returns OK
otherwise. -/
theorem C19_Flush_delegates_then_proceeds (env : Env) (fuel : Nat) (forceAck : Bool)
    (s s1 : StreamState) (hd : env.DecodedOK = false)
    (hs1 : s1 = env.FlushStream0 forceAck
      { s with trace := s.trace ++ [Effect.FlushStream0 forceAck] }) :
    (s1.mUnWrittenData = [] ∧ forceAck = false →
      Flush env (fuel + 1) forceAck s = some (Code.MOZQUIC_OK, s1)) ∧
    (¬ (s1.mUnWrittenData = [] ∧ forceAck = false) → env.mMTU ≤ env.kMaxMTU →
      ∃ out room' s2,
        CreateStreamFrames env
          { s1 with trace := s1.trace ++
            [Effect.CreateShortPacketHeader ((env.mMTU + 2 ^ 32 - env.kTagLen % 2 ^ 32) % 2 ^ 32),
             Effect.CreateStreamFrames (Int.toNat (((env.mMTU : Int) - env.kTagLen -
                env.CreateShortPacketHeader ((env.mMTU + 2 ^ 32 - env.kTagLen % 2 ^ 32) % 2 ^ 32))
                % 2 ^ 32)) false] }
          (Int.toNat (((env.mMTU : Int) - env.kTagLen -
            env.CreateShortPacketHeader ((env.mMTU + 2 ^ 32 - env.kTagLen % 2 ^ 32) % 2 ^ 32))
            % 2 ^ 32)) false
          = some (Code.MOZQUIC_OK, out, room', s2) ∧
        Flush env (fuel + 1) forceAck s =
          (if env.ProtectedTransmit out ≠ Code.MOZQUIC_OK then
            some (env.ProtectedTransmit out,
              { s2 with trace := s2.trace ++ [Effect.ProtectedTransmit out] })
          else if s2.mUnWrittenData ≠ [] then
            Flush env fuel false { s2 with trace := s2.trace ++ [Effect.ProtectedTransmit out] }
          else some (Code.MOZQUIC_OK,
              { s2 with trace := s2.trace ++ [Effect.ProtectedTransmit out] }))) := by
  subst hs1
  constructor
  · intro h
    rw [Flush]
    simp only [hd, if_true]
    rw [if_pos h]
  · intro h hmtu
    obtain ⟨out, room', s2, hc⟩ := CreateStreamFrames_total env
      { (env.FlushStream0 forceAck { s with trace := s.trace ++ [Effect.FlushStream0 forceAck] }) with
        trace := (env.FlushStream0 forceAck
            { s with trace := s.trace ++ [Effect.FlushStream0 forceAck] }).trace ++
          [Effect.CreateShortPacketHeader ((env.mMTU + 2 ^ 32 - env.kTagLen % 2 ^ 32) % 2 ^ 32),
           Effect.CreateStreamFrames (Int.toNat (((env.mMTU : Int) - env.kTagLen -
              env.CreateShortPacketHeader ((env.mMTU + 2 ^ 32 - env.kTagLen % 2 ^ 32) % 2 ^ 32))
              % 2 ^ 32)) false] }
      (Int.toNat (((env.mMTU : Int) - env.kTagLen -
            env.CreateShortPacketHeader ((env.mMTU + 2 ^ 32 - env.kTagLen % 2 ^ 32) % 2 ^ 32))
            % 2 ^ 32)) false
    refine ⟨out, room', s2, hc, ?_⟩
    rw [Flush]
    simp only [hd, if_true]
    rw [if_neg h, if_neg (by simpa using hmtu)]
    simp only [hc]

/-- C19 (witness): the handshake endpoint with `chunkABC` queued. -/
theorem C19_Flush_delegates_then_proceeds_witness :
    ¬ (stateABC.mUnWrittenData = [] ∧ false = false) ∧
    ∃ out room' s2,
      CreateStreamFrames handshakeEnv
          { stateABC with trace := [Effect.FlushStream0 false,
              Effect.CreateShortPacketHeader 1220, Effect.CreateStreamFrames 1204 false] }
          1204 false = some (Code.MOZQUIC_OK, out, room', s2) ∧
        Flush handshakeEnv 1 false stateABC =
          (if handshakeEnv.ProtectedTransmit out ≠ Code.MOZQUIC_OK then
            some (handshakeEnv.ProtectedTransmit out,
              { s2 with trace := s2.trace ++ [Effect.ProtectedTransmit out] })
          else if s2.mUnWrittenData ≠ [] then
            Flush handshakeEnv 0 false { s2 with trace := s2.trace ++ [Effect.ProtectedTransmit out] }
          else some (Code.MOZQUIC_OK,
              { s2 with trace := s2.trace ++ [Effect.ProtectedTransmit out] })) :=
  ⟨by decide,
   (C19_Flush_delegates_then_proceeds handshakeEnv 0 false stateABC
      { stateABC with trace := [Effect.FlushStream0 false] } rfl rfl).2 (by decide) (by decide)⟩

/-! ### The retransmission timer -/

theorem sub64_of_le (a b : Nat) (ha : a < 2 ^ 64) (hb : b ≤ a) : sub64 a b = a - b := by
  unfold sub64
  rw [Nat.mod_eq_of_lt ha, Nat.mod_eq_of_lt (lt_of_le_of_lt hb ha)]
  omega

theorem sub64_gt (a b t : Nat) (h : t > sub64 a b) : a % 2 ^ 64 < t + b % 2 ^ 64 := by
  unfold sub64 at h
  have h1 : a % 2 ^ 64 < 2 ^ 64 := Nat.mod_lt _ (by norm_num)
  have h2 : b % 2 ^ 64 < 2 ^ 64 := Nat.mod_lt _ (by norm_num)
  by_cases hle : b % 2 ^ 64 ≤ a % 2 ^ 64
  · have : (a % 2 ^ 64 + 2 ^ 64 - b % 2 ^ 64) % 2 ^ 64 = a % 2 ^ 64 - b % 2 ^ 64 := by
      omega
    omega
  · have : (a % 2 ^ 64 + 2 ^ 64 - b % 2 ^ 64) % 2 ^ 64 = a % 2 ^ 64 + 2 ^ 64 - b % 2 ^ 64 := by
      apply Nat.mod_eq_of_lt; omega
    omega

theorem scanStops_not_due (env : Env) (now : Nat) (c : MozQuicStreamChunk) (hnow : now < 2 ^ 64)
    (h : scanStops env now c = true) : now < retransDeadline env c := by
  unfold scanStops retransEpoch at h
  simp only [decide_eq_true_eq] at h
  have h1 := sub64_gt _ _ _ h
  rw [Nat.mod_eq_of_lt hnow] at h1
  have h2 := Nat.mod_le (env.kRetransmitThresh * c.mTransmitCount) (2 ^ 64)
  unfold retransDeadline
  omega

/-- C15 (counterexample). At clock reading 100, with `kRetransmitThresh = 500`, the
chunk `sentABC` (sent at 100, first transmission) is not due before 600; the
difference `100 - 500` wraps, the scan does not stop at the chunk, and
`RetransmitTimer` queues its data again. -/
theorem C15_counterexample_small_clock :
    exampleEnv.Timestamp = 100 ∧ exampleEnv.Timestamp < retransDeadline exampleEnv sentABC ∧
    scanStops exampleEnv exampleEnv.Timestamp sentABC = false ∧
    RetransmitTimer exampleEnv stateSentABC
      = some (Code.MOZQUIC_OK,
          { freshState with mUnWrittenData := [requeued sentABC],
                            mUnAckedData := [released sentABC] }) := by
  decide

/-- C15 (amended). For a clock reading `now` that is at least
`kRetransmitThresh * transmitCount` (so that the unsigned difference does not
wrap), the scan of `RetransmitTimer` stops at a chunk exactly if
`now < transmitTime + kRetransmitThresh * transmitCount` over the unbounded
integers. For every 64-bit `now`, a chunk at which the scan stops is not due. -/
theorem C15_scan_stop_deadline (env : Env) (now : Nat) (hnow : now < 2 ^ 64) :
    (∀ c : MozQuicStreamChunk, env.kRetransmitThresh * c.mTransmitCount ≤ now →
      (scanStops env now c = true ↔ now < retransDeadline env c)) ∧
    (∀ c : MozQuicStreamChunk, scanStops env now c = true → now < retransDeadline env c) := by
  refine ⟨fun c hk => ?_, fun c hc => scanStops_not_due env now c hnow hc⟩
  unfold scanStops retransEpoch retransDeadline
  rw [sub64_of_le _ _ hnow hk]
  simp only [decide_eq_true_eq]
  omega

/-- C15 (witness): the chunk `secondSendAt1000` at clock reading 1700. -/
theorem C15_scan_stop_deadline_witness :
    scanStops envAt1700 1700 secondSendAt1000 = true ↔
      1700 < retransDeadline envAt1700 secondSendAt1000 :=
  (C15_scan_stop_deadline envAt1700 1700 (by decide)).1 secondSendAt1000 (by decide)

/-- C16 (counterexample). The queue `secondSendAt1000, firstSendAt1100` is in
transmit order. At clock reading 1700 the scan stops at its first chunk
(second transmission, deadline 2000) and `RetransmitTimer` leaves the state as
it is, although the chunk behind it (first transmission, deadline 1600) is
due. -/
theorem C16_counterexample_backoff :
    stateBackoff.mUnAckedData = [secondSendAt1000, firstSendAt1100] ∧
    secondSendAt1000.mTransmitTime ≤ firstSendAt1100.mTransmitTime ∧
    scanStops envAt1700 envAt1700.Timestamp secondSendAt1000 = true ∧
    RetransmitTimer envAt1700 stateBackoff = some (Code.MOZQUIC_OK, stateBackoff) ∧
    ¬ (envAt1700.Timestamp < retransDeadline envAt1700 firstSendAt1100) := by
  decide

/-- C16 (amended). Let the queue from the chunk `c` on be in transmit order
(non-decreasing `mTransmitTime`). If the scan of `RetransmitTimer` stops at
`c`, the loop leaves this part of the queue and the state as they are, and
every later chunk `d` whose transmit count is at least that of `c` is not due:
`now < d.transmitTime + kRetransmitThresh * d.transmitCount`. -/
theorem C16_early_stop_sound (env : Env) (now : Nat) (c : MozQuicStreamChunk)
    (post : List MozQuicStreamChunk) (s : StreamState) (hnow : now < 2 ^ 64)
    (hsorted : List.Pairwise (fun a b => a.mTransmitTime ≤ b.mTransmitTime) (c :: post))
    (hstop : scanStops env now c = true) :
    retransmitLoop env now (c :: post) s = some (c :: post, s) ∧
    ∀ d ∈ post, c.mTransmitCount ≤ d.mTransmitCount → now < retransDeadline env d := by
  constructor
  · rw [retransmitLoop, if_pos hstop]
  · intro d hd hcount
    have h1 := scanStops_not_due env now c hnow hstop
    have h2 : c.mTransmitTime ≤ d.mTransmitTime := (List.pairwise_cons.mp hsorted).1 d hd
    have h3 : env.kRetransmitThresh * c.mTransmitCount ≤ env.kRetransmitThresh * d.mTransmitCount :=
      Nat.mul_le_mul_left _ hcount
    unfold retransDeadline at h1 ⊢
    omega

/-- C16 (witness): two first transmissions, sent at 1100 and 1200, at clock
reading 1500: the scan stops at the first, and the second is not due. -/
theorem C16_early_stop_sound_witness :
    retransmitLoop exampleEnv 1500 [firstSendAt1100, firstSendAt1200] freshState
      = some ([firstSendAt1100, firstSendAt1200], freshState) ∧
    1500 < retransDeadline exampleEnv firstSendAt1200 :=
  ⟨(C16_early_stop_sound exampleEnv 1500 firstSendAt1100 [firstSendAt1200] freshState
      (by decide) (by decide) (by decide)).1,
   (C16_early_stop_sound exampleEnv 1500 firstSendAt1100 [firstSendAt1200] freshState
      (by decide) (by decide) (by decide)).2 firstSendAt1200 (by decide) (by decide)⟩


theorem retransmitLoop_spec (env : Env) (now : Nat) :
    ∀ (q : List MozQuicStreamChunk) (s : StreamState), (∀ c ∈ q, flagMatchesBuffer c) →
      ((env.connectionState ≠ ConnectionState.STATE_UNINITIALIZED ∨
          ∀ c ∈ scanned env now q, c.mRetransmitted = true) →
        retransmitLoop env now q s
          = some (((scanned env now q).filter (fun c => !forgets env now c)).map afterTimer
                    ++ unscanned env now q,
                  { s with mUnWrittenData := s.mUnWrittenData ++
                      ((scanned env now q).filter (fun c => !c.mRetransmitted)).map requeued })) ∧
      (¬ (env.connectionState ≠ ConnectionState.STATE_UNINITIALIZED ∨
          ∀ c ∈ scanned env now q, c.mRetransmitted = true) →
        retransmitLoop env now q s = none) := by
  intro q
  induction q with
  | nil =>
    intro s _
    refine ⟨fun _ => by simp [retransmitLoop, scanned, unscanned], fun h => ?_⟩
    exact absurd (Or.inr (by simp [scanned])) h
  | cons c rest ih =>
    intro s hinv
    have hc : flagMatchesBuffer c := hinv c (List.mem_cons_self _ _)
    have hrest : ∀ x ∈ rest, flagMatchesBuffer x := fun x hx => hinv x (List.mem_cons_of_mem _ hx)
    unfold flagMatchesBuffer at hc
    rw [retransmitLoop]
    by_cases hstop : scanStops env now c = true
    · rw [if_pos hstop]
      refine ⟨fun _ => by simp [scanned, unscanned, hstop], fun h => ?_⟩
      exact absurd (Or.inr (by simp [scanned, hstop])) h
    · rw [if_neg hstop]
      have hstop2 : scanStops env now c = false := by simpa using hstop
      have hsc : scanned env now (c :: rest) = c :: scanned env now rest := by
        simp [scanned, hstop2]
      have hun : unscanned env now (c :: rest) = unscanned env now rest := by
        simp [unscanned, hstop2]
      rw [hsc, hun]
      by_cases hf : forgets env now c = true
      · rw [if_pos hf]
        have hret : c.mRetransmitted = true := by
          unfold forgets at hf
          simp only [Bool.and_eq_true] at hf
          exact hf.2
        have hd : c.mData = none := hc.mp hret
        rw [if_neg (by rw [hd]; simp)]
        obtain ⟨ih1, ih2⟩ := ih s hrest
        constructor
        · intro h
          rw [ih1 (h.imp id (fun h x hx => h x (List.mem_cons_of_mem _ hx)))]
          simp [hf, hret]
        · intro h
          apply ih2
          intro h2
          apply h
          refine h2.imp id (fun h2 x hx => ?_)
          rw [List.mem_cons] at hx
          rcases hx with hx | hx
          · rw [hx]; exact hret
          · exact h2 x hx
      · rw [if_neg hf]
        have hf2 : forgets env now c = false := by simpa using hf
        by_cases hret : c.mRetransmitted = false
        · rw [if_pos hret]
          have hd : c.mData ≠ none := fun h => by
            have := hc.mpr h
            rw [hret] at this
            cases this
          have hsome : ¬ (c.mData.isSome = false) := by
            cases hcd : c.mData with
            | none => exact absurd hcd hd
            | some _ => simp
          rw [if_neg hsome]
          simp only [DoWriter]
          by_cases hconn : env.connectionState = ConnectionState.STATE_UNINITIALIZED
          · rw [if_pos hconn]
            refine ⟨fun h => ?_, fun _ => rfl⟩
            rcases h with h | h
            · exact absurd hconn h
            · have := h c (List.mem_cons_self _ _)
              rw [hret] at this
              cases this
          · rw [if_neg hconn]
            simp only
            obtain ⟨ih1, _⟩ := ih (queueUnWritten s
              ({ c with mRetransmitted := true } : MozQuicStreamChunk).steal.1) hrest
            refine ⟨fun _ => ?_, fun h => absurd (Or.inl hconn) h⟩
            rw [ih1 (Or.inl hconn)]
            simp [hf2, hret, afterTimer, released, requeued, queueUnWritten]
        · rw [if_neg hret]
          have hret2 : c.mRetransmitted = true := by simpa using hret
          obtain ⟨ih1, ih2⟩ := ih s hrest
          constructor
          · intro h
            rw [ih1 (h.imp id (fun h x hx => h x (List.mem_cons_of_mem _ hx)))]
            simp [hf2, hret2, afterTimer]
          · intro h
            rw [ih2 (fun h2 => h (h2.imp id (fun h2 x hx => by
              rw [List.mem_cons] at hx
              rcases hx with hx | hx
              · rw [hx]; exact hret2
              · exact h2 x hx)))]

theorem retransmitLoop_eq (env : Env) (now : Nat)
    (hconn : env.connectionState ≠ ConnectionState.STATE_UNINITIALIZED)
    (q : List MozQuicStreamChunk) (s : StreamState) (hinv : ∀ c ∈ q, flagMatchesBuffer c) :
    retransmitLoop env now q s
      = some (((scanned env now q).filter (fun c => !forgets env now c)).map afterTimer
                ++ unscanned env now q,
              { s with mUnWrittenData := s.mUnWrittenData ++
                  ((scanned env now q).filter (fun c => !c.mRetransmitted)).map requeued }) :=
  (retransmitLoop_spec env now q s hinv).1 (Or.inl hconn)

theorem retransmitLoop_some (env : Env) (now : Nat) (q : List MozQuicStreamChunk)
    (s : StreamState) (hinv : ∀ c ∈ q, flagMatchesBuffer c)
    (r : List MozQuicStreamChunk × StreamState) (h : retransmitLoop env now q s = some r) :
    r = (((scanned env now q).filter (fun c => !forgets env now c)).map afterTimer
                ++ unscanned env now q,
              { s with mUnWrittenData := s.mUnWrittenData ++
                  ((scanned env now q).filter (fun c => !c.mRetransmitted)).map requeued }) := by
  obtain ⟨h1, h2⟩ := retransmitLoop_spec env now q s hinv
  by_cases hc : env.connectionState ≠ ConnectionState.STATE_UNINITIALIZED ∨
      ∀ c ∈ scanned env now q, c.mRetransmitted = true
  · rw [h1 hc] at h
    cases h
    rfl
  · rw [h2 hc] at h
    cases h

theorem flagMatchesBuffer_afterTimer (c : MozQuicStreamChunk) (h : flagMatchesBuffer c) :
    flagMatchesBuffer (afterTimer c) := by
  unfold afterTimer
  by_cases hret : c.mRetransmitted = false
  · rw [if_pos hret]
    simp [flagMatchesBuffer, released, MozQuicStreamChunk.steal]
  · rw [if_neg hret]; exact h

theorem RetransmitTimer_eq (env : Env) (s : StreamState)
    (hconn : env.connectionState ≠ ConnectionState.STATE_UNINITIALIZED)
    (hinv : ∀ c ∈ s.mUnAckedData, flagMatchesBuffer c) :
    RetransmitTimer env s = some (Code.MOZQUIC_OK,
      { s with
        mUnWrittenData := s.mUnWrittenData ++
          ((scanned env env.Timestamp s.mUnAckedData).filter (fun c => !c.mRetransmitted)).map
            requeued,
        mUnAckedData :=
          ((scanned env env.Timestamp s.mUnAckedData).filter
            (fun c => !forgets env env.Timestamp c)).map afterTimer
            ++ unscanned env env.Timestamp s.mUnAckedData }) := by
  unfold RetransmitTimer
  by_cases he : s.mUnAckedData = []
  · rw [if_pos he]
    obtain ⟨a, b, c, d, e, f, g⟩ := s
    simp only at he
    subst he
    simp [scanned, unscanned]
  · rw [if_neg he, retransmitLoop_eq env env.Timestamp hconn _ s hinv]

theorem RetransmitTimer_some (env : Env) (s : StreamState)
    (hinv : ∀ c ∈ s.mUnAckedData, flagMatchesBuffer c) (r : Code × StreamState)
    (h : RetransmitTimer env s = some r) :
    r = (Code.MOZQUIC_OK,
      { s with
        mUnWrittenData := s.mUnWrittenData ++
          ((scanned env env.Timestamp s.mUnAckedData).filter (fun c => !c.mRetransmitted)).map
            requeued,
        mUnAckedData :=
          ((scanned env env.Timestamp s.mUnAckedData).filter
            (fun c => !forgets env env.Timestamp c)).map afterTimer
            ++ unscanned env env.Timestamp s.mUnAckedData }) := by
  unfold RetransmitTimer at h
  by_cases he : s.mUnAckedData = []
  · rw [if_pos he] at h
    cases h
    obtain ⟨a, b, c, d, e, f, g⟩ := s
    simp only at he
    subst he
    simp [scanned, unscanned]
  · rw [if_neg he] at h
    cases hl : retransmitLoop env env.Timestamp s.mUnAckedData s with
    | none => rw [hl] at h; cases h
    | some r2 =>
      rw [hl] at h
      cases h
      rw [retransmitLoop_some env env.Timestamp _ s hinv r2 hl]

theorem RetransmitTimer_returns (env : Env) (s : StreamState)
    (hinv : ∀ c ∈ s.mUnAckedData, flagMatchesBuffer c)
    (h : env.connectionState ≠ ConnectionState.STATE_UNINITIALIZED ∨
      ∀ c ∈ scanned env env.Timestamp s.mUnAckedData, c.mRetransmitted = true) :
    ∃ r, RetransmitTimer env s = some r := by
  unfold RetransmitTimer
  by_cases he : s.mUnAckedData = []
  · rw [if_pos he]; exact ⟨_, rfl⟩
  · rw [if_neg he, (retransmitLoop_spec env env.Timestamp _ s hinv).1 h]
    exact ⟨_, rfl⟩

/-! ### The buffers of the queues -/

theorem flagMatchesBuffer_stampChunk (env : Env) (c : MozQuicStreamChunk)
    (h : c.mData.isSome = true) : flagMatchesBuffer (stampChunk env c) := by
  unfold flagMatchesBuffer stampChunk
  cases hd : c.mData with
  | none => rw [hd] at h; cases h
  | some b => simp [hd]

theorem packLoop_buffers (env : Env) (justZero : Bool) :
    ∀ fuel rem st st', packLoop env justZero fuel rem st = some st' →
      (∀ c ∈ rem, c.mData.isSome = true) → (∀ c ∈ st.kept, c.mData.isSome = true) →
      (∀ c ∈ st.unAcked, flagMatchesBuffer c) →
      (∀ c ∈ st'.kept, c.mData.isSome = true) ∧ (∀ c ∈ st'.unAcked, flagMatchesBuffer c) := by
  intro fuel
  induction fuel with
  | zero => intro rem st st' h; simp [packLoop] at h
  | succ fuel ih =>
    intro rem st st' h hrem hkept hun
    cases rem with
    | nil =>
      simp only [packLoop, Option.some.injEq] at h
      subst h
      exact ⟨hkept, hun⟩
    | cons c rest =>
      have hc : c.mData.isSome = true := hrem c (List.mem_cons_self _ _)
      have hrest : ∀ x ∈ rest, x.mData.isSome = true :=
        fun x hx => hrem x (List.mem_cons_of_mem _ hx)
      have hkept2 : ∀ x ∈ st.kept ++ c :: rest, x.mData.isSome = true := by
        intro x hx
        rw [List.mem_append] at hx
        rcases hx with hx | hx
        · exact hkept x hx
        · exact hrem x hx
      unfold packLoop at h
      by_cases hz : justZero = true ∧ c.mStreamID ≠ 0
      · rw [if_pos hz] at h
        refine ih _ _ _ h hrest ?_ hun
        intro x hx
        simp only [List.mem_append, List.mem_singleton] at hx
        rcases hx with hx | hx
        · exact hkept x hx
        · rw [hx]; exact hc
      · rw [if_neg hz] at h
        by_cases hr : c.mRst = true
        · rw [if_pos hr] at h
          simp only at h
          by_cases hrv : (env.CreateStreamRst st.room c).1 ≠ Code.MOZQUIC_OK
          · rw [if_pos hrv] at h
            simp only [Option.some.injEq] at h
            subst h
            exact ⟨hkept2, hun⟩
          · rw [if_neg hrv] at h
            refine ih _ _ _ h hrest hkept ?_
            intro x hx
            simp only [List.mem_append, List.mem_singleton] at hx
            rcases hx with hx | hx
            · exact hun x hx
            · rw [hx]; exact flagMatchesBuffer_stampChunk env c hc
        · rw [if_neg hr] at h
          cases hp : packDataChunk env.newChunkTransmitCount st.room c with
          | none =>
            rw [hp] at h
            simp only [Option.some.injEq] at h
            subst h
            exact ⟨hkept2, hun⟩
          | some p =>
            rw [hp] at h
            simp only at h
            obtain ⟨_, hpc, htl, _, _⟩ := packDataChunk_eq_some st.room c p hp
            refine ih _ _ _ h ?_ hkept ?_
            · intro x hx
              rw [List.mem_append] at hx
              rcases hx with hx | hx
              · have hx2 : p.tail = some x := by
                  cases hpt : p.tail with
                  | none => rw [hpt] at hx; simp at hx
                  | some t => rw [hpt] at hx; simp at hx; rw [hx]
                rw [htl] at hx2
                obtain ⟨_, _, hx3⟩ := splitChunk_tail _ _ _ hx2
                rw [hx3]
                rfl
              · exact hrest x hx
            · intro x hx
              simp only [List.mem_append, List.mem_singleton] at hx
              rcases hx with hx | hx
              · exact hun x hx
              · rw [hx]
                apply flagMatchesBuffer_stampChunk
                have hb := @splitChunk_buffer env.newChunkTransmitCount
                  (st.room % 2 ^ 32 - (3 + streamIdLen c.mStreamID + offsetLen c.mOffset)) c
                rw [← hpc] at hb
                unfold MozQuicStreamChunk.buffer at hb
                cases hd : c.mData with
                | none => rw [hd] at hc; cases hc
                | some b =>
                  have hpd : p.chunk.mData = c.mData := by
                    rw [hpc]; unfold splitChunk; split_ifs <;> rfl
                  rw [hpd, hd]; rfl

theorem CreateStreamFrames_buffers (env : Env) (s s' : StreamState) (room : Nat)
    (justZero : Bool) (rv : Code) (out : List Nat) (room' : Nat)
    (h : CreateStreamFrames env s room justZero = some (rv, out, room', s'))
    (hinv : buffersKept s) : buffersKept s' := by
  unfold CreateStreamFrames at h
  cases hl : packLoop env justZero (2 * s.mUnWrittenData.length + 1) s.mUnWrittenData
      { kept := [], unAcked := s.mUnAckedData, out := [], room := room } with
  | none => rw [hl] at h; cases h
  | some st =>
    rw [hl] at h
    simp only [Option.some.injEq, Prod.mk.injEq] at h
    obtain ⟨_, _, _, hs⟩ := h
    subst hs
    have := packLoop_buffers env justZero _ _ _ _ hl hinv.2 (by simp) hinv.1
    exact ⟨this.2, this.1⟩

theorem RetransmitTimer_buffers (env : Env) (s : StreamState) (r : Code × StreamState)
    (h : RetransmitTimer env s = some r) (hinv : buffersKept s) : buffersKept r.2 := by
  rw [RetransmitTimer_some env s hinv.1 r h]
  constructor
  · intro c hc
    simp only at hc
    rw [List.mem_append] at hc
    rcases hc with hc | hc
    · rw [List.mem_map] at hc
      obtain ⟨x, hx, rfl⟩ := hc
      apply flagMatchesBuffer_afterTimer
      apply hinv.1
      exact (List.takeWhile_sublist _).subset (List.mem_of_mem_filter hx)
    · apply hinv.1
      exact (List.dropWhile_sublist _).subset hc
  · intro c hc
    simp only at hc
    rw [List.mem_append] at hc
    rcases hc with hc | hc
    · exact hinv.2 c hc
    · rw [List.mem_map] at hc
      obtain ⟨x, hx, rfl⟩ := hc
      rw [List.mem_filter] at hx
      have hxm : x ∈ s.mUnAckedData := (List.takeWhile_sublist _).subset hx.1
      have hfl := hinv.1 x hxm
      unfold flagMatchesBuffer at hfl
      show x.mData.isSome = true
      cases hd : x.mData with
      | none =>
        have := hfl.mpr hd
        rw [this] at hx
        simp at hx
      | some b => rfl

theorem DoWriter_buffers (env : Env) (s : StreamState) (p : MozQuicStreamChunk)
    (r : Code × StreamState) (h : DoWriter env s p = some r) (hp : p.mData.isSome = true)
    (hinv : buffersKept s) : r.1 = Code.MOZQUIC_OK ∧ buffersKept r.2 := by
  unfold DoWriter at h
  split_ifs at h
  cases h
  refine ⟨rfl, hinv.1, ?_⟩
  intro c hc
  simp only [queueUnWritten, List.mem_append, List.mem_singleton] at hc
  rcases hc with hc | hc
  · exact hinv.2 c hc
  · rw [hc]; exact hp

theorem scrubLoop_subset (streamID : Nat) (l : List MozQuicStreamChunk) :
    ∀ c ∈ scrubLoop streamID l, c ∈ l := by
  intro c hc
  rw [scrubLoop_eq_filter] at hc
  exact List.mem_of_mem_filter hc

theorem ScrubUnWritten_buffers (s : StreamState) (streamID : Nat) (hinv : buffersKept s) :
    buffersKept (ScrubUnWritten s streamID).2 :=
  ⟨fun c hc => hinv.1 c (scrubLoop_subset _ _ c hc),
   fun c hc => hinv.2 c (scrubLoop_subset _ _ c hc)⟩

theorem BufferedRun_buffersKept (s : StreamState) (h : BufferedRun s) : buffersKept s := by
  induction h with
  | init s hw ha => exact ⟨by rw [ha]; simp, by rw [hw]; simp⟩
  | write env s s' p rv _ hp hd ih => exact (DoWriter_buffers env s p _ hd hp ih).2
  | pack env s s' room justZero rv out room' _ hc ih =>
    exact CreateStreamFrames_buffers env s s' room justZero rv out room' hc ih
  | timer env s s' rv _ ht ih => exact RetransmitTimer_buffers env s _ ht ih
  | scrub s streamID _ ih => exact ScrubUnWritten_buffers s streamID ih
  | traced s trace _ ih => exact ih

/-- C18 (counterexample). With `kForgetUnAckedThresh = 10000`, at clock reading
11000 the timer drops the retransmitted chunk sent at 1000 from `unAcked`,
although `1000 + 10000 < 11000` does not hold. -/
theorem C18_counterexample_forget_at_threshold :
    stateRetransmitted.mUnAckedData = [retransmittedAt1000] ∧
    retransmittedAt1000.mRetransmitted = true ∧
    scanStops envAt11000 envAt11000.Timestamp retransmittedAt1000 = false ∧
    ¬ (retransmittedAt1000.mTransmitTime + envAt11000.kForgetUnAckedThresh
        < envAt11000.Timestamp) ∧
    RetransmitTimer envAt11000 stateRetransmitted = some (Code.MOZQUIC_OK, freshState) := by
  decide

/-- C18 (amended). Let the clock reading `now` be at least `kForgetUnAckedThresh`
(so that the unsigned difference does not wrap), and let every chunk of
`unAcked` have its retransmitted flag set exactly if its buffer is released.
`RetransmitTimer` returns OK when the connection is initialised or no chunk
is to be queued again (the assertion of `DoWriter` is then met or not
reached), and whenever it returns, the status is OK and of the chunks its scan
gets past it has removed from `unAcked` exactly those that have been
retransmitted and satisfy `transmitTime + kForgetUnAckedThresh ≤ now`; a chunk
that has not been retransmitted is not removed. -/
theorem C18_forgetting_rule (env : Env) (s : StreamState)
    (hnow : env.Timestamp < 2 ^ 64) (hk : env.kForgetUnAckedThresh ≤ env.Timestamp)
    (hinv : ∀ c ∈ s.mUnAckedData, flagMatchesBuffer c) :
    ((env.connectionState ≠ ConnectionState.STATE_UNINITIALIZED ∨
        ∀ c ∈ scanned env env.Timestamp s.mUnAckedData, c.mRetransmitted = true) →
      ∃ s', RetransmitTimer env s = some (Code.MOZQUIC_OK, s') ∧
        s'.mUnAckedData =
          ((scanned env env.Timestamp s.mUnAckedData).filter
            (fun c => !(c.mRetransmitted &&
              decide (c.mTransmitTime + env.kForgetUnAckedThresh ≤ env.Timestamp)))).map
              afterTimer
            ++ unscanned env env.Timestamp s.mUnAckedData) ∧
    (∀ r, RetransmitTimer env s = some r →
      r.1 = Code.MOZQUIC_OK ∧
      r.2.mUnAckedData =
        ((scanned env env.Timestamp s.mUnAckedData).filter
          (fun c => !(c.mRetransmitted &&
            decide (c.mTransmitTime + env.kForgetUnAckedThresh ≤ env.Timestamp)))).map afterTimer
          ++ unscanned env env.Timestamp s.mUnAckedData) ∧
    (∀ c : MozQuicStreamChunk, forgets env env.Timestamp c = true ↔
      (c.mRetransmitted = true ∧ c.mTransmitTime + env.kForgetUnAckedThresh ≤ env.Timestamp)) ∧
    (∀ c : MozQuicStreamChunk, c.mRetransmitted = false → forgets env env.Timestamp c = false) := by
  have hf : ∀ c : MozQuicStreamChunk, forgets env env.Timestamp c
      = (c.mRetransmitted &&
          decide (c.mTransmitTime + env.kForgetUnAckedThresh ≤ env.Timestamp)) := by
    intro c
    unfold forgets discardEpoch
    rw [sub64_of_le _ _ hnow hk, Bool.and_comm]
    congr 1
    apply decide_eq_decide.mpr
    omega
  have hsome : ∀ r, RetransmitTimer env s = some r →
      r.1 = Code.MOZQUIC_OK ∧
      r.2.mUnAckedData =
        ((scanned env env.Timestamp s.mUnAckedData).filter
          (fun c => !(c.mRetransmitted &&
            decide (c.mTransmitTime + env.kForgetUnAckedThresh ≤ env.Timestamp)))).map afterTimer
          ++ unscanned env env.Timestamp s.mUnAckedData := by
    intro r hr
    rw [RetransmitTimer_some env s hinv r hr]
    refine ⟨rfl, ?_⟩
    simp only [hf]
  refine ⟨?_, hsome, ?_, ?_⟩
  · intro hret
    obtain ⟨r, hr⟩ := RetransmitTimer_returns env s hinv hret
    obtain ⟨h1, h2⟩ := hsome r hr
    refine ⟨r.2, ?_, h2⟩
    rw [hr, ← h1]
  · intro c
    rw [hf]
    simp
  · intro c hc
    simp [forgets, hc]

/-- C18 (witness): the retransmitted chunk sent at 1000 is kept at clock reading
10999 and dropped at 11000. -/
theorem C18_forgetting_rule_witness :
    forgets envAt11000 envAt11000.Timestamp retransmittedAt1000 = true ↔
      (retransmittedAt1000.mRetransmitted = true ∧
        retransmittedAt1000.mTransmitTime + envAt11000.kForgetUnAckedThresh
          ≤ envAt11000.Timestamp) :=
  (C18_forgetting_rule envAt11000 stateRetransmitted (by decide) (by decide) (by decide)).2.2.1
    retransmittedAt1000

/-! ### The invariant of the queues -/

theorem splitChunk_count {count0 : Nat} (room : Nat) (c : MozQuicStreamChunk) :
    (splitChunk count0 room c).1.mTransmitCount = c.mTransmitCount := by
  unfold splitChunk; split_ifs <;> rfl

theorem packLoop_timed (env : Env) (justZero : Bool) (Q : Nat → Prop)
    (hctor : Q env.newChunkTransmitCount) :
    ∀ fuel rem st st', packLoop env justZero fuel rem st = some st' →
      (∀ c ∈ rem, Q c.mTransmitCount) → (∀ c ∈ st.kept, Q c.mTransmitCount) →
      (∀ c ∈ st.unAcked, c.mTransmitTime ≤ env.Timestamp ∧ Q c.mTransmitCount) →
      (∀ c ∈ st'.kept, Q c.mTransmitCount) ∧
      (∀ c ∈ st'.unAcked, c.mTransmitTime ≤ env.Timestamp ∧ Q c.mTransmitCount) := by
  intro fuel
  induction fuel with
  | zero => intro rem st st' h; simp [packLoop] at h
  | succ fuel ih =>
    intro rem st st' h hrem hkept hun
    cases rem with
    | nil =>
      simp only [packLoop, Option.some.injEq] at h
      subst h
      exact ⟨hkept, hun⟩
    | cons c rest =>
      have hc : Q c.mTransmitCount := hrem c (List.mem_cons_self _ _)
      have hrest : ∀ x ∈ rest, Q x.mTransmitCount :=
        fun x hx => hrem x (List.mem_cons_of_mem _ hx)
      have hkept2 : ∀ x ∈ st.kept ++ c :: rest, Q x.mTransmitCount := by
        intro x hx
        rw [List.mem_append] at hx
        rcases hx with hx | hx
        · exact hkept x hx
        · exact hrem x hx
      unfold packLoop at h
      by_cases hz : justZero = true ∧ c.mStreamID ≠ 0
      · rw [if_pos hz] at h
        refine ih _ _ _ h hrest ?_ hun
        intro x hx
        simp only [List.mem_append, List.mem_singleton] at hx
        rcases hx with hx | hx
        · exact hkept x hx
        · rw [hx]; exact hc
      · rw [if_neg hz] at h
        by_cases hr : c.mRst = true
        · rw [if_pos hr] at h
          simp only at h
          by_cases hrv : (env.CreateStreamRst st.room c).1 ≠ Code.MOZQUIC_OK
          · rw [if_pos hrv] at h
            simp only [Option.some.injEq] at h
            subst h
            exact ⟨hkept2, hun⟩
          · rw [if_neg hrv] at h
            refine ih _ _ _ h hrest hkept ?_
            intro x hx
            simp only [List.mem_append, List.mem_singleton] at hx
            rcases hx with hx | hx
            · exact hun x hx
            · rw [hx]; exact ⟨le_refl _, hc⟩
        · rw [if_neg hr] at h
          cases hp : packDataChunk env.newChunkTransmitCount st.room c with
          | none =>
            rw [hp] at h
            simp only [Option.some.injEq] at h
            subst h
            exact ⟨hkept2, hun⟩
          | some p =>
            rw [hp] at h
            simp only at h
            obtain ⟨_, hpc, htl, _, _⟩ := packDataChunk_eq_some st.room c p hp
            refine ih _ _ _ h ?_ hkept ?_
            · intro x hx
              rw [List.mem_append] at hx
              rcases hx with hx | hx
              · have hx2 : p.tail = some x := by
                  cases hpt : p.tail with
                  | none => rw [hpt] at hx; simp at hx
                  | some t => rw [hpt] at hx; simp at hx; rw [hx]
                rw [htl] at hx2
                obtain ⟨_, _, hx3⟩ := splitChunk_tail _ _ _ hx2
                rw [hx3]
                exact hctor
              · exact hrest x hx
            · intro x hx
              simp only [List.mem_append, List.mem_singleton] at hx
              rcases hx with hx | hx
              · exact hun x hx
              · rw [hx]
                refine ⟨le_refl _, ?_⟩
                show Q p.chunk.mTransmitCount
                rw [hpc, splitChunk_count]
                exact hc

theorem queuesTimed_mono (Q : Nat → Prop) (a b : Nat) (s : StreamState) (hab : a ≤ b)
    (h : queuesTimed Q a s) : queuesTimed Q b s :=
  ⟨fun c hc => ⟨le_trans (h.1 c hc).1 hab, (h.1 c hc).2⟩, h.2⟩

theorem CreateStreamFrames_timed (env : Env) (Q : Nat → Prop)
    (hctor : Q env.newChunkTransmitCount) (s : StreamState) (room : Nat) (justZero : Bool)
    (h : queuesTimed Q env.Timestamp s) :
    ∃ out room' s', CreateStreamFrames env s room justZero = some (Code.MOZQUIC_OK, out, room', s') ∧
      queuesTimed Q env.Timestamp s' := by
  obtain ⟨out, room', s', hc⟩ := CreateStreamFrames_total env s room justZero
  refine ⟨out, room', s', hc, ?_⟩
  unfold CreateStreamFrames at hc
  cases hl : packLoop env justZero (2 * s.mUnWrittenData.length + 1) s.mUnWrittenData
      { kept := [], unAcked := s.mUnAckedData, out := [], room := room } with
  | none => rw [hl] at hc; cases hc
  | some st =>
    rw [hl] at hc
    simp only [Option.some.injEq, Prod.mk.injEq, true_and] at hc
    obtain ⟨_, _, hs⟩ := hc
    subst hs
    have := packLoop_timed env justZero Q hctor _ _ _ _ hl h.2 (by simp) h.1
    exact ⟨this.2, this.1⟩

theorem retransmitLoop_timed (env : Env) (Q : Nat → Prop) (now T : Nat) :
    ∀ (q : List MozQuicStreamChunk) (s : StreamState) (r : List MozQuicStreamChunk × StreamState),
      retransmitLoop env now q s = some r →
      (∀ c ∈ q, c.mTransmitTime ≤ T ∧ Q c.mTransmitCount) →
      (∀ c ∈ s.mUnWrittenData, Q c.mTransmitCount) →
      (∀ c ∈ r.1, c.mTransmitTime ≤ T ∧ Q c.mTransmitCount) ∧
      (∀ c ∈ r.2.mUnWrittenData, Q c.mTransmitCount) := by
  intro q
  induction q with
  | nil =>
    intro s r h hq hs
    simp only [retransmitLoop, Option.some.injEq] at h
    subst h
    exact ⟨by simp, hs⟩
  | cons c rest ih =>
    intro s r h hq hs
    have hc := hq c (List.mem_cons_self _ _)
    have hrest : ∀ x ∈ rest, x.mTransmitTime ≤ T ∧ Q x.mTransmitCount :=
      fun x hx => hq x (List.mem_cons_of_mem _ hx)
    rw [retransmitLoop] at h
    by_cases hstop : scanStops env now c = true
    · rw [if_pos hstop] at h
      simp only [Option.some.injEq] at h
      subst h
      exact ⟨hq, hs⟩
    · rw [if_neg hstop] at h
      by_cases hf : forgets env now c = true
      · rw [if_pos hf] at h
        by_cases hd : c.mData.isSome = true
        · rw [if_pos hd] at h; cases h
        · rw [if_neg hd] at h
          exact ih s r h hrest hs
      · rw [if_neg hf] at h
        by_cases hret : c.mRetransmitted = false
        · rw [if_pos hret] at h
          by_cases hd : c.mData.isSome = false
          · rw [if_pos hd] at h; cases h
          · rw [if_neg hd] at h
            simp only [DoWriter] at h
            by_cases hconn : env.connectionState = ConnectionState.STATE_UNINITIALIZED
            · rw [if_pos hconn] at h; cases h
            rw [if_neg hconn] at h
            simp only at h
            cases hl : retransmitLoop env now rest
                (queueUnWritten s
                  ({ c with mRetransmitted := true } : MozQuicStreamChunk).steal.1) with
            | none => rw [hl] at h; cases h
            | some r2 =>
              rw [hl] at h
              simp only [Option.some.injEq] at h
              subst h
              have := ih _ r2 hl hrest (by
                intro x hx
                simp only [queueUnWritten, List.mem_append, List.mem_singleton] at hx
                rcases hx with hx | hx
                · exact hs x hx
                · rw [hx]; exact hc.2)
              refine ⟨?_, this.2⟩
              intro x hx
              simp only [List.mem_cons] at hx
              rcases hx with hx | hx
              · rw [hx]; exact hc
              · exact this.1 x hx
        · rw [if_neg hret] at h
          cases hl : retransmitLoop env now rest s with
          | none => rw [hl] at h; cases h
          | some r2 =>
            rw [hl] at h
            simp only [Option.some.injEq] at h
            subst h
            have := ih _ r2 hl hrest hs
            refine ⟨?_, this.2⟩
            intro x hx
            simp only [List.mem_cons] at hx
            rcases hx with hx | hx
            · rw [hx]; exact hc
            · exact this.1 x hx

theorem RetransmitTimer_timed (env : Env) (Q : Nat → Prop) (T : Nat) (s : StreamState) (r : Code × StreamState)
    (h : RetransmitTimer env s = some r) (hinv : queuesTimed Q T s) : queuesTimed Q T r.2 := by
  unfold RetransmitTimer at h
  by_cases he : s.mUnAckedData = []
  · rw [if_pos he] at h
    cases h
    exact hinv
  · rw [if_neg he] at h
    cases hl : retransmitLoop env env.Timestamp s.mUnAckedData s with
    | none => rw [hl] at h; cases h
    | some r2 =>
      rw [hl] at h
      cases h
      have := retransmitLoop_timed env Q env.Timestamp T _ _ _ hl hinv.1 hinv.2
      exact ⟨this.1, this.2⟩

theorem Flush_timed (env : Env) (Q : Nat → Prop) (hctor : Q env.newChunkTransmitCount)
    (hfs : ∀ b x, queuesTimed Q env.Timestamp x → queuesTimed Q env.Timestamp (env.FlushStream0 b x)) :
    ∀ (fuel : Nat) (forceAck : Bool) (s : StreamState) (r : Code × StreamState),
      Flush env fuel forceAck s = some r → queuesTimed Q env.Timestamp s →
      queuesTimed Q env.Timestamp r.2 := by
  intro fuel
  induction fuel with
  | zero => intro forceAck s r h; simp [Flush] at h
  | succ fuel ih =>
    intro forceAck s r h hinv
    rw [Flush] at h
    simp only at h
    have hs1 : queuesTimed Q env.Timestamp
        (if env.DecodedOK = false then
          env.FlushStream0 forceAck { s with trace := s.trace ++ [Effect.FlushStream0 forceAck] }
         else s) := by
      split_ifs
      · exact hfs _ _ hinv
      · exact hinv
    generalize (if env.DecodedOK = false then
          env.FlushStream0 forceAck { s with trace := s.trace ++ [Effect.FlushStream0 forceAck] }
         else s) = s1 at h hs1
    by_cases h1 : s1.mUnWrittenData = [] ∧ forceAck = false
    · rw [if_pos h1] at h
      cases h
      exact hs1
    · rw [if_neg h1] at h
      by_cases h2 : ¬ (env.mMTU ≤ env.kMaxMTU)
      · rw [if_pos h2] at h; cases h
      · rw [if_neg h2] at h
        obtain ⟨out, room', s2, hc, hs2⟩ := CreateStreamFrames_timed env Q hctor
          { s1 with trace := s1.trace ++
            [Effect.CreateShortPacketHeader ((env.mMTU + 2 ^ 32 - env.kTagLen % 2 ^ 32) % 2 ^ 32),
             Effect.CreateStreamFrames (Int.toNat (((env.mMTU : Int) - env.kTagLen -
                env.CreateShortPacketHeader ((env.mMTU + 2 ^ 32 - env.kTagLen % 2 ^ 32) % 2 ^ 32))
                % 2 ^ 32)) false] }
          (Int.toNat (((env.mMTU : Int) - env.kTagLen -
            env.CreateShortPacketHeader ((env.mMTU + 2 ^ 32 - env.kTagLen % 2 ^ 32) % 2 ^ 32))
            % 2 ^ 32)) false hs1
        rw [hc] at h
        simp only at h
        have hs3 : queuesTimed Q env.Timestamp
            { s2 with trace := s2.trace ++ [Effect.ProtectedTransmit out] } := hs2
        split_ifs at h
        · cases h; exact hs3
        · exact ih _ _ _ h hs3
        · cases h; exact hs3


/-- C13 (counterexample). A chunk whose transmit count is 0 (as a constructor that
counts transmissions from 0 builds it) is queued by `DoWriter` and packed by
`CreateStreamFrames`, which stamps packet number, time, key phase and flag but
not the count: the chunk is in `unAcked` with a transmit count of 0. -/
theorem C13_counterexample_count_zero :
    chunkUnsent.mTransmitCount = 0 ∧
    DoWriter exampleEnv freshState chunkUnsent
      = some (Code.MOZQUIC_OK, { freshState with mUnWrittenData := [chunkUnsent] }) ∧
    CreateStreamFrames exampleEnv { freshState with mUnWrittenData := [chunkUnsent] } 1204 false
      = some (Code.MOZQUIC_OK, [0xE1, 1, 0, 3, 0x41, 0x42, 0x43], 1197,
          { freshState with mUnAckedData := [stampChunk exampleEnv chunkUnsent] }) ∧
    ¬ (1 ≤ (stampChunk exampleEnv chunkUnsent).mTransmitCount) := by
  decide

/-- C13 (amended). Let `Q` be any property of transmit counts. Let the queues be
timed at some earlier clock reading `before` (every chunk of `unAcked` sent at
or before it), with `Q` true of the transmit count of every chunk in `unAcked`
and in `unwritten`; let an operation run at the later reading `env.Timestamp`,
and let the stream-0 flush of the connection object keep the queues so. Then
at every reading `now` from `env.Timestamp` on, every chunk `c` of `unAcked`
has `c.mTransmitTime ≤ now` and `Q c.mTransmitCount`, and `Q` still holds in
`unwritten`: after `CreateStreamFrames` (which returns) and after `Flush`
whenever it returns, if `Q` holds of the count the chunk constructor gives;
after `RetransmitTimer` whenever it returns; after `ScrubUnWritten`; and after
`DoWriter` of a chunk whose count has `Q`. With `Q` true of every number this
is the bound on `mTransmitTime` alone; with `Q n` as `n = k` it says that no
operation changes a transmit count; with `Q n` as `1 ≤ n` it is the bound
`mTransmitCount ≥ 1`, for constructors and callers that supply counts of at
least 1. -/
theorem C13_unAcked_invariant (env : Env) (Q : Nat → Prop) (before now : Nat) (s : StreamState)
    (hinv : queuesTimed Q before s) (hbefore : before ≤ env.Timestamp)
    (hnow : env.Timestamp ≤ now)
    (hfs : ∀ b x, queuesTimed Q env.Timestamp x →
      queuesTimed Q env.Timestamp (env.FlushStream0 b x)) :
    (Q env.newChunkTransmitCount → ∀ room justZero, ∃ out room' s',
      CreateStreamFrames env s room justZero = some (Code.MOZQUIC_OK, out, room', s') ∧
      queuesTimed Q now s' ∧
      ∀ c ∈ s'.mUnAckedData, c.mTransmitTime ≤ now ∧ Q c.mTransmitCount) ∧
    (Q env.newChunkTransmitCount → ∀ fuel forceAck r, Flush env fuel forceAck s = some r →
      queuesTimed Q now r.2 ∧
      ∀ c ∈ r.2.mUnAckedData, c.mTransmitTime ≤ now ∧ Q c.mTransmitCount) ∧
    (∀ r, RetransmitTimer env s = some r →
      queuesTimed Q now r.2 ∧
      ∀ c ∈ r.2.mUnAckedData, c.mTransmitTime ≤ now ∧ Q c.mTransmitCount) ∧
    (∀ streamID, queuesTimed Q now (ScrubUnWritten s streamID).2 ∧
      ∀ c ∈ (ScrubUnWritten s streamID).2.mUnAckedData,
        c.mTransmitTime ≤ now ∧ Q c.mTransmitCount) ∧
    (∀ (p : MozQuicStreamChunk) r, Q p.mTransmitCount → DoWriter env s p = some r →
      queuesTimed Q now r.2 ∧
      ∀ c ∈ r.2.mUnAckedData, c.mTransmitTime ≤ now ∧ Q c.mTransmitCount) := by
  have h0 : queuesTimed Q env.Timestamp s := queuesTimed_mono Q _ _ _ hbefore hinv
  have hfin : ∀ x, queuesTimed Q env.Timestamp x → queuesTimed Q now x ∧
      ∀ c ∈ x.mUnAckedData, c.mTransmitTime ≤ now ∧ Q c.mTransmitCount :=
    fun x hx => ⟨queuesTimed_mono Q _ _ _ hnow hx, (queuesTimed_mono Q _ _ _ hnow hx).1⟩
  refine ⟨?_, ?_, ?_, ?_, ?_⟩
  · intro hctor room justZero
    obtain ⟨out, room', s', hc, hs⟩ := CreateStreamFrames_timed env Q hctor s room justZero h0
    exact ⟨out, room', s', hc, hfin _ hs⟩
  · intro hctor fuel forceAck r h
    exact hfin _ (Flush_timed env Q hctor hfs fuel forceAck s r h h0)
  · intro r h
    exact hfin _ (RetransmitTimer_timed env Q _ s r h h0)
  · intro streamID
    apply hfin
    exact ⟨fun c hc => h0.1 c (scrubLoop_subset _ _ c hc),
      fun c hc => h0.2 c (scrubLoop_subset _ _ c hc)⟩
  · intro p r hp hd
    apply hfin
    unfold DoWriter at hd
    split_ifs at hd
    cases hd
    refine ⟨h0.1, ?_⟩
    intro c hc
    simp only [queueUnWritten, List.mem_append, List.mem_singleton] at hc
    rcases hc with hc | hc
    · exact h0.2 c hc
    · rw [hc]; exact hp

/-- C13 (witness): `sentABC`, sent at 100 with a transmit count of 1, when the
timer runs at 1700. -/
theorem C13_unAcked_invariant_witness :
    queuesTimed (fun n => 1 ≤ n) 100 stateSentABC ∧
    ∀ r, RetransmitTimer envAt1700 stateSentABC = some r →
      queuesTimed (fun n => 1 ≤ n) 1800 r.2 ∧
      ∀ c ∈ r.2.mUnAckedData, c.mTransmitTime ≤ 1800 ∧ 1 ≤ c.mTransmitCount :=
  ⟨by decide,
   (C13_unAcked_invariant envAt1700 (fun n => 1 ≤ n) 100 1800 stateSentABC (by decide)
      (by decide) (by decide) (fun _ _ h => h)).2.2.1⟩

/-! ### Stream-ID parity -/

theorem StartNewStream_counters (env : Env) (s : StreamState) (data : List Nat) (amount : Nat)
    (fin : Bool) :
    (StartNewStream env s data amount fin).2.2.mNextStreamId = (s.mNextStreamId + 2) % 2 ^ 32 ∧
    (StartNewStream env s data amount fin).2.2.mNextRecvStreamId = s.mNextRecvStreamId := by
  unfold StartNewStream
  simp only
  split_ifs
  · rw [foldl_queueUnWritten]
    exact ⟨rfl, rfl⟩
  · exact ⟨rfl, rfl⟩

theorem openStreams_counters (streamID : Nat) :
    ∀ (fuel : Nat) (s s' : StreamState), openStreams streamID fuel s = some s' →
      s'.mNextStreamId = s.mNextStreamId ∧ s'.mNextRecvStreamId % 2 = s.mNextRecvStreamId % 2 := by
  intro fuel
  induction fuel with
  | zero =>
    intro s s' h
    unfold openStreams at h
    split_ifs at h
    cases h
    exact ⟨rfl, rfl⟩
  | succ fuel ih =>
    intro s s' h
    unfold openStreams at h
    split_ifs at h
    · have := ih _ _ h
      simp only at this
      refine ⟨this.1, ?_⟩
      rw [this.2]
      omega
    · cases h
      exact ⟨rfl, rfl⟩

theorem FindStream_counters (env : Env) (fuel : Nat) (s s' : StreamState) (streamID : Nat)
    (d : MozQuicStreamChunk) (rv : Code) (h : FindStream env fuel s streamID d = some (rv, s')) :
    s'.mNextStreamId = s.mNextStreamId ∧ s'.mNextRecvStreamId % 2 = s.mNextRecvStreamId % 2 := by
  unfold FindStream at h
  cases ho : openStreams streamID fuel s with
  | none => rw [ho] at h; cases h
  | some s1 =>
    rw [ho] at h
    have h1 := openStreams_counters streamID fuel s s1 ho
    simp only at h
    cases hf : findStream s1.mStreams streamID with
    | none =>
      rw [hf] at h
      cases h
      exact h1
    | some p =>
      rw [hf] at h
      simp only at h
      split_ifs at h <;> (cases h; exact h1)

theorem openedIDs_parity (streamID : Nat) :
    ∀ (fuel next : Nat), ∀ x ∈ openedIDs streamID fuel next, x % 2 = next % 2 := by
  intro fuel
  induction fuel with
  | zero => intro next x hx; simp [openedIDs] at hx
  | succ fuel ih =>
    intro next x hx
    unfold openedIDs at hx
    split_ifs at hx
    · simp only [List.mem_cons] at hx
      rcases hx with hx | hx
      · rw [hx]
      · rw [ih _ x hx]; omega
    · simp at hx

theorem openStreams_keeps (streamID : Nat) :
    ∀ (fuel : Nat) (s s' : StreamState), openStreams streamID fuel s = some s' →
      ∀ k, (findStream s.mStreams k).isSome = true → (findStream s'.mStreams k).isSome = true := by
  intro fuel
  induction fuel with
  | zero =>
    intro s s' h k hk
    unfold openStreams at h
    split_ifs at h
    cases h
    exact hk
  | succ fuel ih =>
    intro s s' h k hk
    unfold openStreams at h
    split_ifs at h
    · refine ih _ _ h k ?_
      simp only
      rw [findStream_insertStream]
      cases hf : findStream s.mStreams k with
      | none => rw [hf] at hk; cases hk
      | some p => simp
    · cases h
      exact hk

theorem openStreams_opened (streamID : Nat) :
    ∀ (fuel : Nat) (s s' : StreamState), openStreams streamID fuel s = some s' →
      ∀ k ∈ openedIDs streamID fuel s.mNextRecvStreamId, (findStream s'.mStreams k).isSome = true := by
  intro fuel
  induction fuel with
  | zero => intro s s' _ k hk; simp [openedIDs] at hk
  | succ fuel ih =>
    intro s s' h k hk
    unfold openStreams at h
    unfold openedIDs at hk
    split_ifs at h hk
    · simp only [List.mem_cons] at hk
      rcases hk with hk | hk
      · refine openStreams_keeps streamID fuel _ _ h k ?_
        simp only
        rw [findStream_insertStream, hk]
        cases hf : findStream s.mStreams s.mNextRecvStreamId <;> simp
      · exact ih _ _ h k hk
    · simp at hk

theorem Reachable_parity (env : Env) (s0 s : StreamState) (locals peers : List Nat)
    (h : Reachable env s0 s locals peers) :
    s.mNextStreamId % 2 = s0.mNextStreamId % 2 ∧
    s.mNextRecvStreamId % 2 = s0.mNextRecvStreamId % 2 ∧
    (∀ x ∈ locals, x % 2 = s0.mNextStreamId % 2) ∧
    (∀ x ∈ peers, x % 2 = s0.mNextRecvStreamId % 2) := by
  induction h with
  | init => exact ⟨rfl, rfl, by simp, by simp⟩
  | start s locals peers data amount fin _ ih =>
    obtain ⟨h1, h2, h3, h4⟩ := ih
    obtain ⟨c1, c2⟩ := StartNewStream_counters env s data amount fin
    refine ⟨?_, by rw [c2]; exact h2, ?_, h4⟩
    · rw [c1, ← h1]; omega
    · intro x hx
      simp only [List.mem_cons] at hx
      rcases hx with hx | hx
      · rw [hx]; exact h1
      · exact h3 x hx
  | find s s' locals peers fuel streamID d rv _ hf ih =>
    obtain ⟨h1, h2, h3, h4⟩ := ih
    obtain ⟨c1, c2⟩ := FindStream_counters env fuel s s' streamID d rv hf
    refine ⟨by rw [c1]; exact h1, by rw [c2]; exact h2, h3, ?_⟩
    intro x hx
    rw [List.mem_append] at hx
    rcases hx with hx | hx
    · rw [openedIDs_parity streamID fuel _ x hx]; exact h2
    · exact h4 x hx
  | delete s locals peers streamID _ ih => exact ih

/-- C11 (counterexample). A freshly constructed `StreamState` has both counters at
1. When the peer's first frame names stream 1, `FindStream` materialises
stream 1 for the peer; the next `StartNewStream` gives the locally initiated
stream the ID 1 as well. -/
theorem C11_counterexample_shared_id :
    freshState.mNextStreamId = 1 ∧ freshState.mNextRecvStreamId = 1 ∧
    FindStream exampleEnv 1 freshState 1 chunkPeer1 = some (Code.MOZQUIC_OK, peerOpened1) ∧
    openedIDs 1 1 freshState.mNextRecvStreamId = [1] ∧
    (StartNewStream exampleEnv peerOpened1 [] 0 false).2.1.mStreamID = 1 ∧
    Reachable exampleEnv freshState (StartNewStream exampleEnv peerOpened1 [] 0 false).2.2
      [1] [1] :=
  ⟨rfl, rfl, by decide, by decide, by decide,
    Reachable.start peerOpened1 [] [1] [] 0 false
      (Reachable.find freshState peerOpened1 [] [] 1 1 chunkPeer1 Code.MOZQUIC_OK
        Reachable.init (by decide))⟩

/-- C11 (amended). Let the two counters of the initial state have opposite parity.
Then in every state reached from it by `StartNewStream`, `FindStream` and
`DeleteStream`, every ID given to a locally initiated stream has the parity of
the initial local counter, every ID for which `FindStream` materialised a
stream of the peer has the parity of the initial peer counter, and no ID is
both. (A freshly constructed `StreamState` has both counters at 1.) -/
theorem C11_stream_id_parity (env : Env) (s0 s : StreamState) (locals peers : List Nat)
    (hpar : s0.mNextStreamId % 2 ≠ s0.mNextRecvStreamId % 2)
    (h : Reachable env s0 s locals peers) :
    (∀ x ∈ locals, x % 2 = s0.mNextStreamId % 2) ∧
    (∀ x ∈ peers, x % 2 = s0.mNextRecvStreamId % 2) ∧
    (∀ x, ¬ (x ∈ locals ∧ x ∈ peers)) := by
  obtain ⟨_, _, h3, h4⟩ := Reachable_parity env s0 s locals peers h
  refine ⟨h3, h4, ?_⟩
  rintro x ⟨hl, hp⟩
  apply hpar
  rw [← h3 x hl, ← h4 x hp]

/-- C11 (witness): an endpoint whose local counter starts at 2; the peer opens
stream 1 and the endpoint then starts a stream, which gets ID 2. -/
theorem C11_stream_id_parity_witness :
    Reachable exampleEnv freshLocalEven
      (StartNewStream exampleEnv peerOpened1LocalEven [] 0 false).2.2 [2] [1] ∧
    (∀ x, ¬ (x ∈ [2] ∧ x ∈ [1])) :=
  ⟨Reachable.start peerOpened1LocalEven [] [1] [] 0 false
      (Reachable.find freshLocalEven peerOpened1LocalEven [] [] 1 1 chunkPeer1 Code.MOZQUIC_OK
        Reachable.init (by decide)),
   (C11_stream_id_parity exampleEnv freshLocalEven
      (StartNewStream exampleEnv peerOpened1LocalEven [] 0 false).2.2 [2] [1] (by decide)
      (Reachable.start peerOpened1LocalEven [] [1] [] 0 false
        (Reachable.find freshLocalEven peerOpened1LocalEven [] [] 1 1 chunkPeer1 Code.MOZQUIC_OK
          Reachable.init (by decide)))).2.2⟩

/-- C14. The lazy initialisation in `mozquic_new_connection` does not set the flag
`mozQuicInit`: whatever its arguments, the call leaves the flag as it was. In
a fresh process, after `mozquic_new_connection` has initialised the crypto
library with the default profile and created a connection, the call
`mozquic_nss_config(dir)` finds the flag clear, initialises the library a
second time and returns the status of that initialisation (here OK), not
`MOZQUIC_ERR_GENERAL`; a second `mozquic_new_connection` initialises the
library once more as well. (After any call of `mozquic_nss_config` the flag is
set, and a later `mozquic_nss_config` then fails with `MOZQUIC_ERR_GENERAL`
without initialising.) -/
theorem C14_lazy_init_leaves_flag_clear :
    (∀ (env : ApiEnv) (p : ProcessState) (outConnection : Bool)
        (inConfig : Option mozquic_config_t),
      (mozquic_new_connection env p outConnection inConfig).2.mozQuicInit = p.mozQuicInit) ∧
    mozquic_new_connection exampleApi freshProcess true (some exampleConfig)
      = (Code.MOZQUIC_OK, { mozQuicInit := 0, initCalls := [none], connections := 1 }) ∧
    mozquic_nss_config exampleApi { mozQuicInit := 0, initCalls := [none], connections := 1 }
        (some exampleDir)
      = (Code.MOZQUIC_OK,
          { mozQuicInit := 1, initCalls := [none, some exampleDir], connections := 1 }) ∧
    mozquic_new_connection exampleApi { mozQuicInit := 0, initCalls := [none], connections := 1 }
        true (some exampleConfig)
      = (Code.MOZQUIC_OK, { mozQuicInit := 0, initCalls := [none, none], connections := 2 }) ∧
    (∀ (env : ApiEnv) (p : ProcessState) (dir dir2 : Option (List Nat)),
      (mozquic_nss_config env p dir).2.mozQuicInit ≠ 0 ∧
      mozquic_nss_config env (mozquic_nss_config env p dir).2 dir2
        = (Code.MOZQUIC_ERR_GENERAL, (mozquic_nss_config env p dir).2)) := by
  refine ⟨?_, by decide, by decide, by decide, ?_⟩
  · intro env p outConnection inConfig
    unfold mozquic_new_connection
    cases inConfig <;> simp only <;> split_ifs <;> rfl
  · intro env p dir dir2
    have h : (mozquic_nss_config env p dir).2.mozQuicInit ≠ 0 := by
      unfold mozquic_nss_config
      split_ifs with h0
      · exact h0
      · cases dir <;> simp
    refine ⟨h, ?_⟩
    generalize (mozquic_nss_config env p dir).2 = q at h
    unfold mozquic_nss_config
    rw [if_pos h]

/-! ### The length field -/

theorem beValue_beBytes_mod (n v : Nat) : beValue (beBytes n v) = v % 256 ^ n := by
  unfold beValue
  rw [beValue_foldl]
  simp

theorem packDataChunk_chunk64k :
    packDataChunk 1 65540 chunk64k
      = some { bytes := [0xC1, 1, 0, 0] ++ List.replicate 65536 0x61,
               advance := 65540, chunk := chunk64k, tail := none } := by
  obtain ⟨p, hp⟩ := packDataChunk_some_of_room 65540 chunk64k (by decide)
  obtain ⟨_, hc, htl, hadv, hb⟩ := packDataChunk_eq_some 65540 chunk64k p hp
  have e1 : (65540 : Nat) % 2 ^ 32
      - (3 + streamIdLen chunk64k.mStreamID + offsetLen chunk64k.mOffset) = 65536 := by decide
  have s1 : splitChunk 1 65536 chunk64k = (chunk64k, none) := by
    unfold splitChunk
    rw [if_neg (by decide)]
  rw [e1, s1] at hc htl
  simp only at hc htl
  rw [hc] at hadv hb
  have hadv2 : p.advance = 65540 := by rw [hadv]; decide
  have hbuf : chunk64k.buffer.take chunk64k.mLen = List.replicate 65536 0x61 := by
    simp only [chunk64k, MozQuicStreamChunk.create, MozQuicStreamChunk.buffer, Option.getD_some,
      List.take_replicate, Nat.min_self]
  rw [hbuf] at hb
  have hhead : ([if chunk64k.mFin = true then
        ((0xc1 ||| ((streamIdLen chunk64k.mStreamID - 1) <<< 3) |||
          ((offsetSize chunk64k.mOffset).1 <<< 1)) % 256 ||| STREAM_FIN_BIT) % 256
        else (0xc1 ||| ((streamIdLen chunk64k.mStreamID - 1) <<< 3) |||
          ((offsetSize chunk64k.mOffset).1 <<< 1)) % 256] ++
      ((beBytes 4 chunk64k.mStreamID).drop (4 - streamIdLen chunk64k.mStreamID)).take
        (streamIdLen chunk64k.mStreamID) ++
      (if offsetLen chunk64k.mOffset ≠ 0 then
          ((beBytes 8 chunk64k.mOffset).drop (8 - offsetLen chunk64k.mOffset)).take
            (offsetLen chunk64k.mOffset) else []) ++
      beBytes 2 (chunk64k.mLen % 2 ^ 16)) = [0xC1, 1, 0, 0] := by decide
  rw [hhead] at hb
  rw [hp]
  obtain ⟨b, a, c, t⟩ := p
  simp only at hc htl hadv2 hb
  subst hc htl hadv2 hb
  rfl

theorem CreateStreamFrames_state64k :
    CreateStreamFrames exampleEnv state64k 65540 false
      = some (Code.MOZQUIC_OK, [0xC1, 1, 0, 0] ++ List.replicate 65536 0x61, 0,
          { freshState with mUnAckedData := [stampChunk exampleEnv chunk64k] }) := by
  unfold CreateStreamFrames
  have hs : state64k.mUnWrittenData = [chunk64k] := rfl
  rw [hs]
  rw [show 2 * [chunk64k].length + 1 = 1 + 1 + 1 from rfl]
  rw [packLoop]
  rw [if_neg (by decide), if_neg (by decide),
    show exampleEnv.newChunkTransmitCount = 1 from rfl]
  simp only [packDataChunk_chunk64k, Option.toList, List.nil_append]
  rw [packLoop]
  rfl

/-- C1 (counterexample). With 65540 bytes of room, `CreateStreamFrames` packs the
data chunk `chunk64k` of length 65536 as the bytes `C1 01 00 00` followed by
its 65536 data bytes. The two bytes in the place of the chunk length are
`00 00`; no two bytes are the big-endian chunk length. -/
theorem C1_counterexample_long_chunk :
    chunk64k.mRst = false ∧ chunk64k.mLen = 65536 ∧
    CreateStreamFrames exampleEnv state64k 65540 false
      = some (Code.MOZQUIC_OK, [0xC1, 1] ++ [0, 0] ++ List.replicate 65536 0x61, 0,
          { freshState with mUnAckedData := [stampChunk exampleEnv chunk64k] }) ∧
    beValue [0, 0] ≠ chunk64k.mLen ∧
    (∀ b1 b2 : Nat, b1 < 256 → b2 < 256 → beValue [b1, b2] ≠ chunk64k.mLen) := by
  refine ⟨rfl, rfl, CreateStreamFrames_state64k, by decide, ?_⟩
  intro b1 b2 h1 h2
  show beValue [b1, b2] ≠ 65536
  simp only [beValue, List.foldl_cons, List.foldl_nil]
  omega

/-- C21 (counterexample). With 65540 bytes of room, `CreateStreamFrames` packs the
chunk `chunk64k` (65536 data bytes, stream 1, offset 0) whole: the budget left
for data is 65536, so there is no split. The frame is the type byte `0xC1`,
the ID byte `1`, the two length bytes `0 0`, and 65536 data bytes: the length
field says 0. -/
theorem C21_counterexample_length_wraps :
    chunk64k.mLen = 65536 ∧
    CreateStreamFrames exampleEnv state64k 65540 false
      = some (Code.MOZQUIC_OK, [0xC1, 1, 0, 0] ++ List.replicate 65536 0x61, 0,
          { freshState with mUnAckedData := [stampChunk exampleEnv chunk64k] }) ∧
    beValue [0, 0] ≠ (List.replicate 65536 0x61).length := by
  refine ⟨rfl, CreateStreamFrames_state64k, ?_⟩
  rw [List.length_replicate]
  decide

theorem splitChunk_owned {count0 : Nat} (room : Nat) (c : MozQuicStreamChunk) (ho : c.owned) :
    (splitChunk count0 room c).1.owned := by
  unfold MozQuicStreamChunk.owned at ho ⊢
  rw [splitChunk_buffer]
  exact le_trans (splitChunk_len_le room c).2 ho

theorem splitChunk_tail_owned {count0 : Nat} (room : Nat) (c t : MozQuicStreamChunk) (ho : c.owned)
    (ht : (splitChunk count0 room c).2 = some t) : t.owned := by
  obtain ⟨hlt, _, h⟩ := splitChunk_tail room c t ht
  unfold MozQuicStreamChunk.owned at ho ⊢
  rw [h]
  simp only [MozQuicStreamChunk.create, MozQuicStreamChunk.buffer, Option.getD_some,
    List.length_take, List.length_drop]
  simp only [MozQuicStreamChunk.buffer] at ho
  omega

/-- C21 (amended). For every room below `2 ^ 16` and every queue whose chunks own
the bytes they stand for, the frame of each data chunk that
`CreateStreamFrames` packs consists of the type byte, the stream ID and the
offset, then the two bytes of the length field, then the data bytes, and the
value of the length field is the number of data bytes. For every room at all,
the length field of a packed chunk holds its length modulo `2 ^ 16`. -/
theorem C21_length_field (env : Env) (s : StreamState) (room : Nat) (justZero : Bool)
    (hroom : room < 2 ^ 16) (hown : ∀ c ∈ s.mUnWrittenData, c.owned) :
    (∃ out room' s' packed frames extra,
      CreateStreamFrames env s room justZero = some (Code.MOZQUIC_OK, out, room', s') ∧
      s'.mUnAckedData = s.mUnAckedData ++ packed ∧
      out = frames.flatten ++ extra ∧
      List.Forall₂ (fun c f => c.mRst = false →
        f = [typeByteLayout c.mFin (streamIdLen c.mStreamID) (offsetLen c.mOffset)] ++
              beBytes (streamIdLen c.mStreamID) c.mStreamID ++
              beBytes (offsetLen c.mOffset) c.mOffset ++
              beBytes 2 c.mLen ++ c.payload ∧
        beValue (beBytes 2 c.mLen) = c.payload.length) packed frames) ∧
    (∀ count0 avail c p, packDataChunk count0 avail c = some p →
      p.bytes = [typeByteLayout p.chunk.mFin (streamIdLen c.mStreamID) (offsetLen c.mOffset)] ++
              beBytes (streamIdLen c.mStreamID) c.mStreamID ++
              beBytes (offsetLen c.mOffset) c.mOffset ++
              beBytes 2 p.chunk.mLen ++ p.chunk.payload ∧
      beValue (beBytes 2 p.chunk.mLen) = p.chunk.mLen % 2 ^ 16) := by
  constructor
  · obtain ⟨out, room', s', packed, frames, extra, h1, h2, h3, h4, _⟩ :=
      CreateStreamFrames_frames env justZero (fun c => c.owned) (fun a => a < 2 ^ 16)
        (fun c f => f = streamFrameLayout c ∧ beValue (beBytes 2 c.mLen) = c.payload.length)
        (fun a b hba ha => lt_of_le_of_lt hba ha)
        (by
          intro avail c p havail hc hp
          obtain ⟨_, hpc, htl, _, _⟩ := packDataChunk_eq_some avail c p hp
          have hmod : avail % 2 ^ 32 = avail := Nat.mod_eq_of_lt (by omega)
          rw [hmod] at hpc htl
          refine ⟨⟨?_, ?_⟩, ?_⟩
          · rw [streamFrameLayout_stampChunk]
            exact packDataChunk_bytes avail c p hp
          · have hlen : p.chunk.mLen < 256 ^ 2 := by
              have := (@splitChunk_len_le env.newChunkTransmitCount
                (avail - (3 + streamIdLen c.mStreamID + offsetLen c.mOffset)) c).1
              rw [← hpc] at this
              omega
            have hpo : p.chunk.owned := by rw [hpc]; exact splitChunk_owned _ _ hc
            show beValue (beBytes 2 p.chunk.mLen) = (p.chunk.buffer.take p.chunk.mLen).length
            rw [beValue_beBytes 2 _ hlen, List.length_take]
            unfold MozQuicStreamChunk.owned at hpo
            omega
          · intro t ht
            rw [htl] at ht
            exact splitChunk_tail_owned _ _ _ hc ht)
        s room hown hroom
    refine ⟨out, room', s', packed, frames, extra, h1, h2, h3, ?_⟩
    refine List.Forall₂.imp ?_ h4
    intro c f hcf hr
    exact ⟨(hcf hr).1, (hcf hr).2⟩
  · intro count0 avail c p hp
    have hb := packDataChunk_bytes avail c p hp
    obtain ⟨_, hpc, _, _, _⟩ := packDataChunk_eq_some avail c p hp
    have hid : p.chunk.mStreamID = c.mStreamID := by rw [hpc, splitChunk_streamID]
    have hoff : p.chunk.mOffset = c.mOffset := by rw [hpc, splitChunk_offset]
    refine ⟨?_, ?_⟩
    · rw [hb]
      unfold streamFrameLayout
      rw [hid, hoff]
    · rw [beValue_beBytes_mod]
      norm_num

/-- C21 (witness): the chunk `chunkABC` with 6 bytes of room; the length field of
the frame of its first two bytes says 2. -/
theorem C21_length_field_witness :
    packedABC.bytes = [0xC1, 1] ++ [] ++ [0, 2] ++ [0x41, 0x42] ∧
    beValue (beBytes 2 packedABC.chunk.mLen) = packedABC.chunk.mLen % 2 ^ 16 :=
  ⟨by decide,
   ((C21_length_field exampleEnv stateABC 6 false (by decide) (by decide)).2
      1 6 chunkABC packedABC (by decide)).2⟩

/-! ### Termination of the materialisation loop -/

theorem openStreams_never_ends (streamID : Nat) (P : Nat → Prop)
    (hle : ∀ n, P n → n ≤ streamID) (hstep : ∀ n, P n → P ((n + 2) % 2 ^ 32)) :
    ∀ (fuel : Nat) (s : StreamState), P s.mNextRecvStreamId →
      openStreams streamID fuel s = none := by
  intro fuel
  induction fuel with
  | zero =>
    intro s hs
    unfold openStreams
    rw [if_pos (hle _ hs)]
  | succ fuel ih =>
    intro s hs
    unfold openStreams
    rw [if_pos (hle _ hs)]
    exact ih _ (hstep _ hs)

theorem openStreams_terminates (streamID : Nat) (hid : streamID + 2 < 2 ^ 32) :
    ∀ (fuel : Nat) (s : StreamState), streamID + 2 ≤ s.mNextRecvStreamId + 2 * fuel →
      ∃ s', openStreams streamID fuel s = some s' ∧ streamID < s'.mNextRecvStreamId ∧
        s.mNextRecvStreamId ≤ s'.mNextRecvStreamId ∧
        s'.mNextRecvStreamId % 2 = s.mNextRecvStreamId % 2 := by
  intro fuel
  induction fuel with
  | zero =>
    intro s hs
    unfold openStreams
    rw [if_neg (by omega)]
    exact ⟨s, rfl, by omega, le_refl _, rfl⟩
  | succ fuel ih =>
    intro s hs
    unfold openStreams
    by_cases hge : streamID ≥ s.mNextRecvStreamId
    · rw [if_pos hge]
      have hnext : (s.mNextRecvStreamId + 2) % 2 ^ 32 = s.mNextRecvStreamId + 2 :=
        Nat.mod_eq_of_lt (by omega)
      obtain ⟨s', h1, h2, h3, h4⟩ := ih
        { s with
          mStreams := insertStream s.mStreams s.mNextRecvStreamId
            (MozQuicStreamPair.create s.mNextRecvStreamId),
          mNextRecvStreamId := (s.mNextRecvStreamId + 2) % 2 ^ 32 }
        (by simp only [hnext]; omega)
      simp only [hnext] at h1 h3 h4
      refine ⟨s', ?_, h2, by omega, by omega⟩
      simp only [hnext]
      exact h1
    · rw [if_neg hge]
      exact ⟨s, rfl, by omega, le_refl _, rfl⟩

/-- C22. The materialisation loop of `FindStream` at the top of the 32-bit range.
For the stream ID `0xFFFFFFFF` and every 32-bit value of the counter, and for
the stream ID `0xFFFFFFFE` and every even 32-bit value of the counter, the
loop does not end, whatever the number of iterations allowed: the counter
wraps and is never greater than the ID, so `FindStream` does not return. For
every stream ID `id` with
`id + 2 < 2 ^ 32` and every counter the loop ends after at most `id + 1`
iterations, with the counter greater than `id`, not smaller than before, and
of the parity it had. -/
theorem C22_materialisation_loop_wraps :
    (∀ (fuel : Nat) (s : StreamState), s.mNextRecvStreamId < 2 ^ 32 →
      openStreams 4294967295 fuel s = none) ∧
    (∀ (fuel : Nat) (s : StreamState), s.mNextRecvStreamId < 2 ^ 32 →
      s.mNextRecvStreamId % 2 = 0 → openStreams 4294967294 fuel s = none) ∧
    (∀ (env : Env) (fuel : Nat) (s : StreamState) (d : MozQuicStreamChunk),
      s.mNextRecvStreamId < 2 ^ 32 → FindStream env fuel s 4294967295 d = none) ∧
    (∀ (id : Nat) (s : StreamState), id + 2 < 2 ^ 32 →
      ∃ s', openStreams id (id + 1) s = some s' ∧ id < s'.mNextRecvStreamId ∧
        s.mNextRecvStreamId ≤ s'.mNextRecvStreamId ∧
        s'.mNextRecvStreamId % 2 = s.mNextRecvStreamId % 2) := by
  refine ⟨?_, ?_, ?_, ?_⟩
  · intro fuel s hs
    exact openStreams_never_ends 4294967295 (fun n => n < 2 ^ 32) (fun n hn => by omega)
      (fun n _ => Nat.mod_lt _ (by norm_num)) fuel s hs
  · intro fuel s hs hpar
    exact openStreams_never_ends 4294967294 (fun n => n < 2 ^ 32 ∧ n % 2 = 0)
      (fun n hn => by omega) (fun n hn => ⟨Nat.mod_lt _ (by norm_num), by omega⟩) fuel s
      ⟨hs, hpar⟩
  · intro env fuel s d hs
    unfold FindStream
    rw [openStreams_never_ends 4294967295 (fun n => n < 2 ^ 32) (fun n hn => by omega)
      (fun n _ => Nat.mod_lt _ (by norm_num)) fuel s hs]
  · intro id s hid
    exact openStreams_terminates id hid (id + 1) s (by omega)

/-! ### The buffer bound -/

theorem packDataChunk_fits {count0 : Nat} (avail : Nat) (c : MozQuicStreamChunk) (p : Packed)
    (h : packDataChunk count0 avail c = some p) :
    p.chunk.mLen ≤ avail % 2 ^ 32 - (3 + streamIdLen c.mStreamID + offsetLen c.mOffset) ∧
    1 ≤ avail % 2 ^ 32 - (3 + streamIdLen c.mStreamID + offsetLen c.mOffset) ∧
    p.advance ≤ avail % 2 ^ 32 ∧ p.bytes.length ≤ p.advance := by
  obtain ⟨h4, hc, _, hadv, hb⟩ := packDataChunk_eq_some avail c p h
  have hlen := (@splitChunk_len_le count0
    (avail % 2 ^ 32 - (3 + streamIdLen c.mStreamID + offsetLen c.mOffset)) c).1
  rw [← hc] at hlen
  refine ⟨hlen, by omega, by omega, ?_⟩
  rw [hb, hadv]
  have ho : (if offsetLen c.mOffset ≠ 0 then
      ((beBytes 8 c.mOffset).drop (8 - offsetLen c.mOffset)).take (offsetLen c.mOffset) else []).length
      ≤ offsetLen c.mOffset := by
    split_ifs with h0
    · rw [List.length_take]; omega
    · simp
  simp only [List.length_append, List.length_singleton, List.length_take, List.length_drop,
    beBytes_length]
  omega

theorem packLoop_room (env : Env) (justZero : Bool)
    (hrst : ∀ room c, (env.CreateStreamRst room c).2.length ≤ room) :
    ∀ fuel rem st st', packLoop env justZero fuel rem st = some st' →
      st'.room ≤ st.room ∧ st'.out.length + st'.room ≤ st.out.length + st.room := by
  intro fuel
  induction fuel with
  | zero => intro rem st st' h; simp [packLoop] at h
  | succ fuel ih =>
    intro rem st st' h
    cases rem with
    | nil =>
      simp only [packLoop, Option.some.injEq] at h
      subst h
      exact ⟨le_refl _, le_refl _⟩
    | cons c rest =>
      unfold packLoop at h
      by_cases hz : justZero = true ∧ c.mStreamID ≠ 0
      · rw [if_pos hz] at h
        have := ih _ _ _ h
        exact this
      · rw [if_neg hz] at h
        by_cases hr : c.mRst = true
        · rw [if_pos hr] at h
          simp only at h
          have hw := hrst st.room c
          by_cases hrv : (env.CreateStreamRst st.room c).1 ≠ Code.MOZQUIC_OK
          · rw [if_pos hrv] at h
            simp only [Option.some.injEq] at h
            subst h
            simp only [List.length_append]
            omega
          · rw [if_neg hrv] at h
            have := ih _ _ _ h
            simp only [List.length_append] at this
            omega
        · rw [if_neg hr] at h
          cases hp : packDataChunk env.newChunkTransmitCount st.room c with
          | none =>
            rw [hp] at h
            simp only [Option.some.injEq] at h
            subst h
            exact ⟨le_refl _, le_refl _⟩
          | some p =>
            rw [hp] at h
            simp only at h
            obtain ⟨_, _, hadv, hlen⟩ := packDataChunk_fits st.room c p hp
            have hmod := Nat.mod_le st.room (2 ^ 32)
            have := ih _ _ _ h
            simp only [List.length_append] at this
            omega

/-- C23. Let the writer of reset frames keep within the room it is given. For
every queue and every room, `CreateStreamFrames` returns; it leaves
`room' ≤ room` bytes of room and has written at most `room - room'` bytes, so
at most `room`; what it has written is the frames of the chunks it moved to
`unAcked`, each data chunk's frame whole (followed only by what a failing
reset writer wrote). In the loop body, a chunk that is packed has, after any
split, a length of at most the data budget `room - (3 + idLen + offsetLen)`
(the assertion `room >= mLen`), the budget is at least 1, and the frame moves
the write pointer by at most the room left. -/
theorem C23_buffer_bound (env : Env) (s : StreamState) (room : Nat) (justZero : Bool)
    (hrst : ∀ room c, (env.CreateStreamRst room c).2.length ≤ room) :
    (∃ out room' s' packed frames extra,
      CreateStreamFrames env s room justZero = some (Code.MOZQUIC_OK, out, room', s') ∧
      room' ≤ room ∧ out.length + room' ≤ room ∧ out.length ≤ room ∧
      s'.mUnAckedData = s.mUnAckedData ++ packed ∧
      out = frames.flatten ++ extra ∧
      List.Forall₂ (fun c f => c.mRst = false → f = streamFrameLayout c) packed frames ∧
      (extra = [] ∨ ∃ room c, c.mRst = true ∧
        (env.CreateStreamRst room c).1 ≠ Code.MOZQUIC_OK ∧
        extra = (env.CreateStreamRst room c).2)) ∧
    (∀ count0 avail c p, packDataChunk count0 avail c = some p →
      p.chunk.mLen ≤ avail % 2 ^ 32 - (3 + streamIdLen c.mStreamID + offsetLen c.mOffset) ∧
      1 ≤ avail % 2 ^ 32 - (3 + streamIdLen c.mStreamID + offsetLen c.mOffset) ∧
      p.advance ≤ avail % 2 ^ 32 ∧ p.bytes.length ≤ p.advance) := by
  refine ⟨?_, fun _ avail c p h => packDataChunk_fits avail c p h⟩
  obtain ⟨out, room', s', packed, frames, extra, h1, h2, h3, h4, h5⟩ :=
    CreateStreamFrames_frames env justZero (fun _ => True) (fun _ => True)
      (fun c f => f = streamFrameLayout c) (fun _ _ _ _ => trivial)
      (fun avail c p _ _ hp => ⟨by
        show p.bytes = streamFrameLayout (stampChunk env p.chunk)
        rw [streamFrameLayout_stampChunk]; exact packDataChunk_bytes avail c p hp,
        fun _ _ => trivial⟩)
      s room (fun _ _ => trivial) trivial
  refine ⟨out, room', s', packed, frames, extra, h1, ?_, ?_, ?_, h2, h3, h4, h5⟩
  all_goals
    unfold CreateStreamFrames at h1
    cases hl : packLoop env justZero (2 * s.mUnWrittenData.length + 1) s.mUnWrittenData
        { kept := [], unAcked := s.mUnAckedData, out := [], room := room } with
    | none => rw [hl] at h1; cases h1
    | some st =>
      rw [hl] at h1
      simp only [Option.some.injEq, Prod.mk.injEq, true_and] at h1
      obtain ⟨ho, hr, _⟩ := h1
      subst ho hr
      have := packLoop_room env justZero hrst _ _ _ _ hl
      simp only [List.length_nil] at this
      omega

/-- C23 (witness): `chunkABC` with 6 bytes of room: 6 bytes are written and no
room is left. -/
theorem C23_buffer_bound_witness :
    ∃ out room' s' packed frames extra,
      CreateStreamFrames exampleEnv stateABC 6 false = some (Code.MOZQUIC_OK, out, room', s') ∧
      room' ≤ 6 ∧ out.length + room' ≤ 6 ∧ out.length ≤ 6 ∧
      s'.mUnAckedData = stateABC.mUnAckedData ++ packed ∧
      out = frames.flatten ++ extra ∧
      List.Forall₂ (fun c f => c.mRst = false → f = streamFrameLayout c) packed frames ∧
      (extra = [] ∨ ∃ room c, c.mRst = true ∧
        (exampleEnv.CreateStreamRst room c).1 ≠ Code.MOZQUIC_OK ∧
        extra = (exampleEnv.CreateStreamRst room c).2) :=
  (C23_buffer_bound exampleEnv stateABC 6 false (fun _ _ => Nat.zero_le _)).1

/-! ### Progress of the packer -/

theorem queueMeasure_append (a b : List MozQuicStreamChunk) :
    queueMeasure (a ++ b) = queueMeasure a + queueMeasure b := by
  unfold queueMeasure
  simp only [List.map_append, List.sum_append, List.length_append]
  omega

theorem queueMeasure_cons (c : MozQuicStreamChunk) (q : List MozQuicStreamChunk) :
    queueMeasure (c :: q) = c.mLen + 1 + queueMeasure q := by
  unfold queueMeasure
  simp only [List.map_cons, List.sum_cons, List.length_cons]
  omega

theorem queueMeasure_eq_zero (q : List MozQuicStreamChunk) (h : queueMeasure q = 0) : q = [] := by
  cases q with
  | nil => rfl
  | cons c rest => rw [queueMeasure_cons] at h; omega

theorem packDataChunk_split_lengths {count0 : Nat} (avail : Nat) (c t : MozQuicStreamChunk) (p : Packed)
    (h : packDataChunk count0 avail c = some p) (ht : p.tail = some t) :
    1 ≤ p.chunk.mLen ∧ 1 ≤ t.mLen ∧ p.chunk.mLen + t.mLen = c.mLen := by
  obtain ⟨h4, hc, htl, _, _⟩ := packDataChunk_eq_some avail c p h
  rw [htl] at ht
  obtain ⟨hlt, h1, h2⟩ := splitChunk_tail _ _ _ ht
  rw [hc, h1, h2]
  simp only [MozQuicStreamChunk.create]
  omega

theorem packDataChunk_measure {count0 : Nat} (avail : Nat) (c : MozQuicStreamChunk) (p : Packed)
    (h : packDataChunk count0 avail c = some p) :
    queueMeasure p.tail.toList < c.mLen + 1 := by
  cases ht : p.tail with
  | none => simp [queueMeasure]
  | some t =>
    obtain ⟨h1, h2, h3⟩ := packDataChunk_split_lengths avail c t p h ht
    rw [Option.toList, queueMeasure_cons]
    simp only [queueMeasure, List.map_nil, List.sum_nil, List.length_nil]
    omega

theorem packLoop_measure (env : Env) (justZero : Bool) :
    ∀ fuel rem st st', packLoop env justZero fuel rem st = some st' →
      queueMeasure st'.kept ≤ queueMeasure st.kept + queueMeasure rem := by
  intro fuel
  induction fuel with
  | zero => intro rem st st' h; simp [packLoop] at h
  | succ fuel ih =>
    intro rem st st' h
    cases rem with
    | nil =>
      simp only [packLoop, Option.some.injEq] at h
      subst h
      omega
    | cons c rest =>
      unfold packLoop at h
      rw [queueMeasure_cons]
      by_cases hz : justZero = true ∧ c.mStreamID ≠ 0
      · rw [if_pos hz] at h
        have := ih _ _ _ h
        simp only [queueMeasure_append, queueMeasure_cons] at this
        simp only [queueMeasure, List.map_nil, List.sum_nil, List.length_nil] at this ⊢
        omega
      · rw [if_neg hz] at h
        by_cases hr : c.mRst = true
        · rw [if_pos hr] at h
          simp only at h
          by_cases hrv : (env.CreateStreamRst st.room c).1 ≠ Code.MOZQUIC_OK
          · rw [if_pos hrv] at h
            simp only [Option.some.injEq] at h
            subst h
            simp only [queueMeasure_append, queueMeasure_cons]
            omega
          · rw [if_neg hrv] at h
            have := ih _ _ _ h
            simp only at this
            omega
        · rw [if_neg hr] at h
          cases hp : packDataChunk env.newChunkTransmitCount st.room c with
          | none =>
            rw [hp] at h
            simp only [Option.some.injEq] at h
            subst h
            simp only [queueMeasure_append, queueMeasure_cons]
            omega
          | some p =>
            rw [hp] at h
            simp only at h
            have hm := packDataChunk_measure st.room c p hp
            have := ih _ _ _ h
            simp only [queueMeasure_append] at this
            omega

theorem packLoop_progress (env : Env) (fuel : Nat) (c : MozQuicStreamChunk)
    (rest : List MozQuicStreamChunk) (st st' : PackState)
    (h : packLoop env false (fuel + 1) (c :: rest) st = some st')
    (hrst : c.mRst = true → (env.CreateStreamRst st.room c).1 = Code.MOZQUIC_OK)
    (hroom : c.mRst = false →
      4 + streamIdLen c.mStreamID + offsetLen c.mOffset ≤ st.room % 2 ^ 32) :
    queueMeasure st'.kept < queueMeasure st.kept + queueMeasure (c :: rest) ∧
    ∃ head more, st'.unAcked = st.unAcked ++ stampChunk env head :: more ∧
      (c.mRst = false → head = (splitChunk env.newChunkTransmitCount
        (st.room % 2 ^ 32 - (3 + streamIdLen c.mStreamID + offsetLen c.mOffset)) c).1) := by
  unfold packLoop at h
  rw [if_neg (by simp)] at h
  rw [queueMeasure_cons]
  by_cases hr : c.mRst = true
  · rw [if_pos hr] at h
    simp only at h
    rw [if_neg (by rw [hrst hr]; simp)] at h
    have hm := packLoop_measure env false _ _ _ _ h
    obtain ⟨packed, _, _, hu, _⟩ := packLoop_frames env false (fun _ => True) (fun _ => True)
      (fun _ _ => True) (fun _ _ _ _ => trivial) (fun _ _ _ _ _ _ => ⟨trivial, fun _ _ => trivial⟩)
      _ _ _ _ h (fun _ _ => trivial) trivial
    simp only at hm hu
    refine ⟨by omega, c, packed, ?_, fun hf => ?_⟩
    · rw [hu, List.append_assoc]; rfl
    · rw [hr] at hf; cases hf
  · rw [if_neg hr] at h
    have hr2 : c.mRst = false := by simpa using hr
    obtain ⟨p, hp⟩ := packDataChunk_some_of_room st.room c (hroom hr2)
    rw [hp] at h
    simp only at h
    have hmp := packDataChunk_measure st.room c p hp
    obtain ⟨_, hc, _, _, _⟩ := packDataChunk_eq_some st.room c p hp
    have hm := packLoop_measure env false _ _ _ _ h
    obtain ⟨packed, _, _, hu, _⟩ := packLoop_frames env false (fun _ => True) (fun _ => True)
      (fun _ _ => True) (fun _ _ _ _ => trivial) (fun _ _ _ _ _ _ => ⟨trivial, fun _ _ => trivial⟩)
      _ _ _ _ h (fun _ _ => trivial) trivial
    simp only [queueMeasure_append] at hm
    simp only at hu
    refine ⟨by omega, p.chunk, packed, ?_, fun _ => hc⟩
    rw [hu, List.append_assoc]; rfl

theorem CreateStreamFrames_progress (env : Env) (s : StreamState) (room : Nat)
    (c : MozQuicStreamChunk) (rest : List MozQuicStreamChunk)
    (hs : s.mUnWrittenData = c :: rest)
    (hrst : c.mRst = true → (env.CreateStreamRst room c).1 = Code.MOZQUIC_OK)
    (hroom : c.mRst = false → 4 + streamIdLen c.mStreamID + offsetLen c.mOffset ≤ room % 2 ^ 32) :
    ∃ out room' s',
      CreateStreamFrames env s room false = some (Code.MOZQUIC_OK, out, room', s') ∧
      queueMeasure s'.mUnWrittenData < queueMeasure s.mUnWrittenData ∧
      ∃ head more, s'.mUnAckedData = s.mUnAckedData ++ stampChunk env head :: more ∧
        (c.mRst = false → head = (splitChunk env.newChunkTransmitCount
          (room % 2 ^ 32 - (3 + streamIdLen c.mStreamID + offsetLen c.mOffset)) c).1) := by
  obtain ⟨out, room', s', h⟩ := CreateStreamFrames_total env s room false
  refine ⟨out, room', s', h, ?_⟩
  unfold CreateStreamFrames at h
  cases hl : packLoop env false (2 * s.mUnWrittenData.length + 1) s.mUnWrittenData
      { kept := [], unAcked := s.mUnAckedData, out := [], room := room } with
  | none => rw [hl] at h; cases h
  | some st =>
    rw [hl] at h
    simp only [Option.some.injEq, Prod.mk.injEq, true_and] at h
    obtain ⟨_, _, hs'⟩ := h
    subst hs'
    rw [hs] at hl ⊢
    have := packLoop_progress env _ c rest _ st hl hrst hroom
    simp only [queueMeasure, List.map_nil, List.sum_nil, List.length_nil, Nat.zero_add] at this
    simp only [queueMeasure]
    exact this

theorem headerWidths_le (c : MozQuicStreamChunk) :
    4 + streamIdLen c.mStreamID + offsetLen c.mOffset ≤ 16 := by
  have h1 := streamIdLen_le c.mStreamID
  have h2 : offsetLen c.mOffset ≤ 8 := by
    rw [offsetLen_eq]; split_ifs <;> omega
  omega

theorem flushRoom_lt (env : Env) : flushRoom env < 2 ^ 32 := by
  unfold flushRoom
  have h := Int.emod_lt_of_pos ((env.mMTU : Int) - env.kTagLen -
    env.CreateShortPacketHeader ((env.mMTU + 2 ^ 32 - env.kTagLen % 2 ^ 32) % 2 ^ 32))
    (show (0 : Int) < 2 ^ 32 by norm_num)
  have h0 := Int.emod_nonneg ((env.mMTU : Int) - env.kTagLen -
    env.CreateShortPacketHeader ((env.mMTU + 2 ^ 32 - env.kTagLen % 2 ^ 32) % 2 ^ 32))
    (show (2 ^ 32 : Int) ≠ 0 by norm_num)
  omega

theorem CreateStreamFrames_nil (env : Env) (s : StreamState) (room : Nat) (justZero : Bool)
    (hs : s.mUnWrittenData = []) :
    CreateStreamFrames env s room justZero = some (Code.MOZQUIC_OK, [], room, s) := by
  unfold CreateStreamFrames
  rw [hs]
  simp only [List.length_nil, packLoop]
  obtain ⟨a, b, c, d, e, f, g⟩ := s
  simp only at hs
  subst hs
  rfl

/-- One pass of `Flush` that leaves chunks in `unwritten` after a successful
transmit: the call is the recursive call on the state the pass leaves. -/
theorem Flush_again (env : Env) (fuel : Nat) (forceAck : Bool) (s s2 : StreamState)
    (out : List Nat) (room' : Nat) (hd : env.DecodedOK = true)
    (hne : ¬ (s.mUnWrittenData = [] ∧ forceAck = false)) (hmtu : env.mMTU ≤ env.kMaxMTU)
    (hc : CreateStreamFrames env
        { s with trace := s.trace ++
          [Effect.CreateShortPacketHeader ((env.mMTU + 2 ^ 32 - env.kTagLen % 2 ^ 32) % 2 ^ 32),
           Effect.CreateStreamFrames (flushRoom env) false] }
        (flushRoom env) false = some (Code.MOZQUIC_OK, out, room', s2))
    (hpt : env.ProtectedTransmit out = Code.MOZQUIC_OK) (hs2 : s2.mUnWrittenData ≠ []) :
    Flush env (fuel + 1) forceAck s
      = Flush env fuel false { s2 with trace := s2.trace ++ [Effect.ProtectedTransmit out] } := by
  rw [Flush]
  simp only [hd, Bool.true_eq_false, if_false]
  rw [if_neg hne, if_neg (by simpa using hmtu)]
  unfold flushRoom at hc
  rw [hc]
  simp only [hpt, ne_eq, not_true_eq_false, if_false]
  rw [if_pos hs2]

theorem CreateStreamFrames_rst_stuck (s : StreamState) (hs : s.mUnWrittenData = [rstChunk1]) :
    CreateStreamFrames tightEnv s 16 false = some (Code.MOZQUIC_OK, [], 16, s) := by
  unfold CreateStreamFrames
  rw [hs]
  rw [show 2 * [rstChunk1].length + 1 = 2 + 1 from rfl, packLoop]
  rw [if_neg (by decide), if_pos (by decide)]
  simp only
  rw [if_pos (by decide)]
  obtain ⟨a, b, c, d, e, f, g⟩ := s
  simp only at hs
  subst hs
  rfl

theorem Flush_rst_stuck : ∀ (fuel : Nat) (s : StreamState), s.mUnWrittenData = [rstChunk1] →
    Flush tightEnv fuel false s = none := by
  intro fuel
  induction fuel with
  | zero => intro s _; rfl
  | succ fuel ih =>
    intro s hs
    rw [Flush_again tightEnv fuel false s
      { s with trace := s.trace ++
        [Effect.CreateShortPacketHeader 32, Effect.CreateStreamFrames 16 false] }
      [] 16 rfl (by rw [hs]; simp) (by decide)
      (CreateStreamFrames_rst_stuck _ hs) rfl (by rw [hs]; simp)]
    exact ih _ hs

theorem Flush_terminates (env : Env) (hmtu : env.mMTU ≤ env.kMaxMTU)
    (hroom : 16 ≤ flushRoom env)
    (hpt : ∀ out, env.ProtectedTransmit out = Code.MOZQUIC_OK)
    (hrst : ∀ d, (env.CreateStreamRst (flushRoom env) d).1 = Code.MOZQUIC_OK)
    (hfs : env.DecodedOK = false → ∀ b x,
      queueMeasure (env.FlushStream0 b x).mUnWrittenData ≤ queueMeasure x.mUnWrittenData) :
    ∀ (n : Nat) (forceAck : Bool) (s : StreamState), queueMeasure s.mUnWrittenData ≤ n →
      ∃ s', Flush env (n + 1) forceAck s = some (Code.MOZQUIC_OK, s') ∧
        s'.mUnWrittenData = [] := by
  intro n
  induction n using Nat.strong_induction_on with
  | _ n ih =>
    intro forceAck s hn
    rw [Flush]
    simp only
    have hs1 : queueMeasure
        (if env.DecodedOK = false then
          env.FlushStream0 forceAck { s with trace := s.trace ++ [Effect.FlushStream0 forceAck] }
         else s).mUnWrittenData ≤ n := by
      split_ifs with hd
      · exact le_trans (hfs hd _ _) hn
      · exact hn
    generalize (if env.DecodedOK = false then
          env.FlushStream0 forceAck { s with trace := s.trace ++ [Effect.FlushStream0 forceAck] }
         else s) = s1 at hs1
    by_cases h1 : s1.mUnWrittenData = [] ∧ forceAck = false
    · rw [if_pos h1]
      exact ⟨s1, rfl, h1.1⟩
    · rw [if_neg h1, if_neg (by simpa using hmtu)]
      have hlt := flushRoom_lt env
      unfold flushRoom at hroom hlt hrst
      by_cases hq : s1.mUnWrittenData = []
      · rw [CreateStreamFrames_nil env
          { s1 with trace := s1.trace ++
            [Effect.CreateShortPacketHeader ((env.mMTU + 2 ^ 32 - env.kTagLen % 2 ^ 32) % 2 ^ 32),
             Effect.CreateStreamFrames (Int.toNat (((env.mMTU : Int) - env.kTagLen -
                env.CreateShortPacketHeader ((env.mMTU + 2 ^ 32 - env.kTagLen % 2 ^ 32) % 2 ^ 32))
                % 2 ^ 32)) false] } _ false hq]
        simp only [hpt, ne_eq, not_true_eq_false, if_false, hq]
        exact ⟨_, rfl, rfl⟩
      · obtain ⟨c, rest, hq⟩ := List.exists_cons_of_ne_nil hq
        obtain ⟨out, room', s2, hc, hm, _⟩ := CreateStreamFrames_progress env
          { s1 with trace := s1.trace ++
            [Effect.CreateShortPacketHeader ((env.mMTU + 2 ^ 32 - env.kTagLen % 2 ^ 32) % 2 ^ 32),
             Effect.CreateStreamFrames (Int.toNat (((env.mMTU : Int) - env.kTagLen -
                env.CreateShortPacketHeader ((env.mMTU + 2 ^ 32 - env.kTagLen % 2 ^ 32) % 2 ^ 32))
                % 2 ^ 32)) false] }
          (Int.toNat (((env.mMTU : Int) - env.kTagLen -
            env.CreateShortPacketHeader ((env.mMTU + 2 ^ 32 - env.kTagLen % 2 ^ 32) % 2 ^ 32))
            % 2 ^ 32)) c rest hq (fun _ => hrst c)
          (fun _ => by
            rw [Nat.mod_eq_of_lt hlt]
            exact le_trans (headerWidths_le c) hroom)
        rw [hc]
        simp only [hpt, ne_eq, not_true_eq_false, if_false]
        simp only at hm
        by_cases he : s2.mUnWrittenData = []
        · rw [if_neg (by simpa using he)]
          exact ⟨_, rfl, he⟩
        · rw [if_pos he]
          obtain ⟨m, rfl⟩ : ∃ m, n = m + 1 := ⟨n - 1, by omega⟩
          exact ih m (by omega) false _ (by
            show queueMeasure s2.mUnWrittenData ≤ m
            omega)

/-- C24 (counterexample). The endpoint `tightEnv` offers 16 bytes of room behind
the header of every packet, its transmits succeed, and its reset frames take
17 bytes. With the data chunk `chunkABC` and a reset marker queued, the first
pass of `Flush` packs the data chunk; every later pass finds the reset marker
at the head of `unwritten`, writes nothing and transmits an empty packet:
`Flush` does not return, however many recursive calls are allowed. -/
theorem C24_counterexample_reset_does_not_fit :
    stateDataRst.mUnWrittenData = [chunkABC, rstChunk1] ∧ chunkABC.mRst = false ∧
    flushRoom tightEnv = 16 ∧
    1 + streamIdLen chunkABC.mStreamID + offsetLen chunkABC.mOffset + 2 + 1 ≤ 16 ∧
    tightEnv.DecodedOK = true ∧ tightEnv.mMTU ≤ tightEnv.kMaxMTU ∧
    (∀ out, tightEnv.ProtectedTransmit out = Code.MOZQUIC_OK) ∧
    (∀ fuel, Flush tightEnv fuel false stateDataRst = none) := by
  refine ⟨rfl, rfl, by decide, by decide, rfl, by decide, fun _ => rfl, ?_⟩
  intro fuel
  cases fuel with
  | zero => rfl
  | succ fuel =>
    rw [Flush_again tightEnv fuel false stateDataRst
      { freshState with
        mUnWrittenData := [rstChunk1],
        mUnAckedData := [stampChunk tightEnv chunkABC],
        trace := [Effect.CreateShortPacketHeader 32, Effect.CreateStreamFrames 16 false] }
      [0xE1, 1, 0, 3, 0x41, 0x42, 0x43] 9 rfl (by decide) (by decide) (by decide) rfl
      (by decide)]
    exact Flush_rst_stuck fuel _ rfl

/-- C24 (amended). Packing makes progress. Let `unwritten` start with a data chunk
`c` and let the buffer offer `room ≥ 1 + idLen + offsetLen + 2 + 1` bytes (a
32-bit value; 16 bytes always suffice). Then `CreateStreamFrames` with
`justZero = false` returns, moves at least one chunk to `unAcked` (first of
all `c`, or its head if it is split), and the measure of `unwritten` (data
bytes plus number of chunks) is strictly smaller afterwards. Whenever the
loop body splits a chunk, head and tail both hold at least one data byte and
together the bytes of the chunk. Hence `Flush` returns OK with `unwritten`
empty, after at most as many recursive calls as the measure of `unwritten`,
when the MTU fits the packet buffer, every packet offers 16 bytes of room
behind the header and room for a reset frame, every transmit succeeds, and,
as long as `DecodedOK()` is false, the stream-0 flush of the connection object
does not raise the measure. -/
theorem C24_packing_progress (env : Env) (s : StreamState) (room : Nat)
    (c : MozQuicStreamChunk) (rest : List MozQuicStreamChunk) (forceAck : Bool)
    (hs : s.mUnWrittenData = c :: rest) (hdata : c.mRst = false)
    (hroom : 1 + streamIdLen c.mStreamID + offsetLen c.mOffset + 2 + 1 ≤ room)
    (hlt : room < 2 ^ 32) :
    (∃ out room' s',
      CreateStreamFrames env s room false = some (Code.MOZQUIC_OK, out, room', s') ∧
      (∃ more, s'.mUnAckedData = s.mUnAckedData ++
        stampChunk env (splitChunk env.newChunkTransmitCount
          (room - (3 + streamIdLen c.mStreamID + offsetLen c.mOffset)) c).1 :: more) ∧
      queueMeasure s'.mUnWrittenData < queueMeasure s.mUnWrittenData) ∧
    1 + streamIdLen c.mStreamID + offsetLen c.mOffset + 2 + 1 ≤ 16 ∧
    (∀ count0 avail d p t, packDataChunk count0 avail d = some p → p.tail = some t →
      1 ≤ p.chunk.mLen ∧ 1 ≤ t.mLen ∧ p.chunk.mLen + t.mLen = d.mLen) ∧
    (env.mMTU ≤ env.kMaxMTU → 16 ≤ flushRoom env →
      (∀ out, env.ProtectedTransmit out = Code.MOZQUIC_OK) →
      (∀ d, (env.CreateStreamRst (flushRoom env) d).1 = Code.MOZQUIC_OK) →
      (env.DecodedOK = false → ∀ b x,
        queueMeasure (env.FlushStream0 b x).mUnWrittenData ≤ queueMeasure x.mUnWrittenData) →
      ∃ s', Flush env (queueMeasure s.mUnWrittenData + 1) forceAck s
          = some (Code.MOZQUIC_OK, s') ∧ s'.mUnWrittenData = []) := by
  refine ⟨?_, ?_, ?_, ?_⟩
  · have hmod : room % 2 ^ 32 = room := Nat.mod_eq_of_lt hlt
    obtain ⟨out, room', s', h1, h2, head, more, h3, h4⟩ :=
      CreateStreamFrames_progress env s room c rest hs
        (fun hr => by rw [hdata] at hr; cases hr) (fun _ => by rw [hmod]; omega)
    rw [hmod] at h4
    refine ⟨out, room', s', h1, ⟨more, ?_⟩, h2⟩
    rw [h3, h4 hdata]
  · have := headerWidths_le c
    omega
  · intro count0 avail d p t hp ht
    exact packDataChunk_split_lengths avail d t p hp ht
  · intro hmtu h16 hpt hrst hfs
    exact Flush_terminates env hmtu h16 hpt hrst hfs _ forceAck s (le_refl _)

/-- C24 (witness): `chunkABC` and a reset marker queued, at an endpoint whose reset
frames take 17 bytes and whose packets offer 1204 bytes. With 6 bytes of room
`chunkABC` is split; `Flush` sends both chunks. -/
theorem C24_packing_progress_witness :
    (∃ out room' s',
      CreateStreamFrames rstWriterEnv stateDataRst 6 false
        = some (Code.MOZQUIC_OK, out, room', s') ∧
      (∃ more, s'.mUnAckedData = stateDataRst.mUnAckedData ++
        stampChunk rstWriterEnv (splitChunk rstWriterEnv.newChunkTransmitCount
          (6 - (3 + streamIdLen chunkABC.mStreamID + offsetLen chunkABC.mOffset)) chunkABC).1
            :: more) ∧
      queueMeasure s'.mUnWrittenData < queueMeasure stateDataRst.mUnWrittenData) ∧
    ∃ s', Flush rstWriterEnv (queueMeasure stateDataRst.mUnWrittenData + 1) false stateDataRst
        = some (Code.MOZQUIC_OK, s') ∧ s'.mUnWrittenData = [] :=
  ⟨(C24_packing_progress rstWriterEnv stateDataRst 6 chunkABC [rstChunk1] false rfl rfl
      (by decide) (by decide)).1,
   (C24_packing_progress rstWriterEnv stateDataRst 6 chunkABC [rstChunk1] false rfl rfl
      (by decide) (by decide)).2.2.2 (by decide) (by decide) (fun _ => rfl) (fun _ => rfl)
      (fun h => absurd h (by decide))⟩

end mozquic
